import Mathlib

/-!
# Settings persistence of the CyberShield dashboard (`settings.js`)

A shallow embedding of the settings subsystem of `src/settings.js`:
`saveSettings`, `loadSavedSettings`, `loadSavedTheme`, `applyTheme`, the
toggle change handlers wired by `initializeToggles`, and the export / import
handlers of `initSystemActionButtons`.

The browser facilities the code calls are embedded as executable definitions:

* `JSON.parse` / `JSON.stringify` over a JSON value type (`JVal`).  Numbers are
  exact decimals `m / 10 ^ k`; IEEE rounding and the engine's shortest-decimal
  formatting are not modelled (an integer prints as its digits, a fraction
  prints in mantissa/exponent form).  Strings are sequences of Unicode scalar
  values; an escaped lone surrogate reads as U+FFFD.
* `localStorage` as a list of entries with a quota; `setItem` throws when the
  quota would be exceeded.
* the document as a list of elements addressed by id or class.
-/

namespace CyberShield

/-! ## JSON values -/

/-- A JSON value. `num m k` is the number `m / 10 ^ k`.  The members of an
object are listed in the engine's property order: array-index keys ascending,
then the other keys in insertion order. -/
inductive JVal where
  | null
  | bool (b : Bool)
  | num (m : Int) (k : Nat)
  | str (s : String)
  | arr (xs : List JVal)
  | obj (kvs : List (String × JVal))

/-! ### Decimal digits -/

/-- The decimal digit character of `d` (for `d < 10`). -/
def digitChar (d : Nat) : Char :=
  match d with
  | 0 => '0' | 1 => '1' | 2 => '2' | 3 => '3' | 4 => '4'
  | 5 => '5' | 6 => '6' | 7 => '7' | 8 => '8' | _ => '9'

/-- Is `c` one of `0`..`9`? -/
def isDigit (c : Char) : Bool := decide (48 ≤ c.toNat) && decide (c.toNat ≤ 57)

/-- The value of a decimal digit character. -/
def digitVal (c : Char) : Nat :=
  if c = '1' then 1 else if c = '2' then 2 else if c = '3' then 3
  else if c = '4' then 4 else if c = '5' then 5 else if c = '6' then 6
  else if c = '7' then 7 else if c = '8' then 8 else if c = '9' then 9 else 0

/-- Decimal digits of `n`, most significant first, with fuel. -/
def natDigitsF : Nat → Nat → List Char
  | 0, _ => []
  | f + 1, n => if n < 10 then [digitChar n] else natDigitsF f (n / 10) ++ [digitChar (n % 10)]

/-- Decimal digits of `n`, most significant first; `0` prints as `0`. -/
def natDigits (n : Nat) : List Char := natDigitsF (n + 1) n

/-- The longest prefix of decimal digits, and the rest. -/
def takeDigits : List Char → List Char × List Char
  | [] => ([], [])
  | c :: cs =>
    if isDigit c then ((takeDigits cs).1.cons c, (takeDigits cs).2) else ([], c :: cs)

/-- The number written by a list of digits, continuing from `acc`. -/
def digitsToNat (acc : Nat) : List Char → Nat
  | [] => acc
  | c :: cs => digitsToNat (acc * 10 + digitVal c) cs

/-- Strip trailing zeros of the mantissa of `m / 10 ^ k`. -/
def normDec : Int → Nat → Int × Nat
  | m, 0 => (m, 0)
  | m, k + 1 => if m % 10 = 0 then normDec (m / 10) k else (m, k + 1)

/-- The exact decimal `mant * 10 ^ e` as a normalised pair. -/
def mkDec (mant : Int) (e : Int) : Int × Nat :=
  if 0 ≤ e then (mant * 10 ^ e.toNat, 0) else normDec mant (-e).toNat

/-! ### Serialisation (`JSON.stringify`) -/

/-- Lower-case hexadecimal digit. -/
def hexDigit (n : Nat) : Char :=
  if n < 10 then digitChar n else Char.ofNat (87 + n)

/-- The text `JSON.stringify` emits for one character of a string
(`QuoteJSONString`). -/
def quoteChar (c : Char) : List Char :=
  if c = '"' then ['\\', '"']
  else if c = '\\' then ['\\', '\\']
  else if c.toNat = 8 then ['\\', 'b']
  else if c.toNat = 9 then ['\\', 't']
  else if c.toNat = 10 then ['\\', 'n']
  else if c.toNat = 12 then ['\\', 'f']
  else if c.toNat = 13 then ['\\', 'r']
  else if c.toNat < 32 then
    ['\\', 'u', '0', '0', hexDigit (c.toNat / 16), hexDigit (c.toNat % 16)]
  else [c]

/-- The escaped body of a string, without the surrounding quotes. -/
def quoteBody : List Char → List Char
  | [] => []
  | c :: cs => quoteChar c ++ quoteBody cs

/-- A quoted JSON string. -/
def quote (s : String) : List Char := '"' :: (quoteBody s.data ++ ['"'])

/-- The text of the number `m / 10 ^ k`. -/
def numText (m : Int) (k : Nat) : List Char :=
  (if m < 0 then ['-'] else []) ++ natDigits m.natAbs ++
    (if k = 0 then [] else 'e' :: '-' :: natDigits k)

mutual
/-- The compact text of a value, as `JSON.stringify` with one argument
produces it. -/
def stringifyVal : JVal → List Char
  | .null => ['n', 'u', 'l', 'l']
  | .bool true => ['t', 'r', 'u', 'e']
  | .bool false => ['f', 'a', 'l', 's', 'e']
  | .num m k => numText m k
  | .str s => quote s
  | .arr xs => '[' :: stringifyElems true xs
  | .obj kvs => '{' :: stringifyMembers true kvs
/-- The elements of an array, comma separated, followed by the closing
bracket; `first` says that no element has been written yet. -/
def stringifyElems (first : Bool) : List JVal → List Char
  | [] => [']']
  | x :: xs => (if first then [] else [',']) ++ (stringifyVal x ++ stringifyElems false xs)
/-- The members of an object, comma separated, followed by the closing
brace. -/
def stringifyMembers (first : Bool) : List (String × JVal) → List Char
  | [] => ['}']
  | kv :: kvs =>
    (if first then [] else [',']) ++
      (quote kv.1 ++ ':' :: (stringifyVal kv.2 ++ stringifyMembers false kvs))
end

/-! ### Structural equality -/

mutual
/-- Structural equality test on values. -/
def JVal.beq : JVal → JVal → Bool
  | .null, .null => true
  | .bool a, .bool b => decide (a = b)
  | .num m k, .num m2 k2 => decide (m = m2) && decide (k = k2)
  | .str s, .str t => decide (s = t)
  | .arr xs, .arr ys => beqElems xs ys
  | .obj xs, .obj ys => beqMembers xs ys
  | _, _ => false
/-- Structural equality test on element lists. -/
def beqElems : List JVal → List JVal → Bool
  | [], [] => true
  | x :: xs, y :: ys => JVal.beq x y && beqElems xs ys
  | _, _ => false
/-- Structural equality test on member lists. -/
def beqMembers : List (String × JVal) → List (String × JVal) → Bool
  | [], [] => true
  | x :: xs, y :: ys => decide (x.1 = y.1) && (JVal.beq x.2 y.2 && beqMembers xs ys)
  | _, _ => false
end

/-! ### Object properties -/

/-- The array index a property key denotes, if it is one: a canonical decimal
numeral below `2 ^ 32 - 1`. -/
def arrayIndex (k : String) : Option Nat :=
  if natDigits (digitsToNat 0 k.data) = k.data ∧ digitsToNat 0 k.data < 4294967295 then
    some (digitsToNat 0 k.data)
  else none

/-- Does a new key `k` come before the existing key `k'` in property order? -/
def keyBefore (k k' : String) : Bool :=
  match arrayIndex k, arrayIndex k' with
  | some i, some j => decide (i < j)
  | some _, none => true
  | none, _ => false

/-- The own property `k` of an object, if present. -/
def lookupProp (k : String) : List (String × JVal) → Option JVal
  | [] => none
  | kv :: kvs => if kv.1 = k then some kv.2 else lookupProp k kvs

/-- Is `k` an own property? -/
def hasProp (k : String) (kvs : List (String × JVal)) : Bool := (lookupProp k kvs).isSome

/-- Overwrite the value of the existing own property `k`. -/
def replaceProp (k : String) (v : JVal) : List (String × JVal) → List (String × JVal)
  | [] => []
  | kv :: kvs => if kv.1 = k then (k, v) :: kvs else kv :: replaceProp k v kvs

/-- Add the new own property `k` at its place in property order. -/
def insertProp (k : String) (v : JVal) : List (String × JVal) → List (String × JVal)
  | [] => [(k, v)]
  | kv :: kvs => if keyBefore k kv.1 then (k, v) :: kv :: kvs else kv :: insertProp k v kvs

/-- Create or overwrite the own data property `k` (`CreateDataProperty`). -/
def defineProp (kvs : List (String × JVal)) (k : String) (v : JVal) : List (String × JVal) :=
  if hasProp k kvs then replaceProp k v kvs else insertProp k v kvs

/-- The object a parsed member list denotes: members are defined left to right,
a repeated key keeps its first position and takes its last value. -/
def mkObject (acc : List (String × JVal)) : List (String × JVal) → List (String × JVal)
  | [] => acc
  | kv :: kvs => mkObject (defineProp acc kv.1 kv.2) kvs

/-! ### Parsing (`JSON.parse`) -/

/-- JSON white space: tab, line feed, carriage return, space. -/
def isWs (c : Char) : Bool :=
  decide (c.toNat = 32) || decide (c.toNat = 9) || decide (c.toNat = 10) || decide (c.toNat = 13)

/-- Drop leading white space. -/
def skipWs : List Char → List Char
  | [] => []
  | c :: cs => if isWs c then skipWs cs else c :: cs

/-- The value of a hexadecimal digit. -/
def hexVal (c : Char) : Option Nat :=
  if isDigit c then some (digitVal c)
  else if c = 'a' ∨ c = 'A' then some 10
  else if c = 'b' ∨ c = 'B' then some 11
  else if c = 'c' ∨ c = 'C' then some 12
  else if c = 'd' ∨ c = 'D' then some 13
  else if c = 'e' ∨ c = 'E' then some 14
  else if c = 'f' ∨ c = 'F' then some 15
  else none

/-- The code unit written by four hexadecimal digits. -/
def hex4 (a b c d : Char) : Option Nat :=
  match hexVal a, hexVal b, hexVal c, hexVal d with
  | some x, some y, some z, some w => some (((x * 16 + y) * 16 + z) * 16 + w)
  | _, _, _, _ => none

/-- The character of a single code unit; a lone surrogate reads as U+FFFD. -/
def unitChar (n : Nat) : Char :=
  if 55296 ≤ n ∧ n ≤ 57343 then Char.ofNat 65533 else Char.ofNat n

/-- The character of a surrogate pair. -/
def pairChar (hi lo : Nat) : Char := Char.ofNat (65536 + (hi - 55296) * 1024 + (lo - 56320))

/-- Join the code units of a string body into characters: a high surrogate
followed by a low surrogate is one character. -/
def combineUnits : List Nat → List Char
  | [] => []
  | [n] => [unitChar n]
  | n :: n2 :: ns2 =>
    if (55296 ≤ n ∧ n ≤ 56319) ∧ (56320 ≤ n2 ∧ n2 ≤ 57343) then
      pairChar n n2 :: combineUnits ns2
    else unitChar n :: combineUnits (n2 :: ns2)

/-- The code unit a one-letter escape stands for. -/
def unescape (e : Char) : Option Nat :=
  if e = '"' then some 34
  else if e = '\\' then some 92
  else if e = '/' then some 47
  else if e = 'b' then some 8
  else if e = 'f' then some 12
  else if e = 'n' then some 10
  else if e = 'r' then some 13
  else if e = 't' then some 9
  else none

/-- Prepend a code unit to a parsed string body. -/
def consUnit (n : Nat) (r : Option (List Nat × List Char)) : Option (List Nat × List Char) :=
  match r with
  | none => none
  | some (s, rest) => some (n :: s, rest)

/-- Scan a string after its opening quote, up to and including the closing
quote: the code units of its body, and the rest of the input. -/
def parseStrUnits : List Char → Option (List Nat × List Char)
  | [] => none
  | c :: cs =>
    if c = '"' then some ([], cs)
    else if c = '\\' then
      match cs with
      | [] => none
      | e :: r =>
        if e = 'u' then
          match r with
          | a :: b :: c4 :: d :: r1 =>
            match hex4 a b c4 d with
            | none => none
            | some n => consUnit n (parseStrUnits r1)
          | _ => none
        else
          match unescape e with
          | none => none
          | some n => consUnit n (parseStrUnits r)
    else if c.toNat < 32 then none
    else consUnit c.toNat (parseStrUnits cs)

/-- Parse a string after its opening quote. -/
def parseStrBody (cs : List Char) : Option (String × List Char) :=
  match parseStrUnits cs with
  | none => none
  | some (us, rest) => some (String.mk (combineUnits us), rest)

/-- Parse the optional exponent part of a number. -/
def parseExp (cs : List Char) : Option (Int × List Char) :=
  match cs with
  | e :: r =>
    if e = 'e' ∨ e = 'E' then
      match r with
      | s :: r1 =>
        if s = '-' then
          (if (takeDigits r1).1 = [] then none
           else some (-(digitsToNat 0 (takeDigits r1).1 : Int), (takeDigits r1).2))
        else if s = '+' then
          (if (takeDigits r1).1 = [] then none
           else some ((digitsToNat 0 (takeDigits r1).1 : Int), (takeDigits r1).2))
        else
          (if (takeDigits r).1 = [] then none
           else some ((digitsToNat 0 (takeDigits r).1 : Int), (takeDigits r).2))
      | [] => none
    else some (0, cs)
  | [] => some (0, cs)

/-- Parse the optional fraction part of a number: its digits and the rest. -/
def parseFrac (cs : List Char) : Option (List Char × List Char) :=
  match cs with
  | [] => some ([], [])
  | c :: r =>
    if c = '.' then (if (takeDigits r).1 = [] then none else some (takeDigits r))
    else some ([], c :: r)

/-- Parse an unsigned number: integer part (`0`, or digits without a leading
zero), optional fraction, optional exponent. -/
def parseUnsigned (cs : List Char) : Option ((Nat × Int) × List Char) :=
  match cs with
  | [] => none
  | c :: r =>
    if isDigit c then
      let ip : List Char × List Char := if c = '0' then (['0'], r) else takeDigits (c :: r)
      match parseFrac ip.2 with
      | none => none
      | some (fd, r1) =>
        match parseExp r1 with
        | none => none
        | some (e, r2) => some ((digitsToNat 0 (ip.1 ++ fd), e - (fd.length : Int)), r2)
    else none

/-- Attach the sign to a parsed unsigned number. -/
def signed (neg : Bool) (r : Option ((Nat × Int) × List Char)) : Option ((Int × Nat) × List Char) :=
  match r with
  | none => none
  | some (n, r1) => some (mkDec (if neg then -(n.1 : Int) else (n.1 : Int)) n.2, r1)

/-- Parse a number. -/
def parseNumber (cs : List Char) : Option ((Int × Nat) × List Char) :=
  match cs with
  | [] => none
  | c :: r => if c = '-' then signed true (parseUnsigned r) else signed false (parseUnsigned (c :: r))

mutual
/-- Parse one value, skipping leading white space. -/
def parseValue : Nat → List Char → Option (JVal × List Char)
  | 0, _ => none
  | f + 1, cs =>
    match skipWs cs with
    | [] => none
    | c :: r =>
      if c = '{' then
        match skipWs r with
        | [] => none
        | c1 :: r1 =>
          if c1 = '}' then some (.obj [], r1)
          else
            match parseMembers f (c1 :: r1) with
            | none => none
            | some (kvs, r2) => some (.obj (mkObject [] kvs), r2)
      else if c = '[' then
        match skipWs r with
        | [] => none
        | c1 :: r1 =>
          if c1 = ']' then some (.arr [], r1)
          else
            match parseElements f (c1 :: r1) with
            | none => none
            | some (xs, r2) => some (.arr xs, r2)
      else if c = '"' then
        match parseStrBody r with
        | none => none
        | some (s, r1) => some (.str s, r1)
      else if c = 't' then
        match r with
        | 'r' :: 'u' :: 'e' :: r1 => some (.bool true, r1)
        | _ => none
      else if c = 'f' then
        match r with
        | 'a' :: 'l' :: 's' :: 'e' :: r1 => some (.bool false, r1)
        | _ => none
      else if c = 'n' then
        match r with
        | 'u' :: 'l' :: 'l' :: r1 => some (.null, r1)
        | _ => none
      else
        match parseNumber (c :: r) with
        | none => none
        | some (n, r1) => some (.num n.1 n.2, r1)
/-- Parse the elements of a non-empty array up to the closing bracket. -/
def parseElements : Nat → List Char → Option (List JVal × List Char)
  | 0, _ => none
  | f + 1, cs =>
    match parseValue f cs with
    | none => none
    | some (v, r) =>
      match skipWs r with
      | [] => none
      | c :: r1 =>
        if c = ',' then
          match parseElements f r1 with
          | none => none
          | some (vs, r2) => some (v :: vs, r2)
        else if c = ']' then some ([v], r1)
        else none
/-- Parse the members of a non-empty object up to the closing brace. -/
def parseMembers : Nat → List Char → Option (List (String × JVal) × List Char)
  | 0, _ => none
  | f + 1, cs =>
    match skipWs cs with
    | [] => none
    | q :: r =>
      if q = '"' then
        match parseStrBody r with
        | none => none
        | some (k, r1) =>
          match skipWs r1 with
          | [] => none
          | c :: r2 =>
            if c = ':' then
              match parseValue f r2 with
              | none => none
              | some (v, r3) =>
                match skipWs r3 with
                | [] => none
                | d :: r4 =>
                  if d = ',' then
                    match parseMembers f r4 with
                    | none => none
                    | some (kvs, r5) => some ((k, v) :: kvs, r5)
                  else if d = '}' then some ([(k, v)], r4)
                  else none
            else none
      else none
end

/-- The text of a value, as a string (`JSON.stringify(v)`). -/
def JSON.stringify (v : JVal) : String := String.mk (stringifyVal v)

/-- Parse a JSON text (`JSON.parse(text)`); `none` stands for the
`SyntaxError` the engine throws. -/
def JSON.parse (text : String) : Option JVal :=
  match parseValue (2 * text.data.length + 2) text.data with
  | none => none
  | some (v, rest) => if skipWs rest = [] then some v else none

/-! ### Well-formed values -/

/-- May the key `k` stand before the key `k'` in an object?  Array indices
ascend and precede the other keys, which are distinct. -/
def keyRel (k k' : String) : Bool :=
  match arrayIndex k, arrayIndex k' with
  | some i, some j => decide (i < j)
  | some _, none => true
  | none, some _ => false
  | none, none => decide (k ≠ k')

/-- Are the members in property order, without a repeated key? -/
def keysOrdered : List (String × JVal) → Bool
  | [] => true
  | kv :: kvs => kvs.all (fun kv' => keyRel kv.1 kv'.1) && keysOrdered kvs

mutual
/-- Is the value in the form `JSON.parse` returns: numbers normalised, object
members in property order without repeated keys? -/
def JVal.wf : JVal → Bool
  | .num m k => decide (k = 0) || decide (m % 10 ≠ 0)
  | .arr xs => wfElems xs
  | .obj kvs => keysOrdered kvs && wfMembers kvs
  | _ => true
/-- Are all elements well formed? -/
def wfElems : List JVal → Bool
  | [] => true
  | x :: xs => JVal.wf x && wfElems xs
/-- Are all member values well formed? -/
def wfMembers : List (String × JVal) → Bool
  | [] => true
  | kv :: kvs => JVal.wf kv.2 && wfMembers kvs
end

mutual
/-- Fuel that suffices to parse the text of a value. -/
def JVal.need : JVal → Nat
  | .arr xs => 1 + needElems xs
  | .obj kvs => 1 + needMembers kvs
  | _ => 1
/-- Fuel that suffices to parse the texts of the elements. -/
def needElems : List JVal → Nat
  | [] => 0
  | x :: xs => 1 + JVal.need x + needElems xs
/-- Fuel that suffices to parse the texts of the members. -/
def needMembers : List (String × JVal) → Nat
  | [] => 0
  | kv :: kvs => 1 + JVal.need kv.2 + needMembers kvs
end

/-- The rest of the input does not continue a run of digits. -/
def NoDigitAhead (rest : List Char) : Prop := ∀ c tl, rest = c :: tl → isDigit c = false

/-- The rest of the input starts with a separator or closer, or is empty: the
places where `JSON.stringify` ends a value. -/
def Delim (rest : List Char) : Prop :=
  ∀ c tl, rest = c :: tl → c = ',' ∨ c = ']' ∨ c = '}'

/-- The exponent suffix of a number text. -/
def expText (k : Nat) : List Char := if k = 0 then [] else 'e' :: '-' :: natDigits k

/-- A character that can start the text of a value. -/
def ValueStart (c : Char) : Prop :=
  isWs c = false ∧ c ≠ ']' ∧ c ≠ '}'

/-! ### Conversions of values -/

/-- Join strings with commas (`Array.prototype.join`). -/
def joinComma : List (List Char) → List Char
  | [] => []
  | [x] => x
  | x :: y :: ys => x ++ ',' :: joinComma (y :: ys)

mutual
/-- The string a value converts to (`ToString`). -/
def toStrChars : JVal → List Char
  | .null => ['n', 'u', 'l', 'l']
  | .bool true => ['t', 'r', 'u', 'e']
  | .bool false => ['f', 'a', 'l', 's', 'e']
  | .num m k => numText m k
  | .str s => s.data
  | .arr xs => joinComma (toStrElems xs)
  | .obj _ => "[object Object]".data
/-- The texts of the elements of an array inside `join`: `null` is empty. -/
def toStrElems : List JVal → List (List Char)
  | [] => []
  | .null :: xs => [] :: toStrElems xs
  | x :: xs => toStrChars x :: toStrElems xs
end

/-- The string a value converts to (`ToString`), as in a template literal or
an argument of `getElementById`. -/
def toStr (v : JVal) : String := String.mk (toStrChars v)

/-- The string assigned to a DOM attribute that treats `null` as empty
(`value`, `textContent`). -/
def toDOMString : JVal → String
  | .null => ""
  | v => toStr v

/-- Truthiness of a value (`ToBoolean`). -/
def toBoolean : JVal → Bool
  | .null => false
  | .bool b => b
  | .num m _ => decide (m ≠ 0)
  | .str s => decide (s ≠ "")
  | .arr _ => true
  | .obj _ => true

/-- `s.includes(sub)` on character lists. -/
def includesChars (sub : List Char) : List Char → Bool
  | [] => sub.isEmpty
  | c :: cs => sub.isPrefixOf (c :: cs) || includesChars sub cs

/-- Does `s` contain `sub` (`String.prototype.includes`)? -/
def includes (s sub : String) : Bool := includesChars sub.data s.data

/-! ### Assignment to a property of a parsed value -/

/-- Errors thrown by the engine. -/
inductive JSError where
  | syntaxError
  | typeError
  | rangeError
  | quotaExceeded
  deriving DecidableEq, Repr

/-- White space trimmed by `StringToNumber`. -/
def isStrWs (c : Char) : Bool :=
  decide (c.toNat ∈ [9, 10, 11, 12, 13, 32, 160, 5760, 8232, 8233, 8239, 8287, 12288, 65279]) ||
    (decide (8192 ≤ c.toNat) && decide (c.toNat ≤ 8202))

/-- Trim white space at both ends. -/
def trimWs (cs : List Char) : List Char :=
  ((cs.dropWhile isStrWs).reverse.dropWhile isStrWs).reverse

/-- The value of digits in base `b`, when all of them are digits of that base
and there is at least one. -/
def radixVal (b : Nat) (cs : List Char) : Option Nat :=
  if cs = [] then none
  else cs.foldl (fun acc c =>
    match acc, hexVal c with
    | some a, some d => if d < b then some (a * b + d) else none
    | _, _ => none) (some 0)

/-- An unsigned `StrDecimalLiteral` other than `Infinity`: digits, optional
fraction, optional exponent, with digits on at least one side of the point. -/
def strUnsignedDecimal (cs : List Char) : Option (Int × Nat) :=
  let ip := takeDigits cs
  let fr : Option (List Char × List Char) :=
    match ip.2 with
    | '.' :: r => some (takeDigits r)
    | r => some ([], r)
  match fr with
  | none => none
  | some (fd, r1) =>
    if ip.1 = [] ∧ fd = [] then none
    else
      match parseExp r1 with
      | some (e, []) => some (mkDec (digitsToNat 0 (ip.1 ++ fd) : Int) (e - (fd.length : Int)))
      | _ => none

/-- The number a string converts to (`StringToNumber`), when it is finite:
`none` stands for `NaN` and the infinities. -/
def strToNumber (s : String) : Option (Int × Nat) :=
  match trimWs s.data with
  | [] => some (0, 0)
  | '0' :: x :: r =>
    if x = 'x' ∨ x = 'X' then (radixVal 16 r).map fun n => ((n : Int), 0)
    else if x = 'o' ∨ x = 'O' then (radixVal 8 r).map fun n => ((n : Int), 0)
    else if x = 'b' ∨ x = 'B' then (radixVal 2 r).map fun n => ((n : Int), 0)
    else strUnsignedDecimal ('0' :: x :: r)
  | '+' :: r => strUnsignedDecimal r
  | '-' :: r => (strUnsignedDecimal r).map fun d => (-d.1, d.2)
  | cs => strUnsignedDecimal cs

/-- The number a value converts to (`ToNumber`), when it is finite. -/
def toNumber : JVal → Option (Int × Nat)
  | .null => some (0, 0)
  | .bool true => some (1, 0)
  | .bool false => some (0, 0)
  | .num m k => some (m, k)
  | .str s => strToNumber s
  | .arr xs => strToNumber (toStr (.arr xs))
  | .obj _ => none

/-- The array length a value denotes, if it is a valid one: an integer in
`[0, 2 ^ 32 - 1]`. -/
def toArrayLength (v : JVal) : Option Nat :=
  match toNumber v with
  | some (m, 0) => if 0 ≤ m ∧ m < 4294967296 then some m.toNat else none
  | _ => none

/-- Set element `i` of an array, filling a gap with holes (which serialise as
`null`). -/
def setElem : List JVal → Nat → JVal → List JVal
  | [], 0, v => [v]
  | [], i + 1, v => JVal.null :: setElem [] i v
  | _ :: xs, 0, v => v :: xs
  | x :: xs, i + 1, v => x :: setElem xs i v

/-- Change the length of an array, truncating or filling with holes. -/
def resize (xs : List JVal) (n : Nat) : List JVal :=
  xs.take n ++ List.replicate (n - xs.length) JVal.null

/-- The statement `settings[key] = value` in non-strict code, on a value
returned by `JSON.parse`: the value as `JSON.stringify` will see it afterwards.

* `null` has no properties: `TypeError`.
* a boolean, number or string is a primitive: the assignment is dropped.
* an object gets or updates the own property, except that the key
  `__proto__`, when not an own property, reaches the prototype setter, which
  creates no own property.
* an array: an index sets an element, `length` resizes (`RangeError` for an
  invalid length), any other key is a named property that serialisation skips. -/
def assignProp (settings : JVal) (key : String) (value : JVal) : Except JSError JVal :=
  match settings with
  | .null => .error .typeError
  | .bool b => .ok (.bool b)
  | .num m k => .ok (.num m k)
  | .str s => .ok (.str s)
  | .obj kvs =>
    if key = "__proto__" ∧ hasProp key kvs = false then .ok (.obj kvs)
    else .ok (.obj (defineProp kvs key value))
  | .arr xs =>
    if key = "length" then
      match toArrayLength value with
      | none => .error .rangeError
      | some n => .ok (.arr (resize xs n))
    else
      match arrayIndex key with
      | some i => .ok (.arr (setElem xs i value))
      | none => .ok (.arr xs)

/-- The keys `Object.keys` lists, with the value of each; `null` throws. -/
def ownEntries : JVal → Except JSError (List (String × JVal))
  | .null => .error .typeError
  | .bool _ => .ok []
  | .num _ _ => .ok []
  | .str s => .ok ((List.range s.data.length).map fun i =>
      (String.mk (natDigits i), JVal.str (String.mk ((s.data.drop i).take 1))))
  | .arr xs => .ok ((List.range xs.length).map fun i =>
      (String.mk (natDigits i), xs.getD i JVal.null))
  | .obj kvs => .ok kvs

/-- The expression `settings.theme`: `none` stands for `undefined`; reading a
property of `null` throws. -/
def themeOf : JVal → Except JSError (Option JVal)
  | .null => .error .typeError
  | .obj kvs => .ok (lookupProp "theme" kvs)
  | _ => .ok none

/-! ## Local storage -/

/-- The origin's `localStorage`: its entries, and the quota on their total
size. -/
structure Storage where
  entries : List (String × String)
  quota : Nat
  deriving DecidableEq, Repr

/-- Total size of the entries, in characters. -/
def usedSpace : List (String × String) → Nat
  | [] => 0
  | kv :: kvs => kv.1.length + kv.2.length + usedSpace kvs

/-- Replace the value of `key`, or append a new entry. -/
def putEntry (key value : String) : List (String × String) → List (String × String)
  | [] => [(key, value)]
  | kv :: kvs => if kv.1 = key then (key, value) :: kvs else kv :: putEntry key value kvs

/-- `localStorage.getItem(key)`; `none` stands for `null`. -/
def Storage.getItem (st : Storage) (key : String) : Option String :=
  (st.entries.find? fun kv => kv.1 = key).map Prod.snd

/-- `localStorage.setItem(key, value)`; `none` stands for the
`QuotaExceededError` thrown when the entries would exceed the quota. -/
def Storage.setItem (st : Storage) (key value : String) : Option Storage :=
  if usedSpace (putEntry key value st.entries) ≤ st.quota then
    some { st with entries := putEntry key value st.entries }
  else none

/-- The storage key of the settings blob. -/
def settingsKey : String := "cybershield-settings"

/-- The expression `localStorage.getItem('cybershield-settings') || '{}'`: an
absent entry and an empty string both give `{}`. -/
def storedText (st : Storage) : String :=
  match st.getItem settingsKey with
  | none => "{}"
  | some s => if s = "" then "{}" else s

/-! ## The page -/

/-- An element of the document.  Controls are form inputs: `checked` is a
boolean and `value` a string (the value sanitisation of particular input types
is not modelled).  `next` and `swatch` are positions in the document's element
list. -/
structure Element where
  /-- The tag name, in lower case. -/
  tag : String
  /-- The `id` attribute (empty when there is none). -/
  id : String
  /-- The `type` attribute of an input. -/
  inputType : String
  /-- The `name` attribute. -/
  name : String
  /-- The class list. -/
  classes : List String
  checked : Bool
  value : String
  /-- The `textContent`. -/
  text : String
  /-- The `nextElementSibling`. -/
  next : Option Nat
  /-- The first descendant matching `.w-4.h-4`. -/
  swatch : Option Nat
  /-- Has `initializeToggles` attached its change listener? -/
  toggleWired : Bool
  deriving DecidableEq, Repr

/-- The state of the page the settings code reads and writes. -/
structure Page where
  storage : Storage
  /-- The elements of the document, in document order. -/
  elems : List Element
  /-- Custom properties set on `document.documentElement.style`. -/
  rootStyle : List (String × String)
  /-- The class list of `document.body`. -/
  bodyClasses : List String
  /-- The global `window.autoRefreshEnabled` (`none` while undefined). -/
  autoRefreshEnabled : Option Bool
  /-- The global `window.realTimeEnabled` (`none` while undefined). -/
  realTimeEnabled : Option Bool
  /-- Notifications shown so far, oldest first: message and type. -/
  notifications : List (String × String)
  /-- Files offered for download so far, oldest first: name and content. -/
  downloads : List (String × String)
  /-- Messages written by `console.error`, oldest first. -/
  console : List String
  deriving DecidableEq, Repr

/-- `classList.add(c)`. -/
def classAdd (c : String) (cs : List String) : List String :=
  if c ∈ cs then cs else cs ++ [c]

/-- `classList.remove(c)`. -/
def classRemove (c : String) (cs : List String) : List String :=
  cs.filter fun x => x ≠ c

/-- Position of the first element with the given id
(`document.getElementById`). -/
def findId (id : String) : List Element → Option Nat
  | [] => none
  | e :: es => if e.id = id then some 0 else (findId id es).map Nat.succ

/-- The function `document.getElementById`: no element has the empty id. -/
def getElementById (p : Page) (id : String) : Option Nat :=
  if id = "" then none else findId id p.elems

/-- Apply `f` to the element at position `i`. -/
def modifyAt (f : Element → Element) : Nat → List Element → List Element
  | _, [] => []
  | 0, e :: es => f e :: es
  | i + 1, e :: es => e :: modifyAt f i es

/-- Apply `f` to the element at position `i` of the page. -/
def Page.modify (p : Page) (i : Nat) (f : Element → Element) : Page :=
  { p with elems := modifyAt f i p.elems }

/-- Apply `f` to every element that has class `c`
(`querySelectorAll('.c').forEach`). -/
def Page.forClass (p : Page) (c : String) (f : Element → Element) : Page :=
  { p with elems := p.elems.map fun e => if c ∈ e.classes then f e else e }

/-- Assign the `checked` state of element `i`; checking a radio button
unchecks the other radio buttons of its group. -/
def setChecked (p : Page) (i : Nat) (b : Bool) : Page :=
  match p.elems.get? i with
  | none => p
  | some e =>
    let q : Page :=
      if b = true ∧ e.inputType = "radio" ∧ e.name ≠ "" then
        { p with elems := p.elems.map fun x =>
            if x.inputType = "radio" ∧ x.name = e.name then { x with checked := false } else x }
      else p
    q.modify i fun x => { x with checked := b }

/-- `root.style.setProperty(name, value)`. -/
def setProperty (name value : String) : List (String × String) → List (String × String)
  | [] => [(name, value)]
  | kv :: kvs => if kv.1 = name then (name, value) :: kvs else kv :: setProperty name value kvs

/-- Set a custom property on the root element of the page. -/
def Page.setStyle (p : Page) (name value : String) : Page :=
  { p with rootStyle := setProperty name value p.rootStyle }

/-- The function `showNotification(message, type)`; the timers that fade the
notification out are not modelled. -/
def showNotification (p : Page) (message : String) (type : String) : Page :=
  { p with notifications := p.notifications ++ [(message, type)] }

/-- The function `console.error`. -/
def logError (p : Page) (message : String) : Page :=
  { p with console := p.console ++ [message] }

/-! ## The settings code -/

/-- The function `saveSettings(key, value)` with the page after it. -/
def saveSettings (p : Page) (key : String) (value : JVal) : Bool × Page :=
  match JSON.parse (storedText p.storage) with
  | none => (false, logError p "Error saving settings:")
  | some settings =>
    match assignProp settings key value with
    | .error _ => (false, logError p "Error saving settings:")
    | .ok settings1 =>
      match p.storage.setItem settingsKey (JSON.stringify settings1) with
      | none => (false, logError p "Error saving settings:")
      | some st => (true, { p with storage := st })

/-- The reset to the default theme at the start of `applyTheme`. -/
def resetTheme (p : Page) : Page :=
  ((((((((((p.setStyle "--primary" "#23C8FF").setStyle "--primary-dark" "#15A1D9").setStyle
    "--secondary" "#FFB629").setStyle "--tertiary" "#FF4081").setStyle "--success"
    "#1CEFAF").setStyle "--warning" "#F5C346").setStyle "--danger" "#FF5252").setStyle "--dark"
    "#111A2C").setStyle "--darker" "#0A0E1A").setStyle "--light-dark" "#1E293B").setStyle
    "--border" "#2B3A55"

/-- The `switch` of `applyTheme`: the overrides of the selected theme. -/
def themeOverrides (p : Page) (themeId : JVal) : Page :=
  match themeId with
  | .str id =>
    if id = "theme-midnight" then
      ((((((p.setStyle "--primary" "#7B42F6").setStyle "--primary-dark" "#6535D4").setStyle
        "--dark" "#0D1324").setStyle "--darker" "#030B16").setStyle "--light-dark"
        "#162039").setStyle "--border" "#253354").setStyle "--tertiary" "#FF3C7A"
    else if id = "theme-matrix" then
      ((((((((p.setStyle "--primary" "#00FF00").setStyle "--primary-dark" "#00CC00").setStyle
        "--dark" "#001800").setStyle "--darker" "#001100").setStyle "--light-dark"
        "#002200").setStyle "--border" "#003300").setStyle "--success" "#00FFAA").setStyle
        "--secondary" "#AAFF00").setStyle "--tertiary" "#00FFFF"
    else if id = "theme-crimson" then
      (((((((p.setStyle "--primary" "#FF5252").setStyle "--primary-dark" "#D43535").setStyle
        "--dark" "#1A0D0D").setStyle "--darker" "#1A0505").setStyle "--light-dark"
        "#2B1616").setStyle "--border" "#3B2121").setStyle "--tertiary" "#FF9C3C").setStyle
        "--secondary" "#FF3C7A"
    else p
  | _ => p

/-- The function `applyTheme(themeId, showNotify)`. -/
def applyTheme (p : Page) (themeId : JVal) (showNotify : Bool) : Page :=
  let q := themeOverrides (resetTheme p) themeId
  if showNotify then showNotification q "Theme applied" "success" else q

/-- The function `handleSpecialToggle(toggleId, isChecked)`. -/
def handleSpecialToggle (p : Page) (toggleId : String) (isChecked : Bool) : Page :=
  if toggleId = "animation-toggle" then
    if !isChecked then
      (p.setStyle "--animation-duration" "0s").forClass "animate-pulse" fun e =>
        { e with classes := classRemove "animate-pulse" e.classes }
    else
      (p.setStyle "--animation-duration" "0.3s").forClass "neo-progress-bar" fun e =>
        { e with classes := classAdd "animate-pulse" e.classes }
  else if toggleId = "density-toggle" then
    if isChecked then
      { p with bodyClasses := classRemove "ui-compact" (classAdd "ui-comfortable" p.bodyClasses) }
    else
      { p with bodyClasses := classRemove "ui-comfortable" (classAdd "ui-compact" p.bodyClasses) }
  else if toggleId = "auto-refresh-toggle" then { p with autoRefreshEnabled := some isChecked }
  else if toggleId = "real-time-toggle" then { p with realTimeEnabled := some isChecked }
  else if toggleId = "developer-toggle" then
    if isChecked then
      ({ p with bodyClasses := classAdd "developer-mode" p.bodyClasses }).forClass "dev-feature"
        fun e => { e with classes := classRemove "hidden" e.classes }
    else
      ({ p with bodyClasses := classRemove "developer-mode" p.bodyClasses }).forClass
        "dev-feature" fun e => { e with classes := classAdd "hidden" e.classes }
  else p

/-- The ids `initializeToggles` wires. -/
def toggles : List String :=
  ["density-toggle", "animation-toggle", "email-toggle", "sms-toggle", "desktop-toggle",
   "auto-refresh-toggle", "real-time-toggle", "tooltips-toggle", "developer-toggle",
   "api-toggle", "debug-toggle"]

/-- The function `initializeToggles`: the change listener is attached to the
element found for each of the ids. -/
def initializeToggles (p : Page) : Page :=
  toggles.foldl (fun q toggleId =>
    match getElementById q toggleId with
    | some i => q.modify i fun e => { e with toggleWired := true }
    | none => q) p

/-- The change listener `initializeToggles` attaches, run on element `i` for
`toggleId`.  An element without a next sibling makes the listener throw at its
first statement; the event dispatch reports the exception and goes on. -/
def toggleChanged (p : Page) (toggleId : String) (i : Nat) : Page :=
  match p.elems.get? i with
  | none => p
  | some e =>
    match e.next with
    | none => p
    | some j =>
      match p.elems.get? j with
      | none => p
      | some _ =>
        let p1 := p.modify j fun pill =>
          if e.checked then { pill with classes := classAdd "peer-checked:bg-primary/20" pill.classes }
          else { pill with classes := classRemove "peer-checked:bg-primary/20" pill.classes }
        let p2 := (saveSettings p1 toggleId (.bool e.checked)).2
        handleSpecialToggle p2 toggleId e.checked

/-- Dispatch of `new Event('change')` on element `i`, as `loadSavedSettings`
does for an element whose id contains `toggle`: it runs the listener of
`initializeToggles` if that is attached (the other change listeners of the
code are attached to ids that do not contain `toggle`). -/
def dispatchChange (p : Page) (i : Nat) : Page :=
  match p.elems.get? i with
  | none => p
  | some e => if e.toggleWired then toggleChanged p e.id i else p

/-- Deselect every `.theme-option` element, in document order: the loop
`querySelectorAll('.theme-option').forEach` of the theme code.  An option
without a `.w-4.h-4` descendant throws a `TypeError` after its `selected`
class has been removed. -/
def deselectThemes (p : Page) : List Nat → Except (JSError × Page) Page
  | [] => .ok p
  | i :: is =>
    let p1 := p.modify i fun t => { t with classes := classRemove "selected" t.classes }
    match (p1.elems.get? i).bind Element.swatch with
    | none => .error (.typeError, p1)
    | some j =>
      match p1.elems.get? j with
      | none => .error (.typeError, p1)
      | some _ =>
        deselectThemes (p1.modify j fun w => { w with classes := classRemove "bg-primary" w.classes }) is

/-- Positions of the elements with class `c`, in document order. -/
def withClass (c : String) (es : List Element) : List Nat :=
  (List.range es.length).filter fun i =>
    match es.get? i with
    | some e => decide (c ∈ e.classes)
    | none => false

/-- Mark the theme option at position `i` as the selected one and apply the
theme: the body of `if (theme) { ... }` in `loadSavedSettings` and
`loadSavedTheme`. -/
def selectTheme (p : Page) (i : Nat) (themeId : JVal) (showNotify : Bool) :
    Except (JSError × Page) Page :=
  match deselectThemes p (withClass "theme-option" p.elems) with
  | .error e => .error e
  | .ok p1 =>
    let p2 := p1.modify i fun t => { t with classes := classAdd "selected" t.classes }
    match (p2.elems.get? i).bind Element.swatch with
    | none => .error (.typeError, p2)
    | some j =>
      match p2.elems.get? j with
      | none => .error (.typeError, p2)
      | some _ =>
        .ok (applyTheme (p2.modify j fun w => { w with classes := classAdd "bg-primary" w.classes })
          themeId showNotify)

/-- The body of the `forEach` callback of `loadSavedSettings` for one key. -/
def applySetting (p : Page) (themeAlreadyLoaded : Bool) (key : String) (value : JVal) :
    Except (JSError × Page) Page :=
  if includes key "toggle" then
    match getElementById p key with
    | some i => .ok (dispatchChange (setChecked p i (toBoolean value)) i)
    | none => .ok p
  else if includes key "threshold" ∨ includes key "frequency" ∨ includes key "interval" then
    match getElementById p key with
    | some i =>
      let p1 := p.modify i fun e => { e with value := toDOMString value }
      match getElementById p1 (key ++ "-value") with
      | some j =>
        if includes key "threshold" then
          .ok (p1.modify j fun e => { e with text := toStr value ++ "%" })
        else if includes key "interval" then
          .ok (p1.modify j fun e => { e with text := toStr value ++ "s" })
        else .ok (p1.modify j fun e => { e with text := toDOMString value })
      | none => .ok p1
    | none => .ok p
  else if key = "protection-mode" then
    match getElementById p (toStr value) with
    | some i => .ok (setChecked p i true)
    | none => .ok p
  else if key = "theme" ∧ themeAlreadyLoaded = false then
    match getElementById p (toStr value) with
    | some i => selectTheme p i value true
    | none => .ok p
  else if key = "log-level" then
    match getElementById p key with
    | some i => .ok (p.modify i fun e => { e with value := toDOMString value })
    | none => .ok p
  else if key = "email-recipients" then
    match getElementById p "email-recipient" with
    | some i => .ok (p.modify i fun e => { e with value := toDOMString value })
    | none => .ok p
  else .ok p

/-- The loop `Object.keys(settings).forEach(...)` of `loadSavedSettings`. -/
def applySettings (p : Page) (themeAlreadyLoaded : Bool) :
    List (String × JVal) → Except (JSError × Page) Page
  | [] => .ok p
  | kv :: kvs =>
    match applySetting p themeAlreadyLoaded kv.1 kv.2 with
    | .error e => .error e
    | .ok p1 => applySettings p1 themeAlreadyLoaded kvs

/-- The function `loadSavedSettings(themeAlreadyLoaded)` with the page after
it. -/
def loadSavedSettings (p : Page) (themeAlreadyLoaded : Bool) : Bool × Page :=
  match JSON.parse (storedText p.storage) with
  | none => (false, logError p "Error loading settings:")
  | some settings =>
    match ownEntries settings with
    | .error _ => (false, logError p "Error loading settings:")
    | .ok entries =>
      match applySettings p themeAlreadyLoaded entries with
      | .error e => (false, logError e.2 "Error loading settings:")
      | .ok p1 => (true, p1)

/-- The function `loadSavedTheme()` with the page after it. -/
def loadSavedTheme (p : Page) : Bool × Page :=
  match JSON.parse (storedText p.storage) with
  | none => (false, logError p "Error loading theme:")
  | some settings =>
    match themeOf settings with
    | .error _ => (false, logError p "Error loading theme:")
    | .ok none => (true, p)
    | .ok (some theme) =>
      if toBoolean theme then
        match getElementById p (toStr theme) with
        | some i =>
          match selectTheme p i theme false with
          | .error e => (false, logError e.2 "Error loading theme:")
          | .ok p1 => (true, p1)
        | none => (true, p)
      else (true, p)

/-- The click listener of `export-config-btn`. -/
def exportConfig (p : Page) : Page :=
  showNotification
    { p with downloads := p.downloads ++ [("cybershield-settings.json", storedText p.storage)] }
    "Configuration exported successfully" "success"

/-- The `reader.onload` listener of `import-config-btn`, for a file whose text
is `text`. -/
def importConfig (p : Page) (text : String) : Page :=
  match JSON.parse text with
  | none => logError (showNotification p "Invalid configuration file" "error")
      "Error importing settings:"
  | some settings =>
    match p.storage.setItem settingsKey (JSON.stringify settings) with
    | none => logError (showNotification p "Invalid configuration file" "error")
        "Error importing settings:"
    | some st =>
      showNotification (loadSavedSettings { p with storage := st } true).2
        "Configuration imported successfully" "success"

/-! ## Vocabulary of the claims -/

/-- Would `setItem(key, value)` be accepted (no `QuotaExceededError`)? -/
def Storage.accepts (st : Storage) (key value : String) : Bool :=
  decide (usedSpace (putEntry key value st.entries) ≤ st.quota)

/-- The blob persisted under `cybershield-settings`, if any. -/
def Page.blob (p : Page) : Option String := p.storage.getItem settingsKey

/-- A value the settings code stores: a string, a boolean or a (normalised)
number. -/
def isSettingValue : JVal → Bool
  | .str _ => true
  | .bool _ => true
  | .num m k => decide (k = 0) || decide (m % 10 ≠ 0)
  | _ => false

/-- The persisted blob parses to a map in which `key` is bound to `value`. -/
def Bound (p : Page) (key : String) (value : JVal) : Prop :=
  ∃ blob m, p.blob = some blob ∧ JSON.parse blob = some (.obj m) ∧ lookupProp key m = some value

/-- The persisted blob, when present, deserialises to a JSON object. -/
def StoreIsMap (p : Page) : Prop :=
  ∀ blob, p.blob = some blob → ∃ m, JSON.parse blob = some (.obj m)

/-- A key `loadSavedSettings` does not recognise. -/
def unrecognised (key : String) : Bool :=
  !(includes key "toggle") && !(includes key "threshold") && !(includes key "frequency") &&
    !(includes key "interval") && decide (key ≠ "protection-mode") && decide (key ≠ "theme") &&
    decide (key ≠ "log-level") && decide (key ≠ "email-recipients")

/-- A page with the given storage entries and quota, an empty document and no
output so far. -/
def barePage (entries : List (String × String)) (quota : Nat) : Page :=
  { storage := { entries := entries, quota := quota }, elems := [], rootStyle := [],
    bodyClasses := [], autoRefreshEnabled := none, realTimeEnabled := none,
    notifications := [], downloads := [], console := [] }

/-- An element with the given tag, id and next sibling, and nothing else set. -/
def plainElement (tag id : String) (next : Option Nat) : Element :=
  { tag := tag, id := id, inputType := "", name := "", classes := [], checked := false,
    value := "", text := "", next := next, swatch := none, toggleWired := false }

/-- A user action on the settings store: a call of `saveSettings`, or
the import of a file with the given text. -/
inductive StoreOp where
  | save (key : String) (value : JVal)
  | importText (text : String)

/-- The page after an action. -/
def StoreOp.apply (p : Page) : StoreOp → Page
  | .save key value => (saveSettings p key value).2
  | .importText text => importConfig p text

/-- The page after a sequence of actions. -/
def runOps (p : Page) : List StoreOp → Page
  | [] => p
  | op :: ops => runOps (op.apply p) ops

/-- A page that stores `{"volume":"7","mode":true}` and has a checkbox whose id
is `volume`. -/
def unrecognisedPage : Page :=
  { barePage [(settingsKey, "\x7b\"volume\":\"7\",\"mode\":true\x7d")] 1000 with
    elems := [{ plainElement "input" "volume" none with inputType := "checkbox" }] }

/-- The page an outcome carries, thrown or not. -/
def resPage : Except (JSError × Page) Page → Page
  | .ok q => q
  | .error e => e.2

/-- The blob in the storage, when present, parses to an object. -/
def MapStore (st : Storage) : Prop :=
  ∀ blob, st.getItem settingsKey = some blob → ∃ m, JSON.parse blob = some (.obj m)

/-- An action that keeps the store a map: a `saveSettings` call with a value in
the form the parser returns, or the import of a text that is not valid JSON or
parses to an object. -/
def StoreOp.keepsMap : StoreOp → Prop
  | .save _ value => value.wf = true
  | .importText text => JSON.parse text = none ∨ ∃ j, JSON.parse text = some (.obj j)

/-! ## Radio buttons and `saveAllSettings` -/

/-- The ids `initializeRadioButtons` wires. -/
def protectionModes : List String :=
  ["protection-normal", "protection-aggressive", "protection-learning"]

/-- The change listeners `initializeRadioButtons` attaches: the id each was
created for, and the position of the element it is attached to. -/
def radioListeners (p : Page) : List (String × Nat) :=
  protectionModes.filterMap fun radioId =>
    (getElementById p radioId).map fun i => (radioId, i)

/-- The text of the notification of a protection mode. -/
def modeText (radioId : String) : String :=
  if radioId = "protection-normal" then "Normal Protection"
  else if radioId = "protection-aggressive" then "Aggressive Protection"
  else if radioId = "protection-learning" then "Learning Mode"
  else ""

/-- The change listener `initializeRadioButtons` attaches for `radioId`, run on
element `i`. -/
def radioChanged (p : Page) (radioId : String) (i : Nat) : Page :=
  match p.elems.get? i with
  | none => p
  | some e =>
    if e.checked then
      showNotification (saveSettings p "protection-mode" (.str radioId)).2
        (modeText radioId ++ " enabled") "info"
    else p

/-- Does the element match `input[type="checkbox"]`? -/
def isCheckbox (e : Element) : Bool := decide (e.tag = "input") && decide (e.inputType = "checkbox")

/-- Does the element match `input[type="range"]`? -/
def isRange (e : Element) : Bool := decide (e.tag = "input") && decide (e.inputType = "range")

/-- Does the element match `input[name="protection-mode"]:checked`? -/
def isCheckedProtectionMode (e : Element) : Bool :=
  decide (e.tag = "input") && decide (e.name = "protection-mode") &&
    (decide (e.inputType = "radio") || decide (e.inputType = "checkbox")) && e.checked

/-- The loop of `saveAllSettings` over the checkboxes. -/
def saveToggles (p : Page) : List Element → Page
  | [] => p
  | e :: es =>
    if isCheckbox e = true ∧ e.id ≠ "" then
      saveToggles (saveSettings p e.id (.bool e.checked)).2 es
    else saveToggles p es

/-- The loop of `saveAllSettings` over the range sliders. -/
def saveSliders (p : Page) : List Element → Page
  | [] => p
  | e :: es =>
    if isRange e = true ∧ e.id ≠ "" then
      saveSliders (saveSettings p e.id (.str e.value)).2 es
    else saveSliders p es

/-- The radio part of `saveAllSettings`: the id of the first checked input
named `protection-mode`, if there is one, is saved under `protection-mode`. -/
def saveProtectionMode (p : Page) : Page :=
  match p.elems.find? fun e => isCheckedProtectionMode e with
  | some e => (saveSettings p "protection-mode" (.str e.id)).2
  | none => p

/-- The dropdown part of `saveAllSettings`. -/
def saveLogLevel (p : Page) : Page :=
  match (getElementById p "log-level").bind fun i => p.elems.get? i with
  | some e => (saveSettings p "log-level" (.str e.value)).2
  | none => p

/-- The input field part of `saveAllSettings`. -/
def saveEmail (p : Page) : Page :=
  match (getElementById p "email-recipient").bind fun i => p.elems.get? i with
  | some e => (saveSettings p "email-recipients" (.str e.value)).2
  | none => p

/-- The theme part of `saveAllSettings`. -/
def saveTheme (p : Page) : Page :=
  match p.elems.find? fun e => decide ("theme-option" ∈ e.classes) && decide ("selected" ∈ e.classes) with
  | some e => (saveSettings p "theme" (.str e.id)).2
  | none => p

/-- The function `saveAllSettings()`. -/
def saveAllSettings (p : Page) : Page :=
  saveTheme (saveEmail (saveLogLevel (saveProtectionMode
    (saveSliders (saveToggles p p.elems) p.elems))))

/-! ## Theme palettes -/

/-- The value of a custom property (`getPropertyValue`). -/
def getProperty (name : String) : List (String × String) → Option String
  | [] => none
  | kv :: kvs => if kv.1 = name then some kv.2 else getProperty name kvs

/-- The eleven colour variables of a theme. -/
def colourVariables : List String :=
  ["--primary", "--primary-dark", "--secondary", "--tertiary", "--success", "--warning",
   "--danger", "--dark", "--darker", "--light-dark", "--border"]

/-- The default palette: the values `applyTheme` resets the variables to. -/
def defaultPalette : List (String × String) :=
  [("--primary", "#23C8FF"), ("--primary-dark", "#15A1D9"), ("--secondary", "#FFB629"),
   ("--tertiary", "#FF4081"), ("--success", "#1CEFAF"), ("--warning", "#F5C346"),
   ("--danger", "#FF5252"), ("--dark", "#111A2C"), ("--darker", "#0A0E1A"),
   ("--light-dark", "#1E293B"), ("--border", "#2B3A55")]

/-- The palette of the theme `theme-matrix`. -/
def matrixPalette : List (String × String) :=
  [("--primary", "#00FF00"), ("--primary-dark", "#00CC00"), ("--dark", "#001800"),
   ("--darker", "#001100"), ("--light-dark", "#002200"), ("--border", "#003300"),
   ("--success", "#00FFAA"), ("--secondary", "#AAFF00"), ("--tertiary", "#00FFFF"),
   ("--warning", "#F5C346"), ("--danger", "#FF5252")]

/-- The palette `applyTheme` leaves for a theme id: the variables after
applying the theme to a page without any style. -/
def themePalette (themeId : JVal) : List (String × String) :=
  (themeOverrides (resetTheme (barePage [] 0)) themeId).rootStyle

/-! ## Resource monitor and threat map -/

/-- The function `Math.round` on exact numbers: halves round up. -/
def mathRound (x : ℚ) : Int := ⌊x + 1 / 2⌋

/-- The function `randomizeValue(baseValue, range)` for the draw `r` of
`Math.random()`; numbers are exact, not floating point. -/
def randomizeValue (baseValue range r : ℚ) : Int :=
  max 0 (min 100 (mathRound (baseValue + (r * range * 2 - range))))

/-- The weights of the entries of `attackOrigins`, in order. -/
def attackOriginWeights : List ℚ := [35, 40, 25, 15, 10, 20, 12, 18, 8]

/-- The new weight `refreshThreatMap` gives an origin, for the draw `r` of
`Math.random()`. -/
def refreshWeight (weight r : ℚ) : ℚ := max 5 (min 50 (weight + (r * 10 - 5)))

/-- The period, in milliseconds, that `addAttackSources` passes to
`setInterval` for an origin. -/
def timerPeriod (weight : ℚ) : ℚ := 10000 / weight

/-- A weight an origin can have: shipped in `attackOrigins`, or the result of
a `refreshThreatMap` call on a reachable weight. -/
inductive ReachableWeight : ℚ → Prop where
  | shipped (w : ℚ) (h : w ∈ attackOriginWeights) : ReachableWeight w
  | refreshed (w r : ℚ) (h : ReachableWeight w) (h0 : 0 ≤ r) (h1 : r < 1) :
      ReachableWeight (refreshWeight w r)

/-- A page whose only element is a checked radio button named
`protection-mode` with the id `protection-strict`; nothing is stored. -/
def strictPage : Page :=
  { barePage [] 1000 with
    elems := [{ plainElement "input" "protection-strict" none with
      inputType := "radio", name := "protection-mode", checked := true }] }

/-- The classes the toggle listeners add and remove. -/
def volatileClasses : List String := ["peer-checked:bg-primary/20", "animate-pulse", "hidden"]

/-- Only the class list of the element has changed, and in it only the
classes the toggle listeners add and remove. -/
def ClassOnly (e e' : Element) : Prop :=
  e' = { e with classes := e'.classes } ∧
    ∀ c, c ∉ volatileClasses → (c ∈ e'.classes ↔ c ∈ e.classes)

/-- What one step of the settings loop (with the theme already loaded) may do
to an element, for the key and value of the step: tag, id, type, name,
siblings and listeners stay; classes other than the volatile ones stay; the
value changes only on the element whose id is the key (or `email-recipient`
for the key `email-recipients`); the text only on the element whose id is the
key followed by `-value`; the checked state only on the element whose id is
the key, on the element a `protection-mode` value names, or on a radio button
that is unchecked because another one of its group was checked. -/
def StepElem (key : String) (value : JVal) (e e' : Element) : Prop :=
  (e'.tag = e.tag ∧ e'.id = e.id ∧ e'.inputType = e.inputType ∧ e'.name = e.name ∧
    e'.next = e.next ∧ e'.swatch = e.swatch ∧ e'.toggleWired = e.toggleWired) ∧
  (∀ c, c ∉ volatileClasses → (c ∈ e'.classes ↔ c ∈ e.classes)) ∧
  (e'.value = e.value ∨ e.id = key ∨ (key = "email-recipients" ∧ e.id = "email-recipient")) ∧
  (e'.text = e.text ∨ e.id = key ++ "-value") ∧
  (e'.checked = e.checked ∨ e.id = key ∨ (key = "protection-mode" ∧ e.id = toStr value) ∨
    (e.inputType = "radio" ∧ e'.checked = false))

/-- What one step of the settings loop (with the theme already loaded) may do
to the rest of the page: no notification, no download; of the style variables
only `--animation-duration` changes; `autoRefreshEnabled` changes only in the
step of `auto-refresh-toggle`. -/
def StepPage (key : String) (p q : Page) : Prop :=
  q.notifications = p.notifications ∧ q.downloads = p.downloads ∧
  (∀ name, name ≠ "--animation-duration" →
    getProperty name q.rootStyle = getProperty name p.rootStyle) ∧
  (q.autoRefreshEnabled = p.autoRefreshEnabled ∨ key = "auto-refresh-toggle")

/-- One step of the settings loop with the theme already loaded. -/
def stepTrue (p : Page) (kv : String × JVal) : Page :=
  resPage (applySetting p true kv.1 kv.2)

/-- The page after the settings loop, with the theme already loaded, over the
given entries. -/
def settle (p : Page) (kvs : List (String × JVal)) : Page := kvs.foldl stepTrue p

/-- The page of the slider examples: the two sliders with their display
labels, and the store holding a value for each. -/
def sliderPage : Page :=
  { barePage [(settingsKey,
      "\x7b\"scan-frequency\":\"5\",\"confidence-threshold\":\"60\"\x7d")] 1000 with
    elems := [{ plainElement "input" "scan-frequency" none with inputType := "range" },
      plainElement "span" "scan-frequency-value" none,
      { plainElement "input" "confidence-threshold" none with inputType := "range" },
      plainElement "span" "confidence-threshold-value" none] }

/-- The page of the missing-control example: the store holds a toggle, a slider
and a log level, and the document has the slider only. -/
def partialPage : Page :=
  { barePage [(settingsKey,
      "\x7b\"debug-toggle\":true,\"scan-frequency\":\"5\",\"log-level\":\"debug\"\x7d")] 1000 with
    elems := [{ plainElement "input" "scan-frequency" none with inputType := "range" }] }

/-- The attributes of an element no step of the settings loop changes. -/
def SameShape (e e' : Element) : Prop :=
  e'.tag = e.tag ∧ e'.id = e.id ∧ e'.inputType = e.inputType ∧ e'.name = e.name ∧
    e'.next = e.next ∧ e'.swatch = e.swatch ∧ e'.toggleWired = e.toggleWired

/-- What a later step leaves alone of the checkbox `k`. -/
def ToggleKept (k : String) (e e' : Element) : Prop :=
  e'.id = e.id ∧ e'.inputType = e.inputType ∧
    (e.id = k → e.inputType = "checkbox" → e'.checked = e.checked)

/-- The page of the first toggle example: the wired auto-refresh checkbox with
its pill, and a store whose `protection-mode` entry names the checkbox. -/
def crossedPage : Page :=
  initializeToggles
    { barePage [(settingsKey,
        "\x7b\"auto-refresh-toggle\":false,\"protection-mode\":\"auto-refresh-toggle\"\x7d")]
        1000 with
      elems := [{ plainElement "input" "auto-refresh-toggle" (some 1) with
          inputType := "checkbox" }, plainElement "div" "" none] }

/-- The page of the second toggle example: the wired auto-refresh checkbox is
the last child of its parent. -/
def lonePage : Page :=
  initializeToggles
    { barePage [(settingsKey, "\x7b\"auto-refresh-toggle\":true\x7d")] 1000 with
      elems := [{ plainElement "input" "auto-refresh-toggle" none with
          inputType := "checkbox" }] }

/-- The page of the toggle witness: the wired auto-refresh checkbox with its
pill, and a store that switches it on. -/
def refreshPage : Page :=
  initializeToggles
    { barePage [(settingsKey, "\x7b\"auto-refresh-toggle\":true\x7d")] 1000 with
      elems := [{ plainElement "input" "auto-refresh-toggle" (some 1) with
          inputType := "checkbox" }, plainElement "div" "" none] }

/-- Does every `.theme-option` element of the document contain a `.w-4.h-4`
element? -/
def themeOptionsOk (p : Page) : Bool :=
  p.elems.all fun e =>
    !decide ("theme-option" ∈ e.classes) ||
      match e.swatch with
      | some j => (p.elems.get? j).isSome
      | none => false

/-- What the theme code may do to an element: change whether it has the
classes `selected` and `bg-primary`. -/
def ThemeElem (e e' : Element) : Prop :=
  e' = { e with classes := e'.classes } ∧
    ∀ c, c ≠ "selected" → c ≠ "bg-primary" → (c ∈ e'.classes ↔ c ∈ e.classes)

/-- What deselecting the theme options may do to an element: remove classes
`selected` and `bg-primary`. -/
def DeselElem (e e' : Element) : Prop :=
  ThemeElem e e' ∧ ∀ c, c ∈ e'.classes → c ∈ e.classes

/-- The second page is the first with another root style. -/
def StyleOnly (p q : Page) : Prop := q = { p with rootStyle := q.rootStyle }

/-- The page with another storage. -/
def setStorage (s : Storage) (p : Page) : Page := { p with storage := s }

/-- Apply `f` to the page an outcome carries. -/
def onOutcome (f : Page → Page) : Except (JSError × Page) Page → Except (JSError × Page) Page
  | .ok q => .ok (f q)
  | .error e => .error (e.1, f e.2)

/-- What no step of the settings loop changes of an element, the theme already
loaded or the key not `theme`: its shape and its classes other than the
volatile ones. -/
def NonVolatile (e e' : Element) : Prop :=
  SameShape e e' ∧ ∀ c, c ∉ volatileClasses → (c ∈ e'.classes ↔ c ∈ e.classes)

/-- A page with the theme option `theme-matrix` and its swatch; the store holds
that theme. -/
def matrixPage : Page :=
  { barePage [(settingsKey, "\x7b\"theme\":\"theme-matrix\"\x7d")] 1000 with
    elems := [{ plainElement "div" "theme-matrix" none with
        classes := ["theme-option"], swatch := some 1 },
      { plainElement "div" "" none with classes := ["w-4", "h-4"] }] }

/-- The page `matrixPage` with a theme option that has no swatch. -/
def bareOptionPage : Page :=
  { barePage [(settingsKey, "\x7b\"theme\":\"theme-matrix\"\x7d")] 1000 with
    elems := [{ plainElement "div" "theme-matrix" none with classes := ["theme-option"] }] }

/-- The page `matrixPage` with nothing stored and room for the write. -/
def matrixFreshPage : Page := setStorage { entries := [], quota := 1000 } matrixPage

/-- The page `matrixPage` with nothing stored and a storage that refuses every
write. -/
def matrixFullPage : Page := setStorage { entries := [], quota := 0 } matrixPage

/-- The page `bareOptionPage` with nothing stored and room for the write. -/
def bareOptionFreshPage : Page := setStorage { entries := [], quota := 1000 } bareOptionPage

/-- The zoom state of the map: the global `mapZoomLevel`, and whether
`geoMapSvg` has been set (by `initDetailedWorldMap`).  The `transform`
attributes `zoomMap` and `resetMapZoom` write are computed from the level and
are not part of the state. -/
structure MapZoom where
  mapZoomLevel : ℚ
  geoMapSvg : Bool
  deriving DecidableEq, Repr

/-- The zoom state when the script has loaded. -/
def initialZoom : MapZoom := { mapZoomLevel := 1, geoMapSvg := false }

/-- The function `zoomMap(factor)`. -/
def zoomMap (s : MapZoom) (factor : ℚ) : MapZoom :=
  if s.geoMapSvg = false then s
  else { s with mapZoomLevel := max (1 / 2) (min 3 (s.mapZoomLevel * factor)) }

/-- The function `resetMapZoom()`. -/
def resetMapZoom (s : MapZoom) : MapZoom := { s with mapZoomLevel := 1 }

/-- What happens to the zoom state: the map is initialised, `zoomMap(factor)`
is called, or `resetMapZoom()` is called. -/
inductive ZoomEvent where
  | initMap
  | zoom (factor : ℚ)
  | reset

/-- The zoom state after one event. -/
def ZoomEvent.apply (s : MapZoom) : ZoomEvent → MapZoom
  | .initMap => { s with geoMapSvg := true }
  | .zoom factor => zoomMap s factor
  | .reset => resetMapZoom s

/-- The zoom state after a sequence of events, from the initial state. -/
def zoomAfter (events : List ZoomEvent) : MapZoom := events.foldl ZoomEvent.apply initialZoom

/-- An entry of `attackLocations`. -/
structure AttackLocation where
  name : String
  coords : ℚ × ℚ
  attacks : Int
  severity : String

/-- The shipped `attackLocations`. -/
def attackLocations : List AttackLocation :=
  [{ name := "Moscow, Russia", coords := (55.7558, 37.6173), attacks := 372, severity := "high" },
   { name := "Beijing, China", coords := (39.9042, 116.4074), attacks := 421, severity := "high" },
   { name := "New York, USA", coords := (40.7128, -74.0060), attacks := 254,
     severity := "medium" },
   { name := "Sao Paulo, Brazil", coords := (23.5505, -46.6333), attacks := 142,
     severity := "medium" },
   { name := "Lagos, Nigeria", coords := (6.5244, 3.3792), attacks := 87, severity := "low" },
   { name := "Kiev, Ukraine", coords := (50.4501, 30.5234), attacks := 219,
     severity := "medium" },
   { name := "Seoul, South Korea", coords := (37.5665, 126.9780), attacks := 127,
     severity := "medium" },
   { name := "Berlin, Germany", coords := (52.5200, 13.4050), attacks := 168,
     severity := "medium" },
   { name := "Sydney, Australia", coords := (-33.8688, 151.2093), attacks := 65,
     severity := "low" },
   { name := "Tehran, Iran", coords := (35.6892, 51.3890), attacks := 305, severity := "high" },
   { name := "Pyongyang, North Korea", coords := (39.0392, 125.7625), attacks := 311,
     severity := "high" },
   { name := "Bucharest, Romania", coords := (44.4268, 26.1025), attacks := 134,
     severity := "medium" },
   { name := "Singapore", coords := (1.3521, 103.8198), attacks := 91, severity := "low" },
   { name := "Mumbai, India", coords := (19.0760, 72.8777), attacks := 185,
     severity := "medium" },
   { name := "Johannesburg, South Africa", coords := (-26.2041, 28.0473), attacks := 76,
     severity := "low" }]

/-- The order the comparator `(a, b) => b.attacks - a.attacks` sorts by: `a`
may stand before `b`. -/
def moreAttacks (a b : AttackLocation) : Prop := b.attacks ≤ a.attacks

instance : DecidableRel moreAttacks := fun a b => inferInstanceAs (Decidable (b.attacks ≤ a.attacks))

instance : IsTotal AttackLocation moreAttacks := ⟨fun a b => le_total b.attacks a.attacks⟩

instance : IsTrans AttackLocation moreAttacks := ⟨fun _ _ _ h1 h2 => le_trans h2 h1⟩

/-- The copy `[...attackLocations].sort(...)`: the sort of an array is stable. -/
def sortedLocations (ls : List AttackLocation) : List AttackLocation :=
  ls.insertionSort moreAttacks

/-- An item of the rendered list: the name, the count and the colour class of
the count. -/
structure OriginItem where
  name : String
  attacks : Int
  severityColor : String
  deriving DecidableEq, Repr

/-- The item `updateAttackOriginsList` renders for a location. -/
def renderOrigin (l : AttackLocation) : OriginItem :=
  { name := l.name, attacks := l.attacks,
    severityColor :=
      if l.severity = "high" then "text-red-500"
      else if l.severity = "medium" then "text-yellow-500"
      else "text-green-500" }

/-- The array `attackLocations` and the children of `attack-origins-list`
(`none` when the document has no such element). -/
structure OriginsPanel where
  attackLocations : List AttackLocation
  list : Option (List OriginItem)

/-- The function `updateAttackOriginsList()`. -/
def updateAttackOriginsList (s : OriginsPanel) : OriginsPanel :=
  match s.list with
  | none => s
  | some _ =>
    { s with list := some (((sortedLocations s.attackLocations).take 5).map renderOrigin) }

/-- The function `refreshThreatMap` on the weights of the origins, with the
draw of each origin. -/
def refreshThreatMap (weights draws : List ℚ) : List ℚ := List.zipWith refreshWeight weights draws

/-- The weights of the origins in a state reachable from the shipped
`attackOrigins` by calls of `refreshThreatMap` with draws in `[0, 1)`. -/
inductive ReachableWeights : List ℚ → Prop where
  | shipped : ReachableWeights attackOriginWeights
  | refreshed (ws rs : List ℚ) (h : ReachableWeights ws) (hlen : rs.length = ws.length)
      (hr : ∀ r ∈ rs, 0 ≤ r ∧ r < 1) : ReachableWeights (refreshThreatMap ws rs)

/-- A row of `#attack-log-table`: the text of its cells, and its
`style.display`. -/
structure LogRow where
  cells : List String
  display : String
  deriving DecidableEq, Repr

/-- What `filterAttackLog` reads and writes: the value of the search input, the
value of the type filter, the rows of the table, and the text of
`showing-records` (`none` when the document has no such element). -/
structure AttackLog where
  searchInput : String
  typeFilter : String
  rows : List LogRow
  showingRecords : Option String
  deriving DecidableEq, Repr

/-- The method `toLowerCase`; the letters outside ASCII are left as they are. -/
def toLowerCase (s : String) : String := String.mk (s.data.map Char.toLower)

/-- The expression `row.children[i]?.textContent.toLowerCase() || ''`. -/
def cellLower (row : LogRow) (i : Nat) : String :=
  match row.cells.get? i with
  | some t => toLowerCase t
  | none => ""

/-- Replace the first `-` by a space: `replace('-', ' ')`. -/
def replaceFirstDash : List Char → List Char
  | [] => []
  | c :: cs => if c = '-' then ' ' :: cs else c :: replaceFirstDash cs

/-- The constant `matchesSearch` of `filterAttackLog` for a row. -/
def matchesSearch (searchTerm : String) (row : LogRow) : Bool :=
  decide (searchTerm = "") || includes (cellLower row 1) searchTerm ||
    includes (cellLower row 2) searchTerm || includes (cellLower row 0) searchTerm

/-- The constant `matchesFilter` of `filterAttackLog` for a row. -/
def matchesFilter (filterType : String) (row : LogRow) : Bool :=
  decide (filterType = "all") ||
    includes (cellLower row 2) (String.mk (replaceFirstDash filterType.data))

/-- The loop `rows.forEach` of `filterAttackLog`, from the given count of
visible rows: the rows after it and the count. -/
def filterRows (searchTerm filterType : String) : List LogRow → Nat → List LogRow × Nat
  | [], visibleRows => ([], visibleRows)
  | row :: rows, visibleRows =>
    if matchesSearch searchTerm row && matchesFilter filterType row then
      ({ row with display := "" } :: (filterRows searchTerm filterType rows (visibleRows + 1)).1,
        (filterRows searchTerm filterType rows (visibleRows + 1)).2)
    else
      ({ row with display := "none" } :: (filterRows searchTerm filterType rows visibleRows).1,
        (filterRows searchTerm filterType rows visibleRows).2)

/-- The function `filterAttackLog()`. -/
def filterAttackLog (s : AttackLog) : AttackLog :=
  { s with
    rows := (filterRows (toLowerCase s.searchInput) s.typeFilter s.rows 0).1
    showingRecords := s.showingRecords.map fun _ =>
      String.mk (natDigits (filterRows (toLowerCase s.searchInput) s.typeFilter s.rows 0).2) }

/-- Is the row shown, as the claim words it? -/
def rowShown (s : AttackLog) (row : LogRow) : Prop :=
  (s.searchInput = "" ∨ includes (cellLower row 0) (toLowerCase s.searchInput) = true ∨
    includes (cellLower row 1) (toLowerCase s.searchInput) = true ∨
    includes (cellLower row 2) (toLowerCase s.searchInput) = true) ∧
  (s.typeFilter = "all" ∨
    includes (cellLower row 2) (String.mk (replaceFirstDash s.typeFilter.data)) = true)

/-- The rows that are not hidden. -/
def visible (rows : List LogRow) : List LogRow := rows.filter fun r => decide (r.display ≠ "none")

/-- An attack log of three rows, with a search text and a type filter. -/
def sampleLog : AttackLog :=
  { searchInput := "192", typeFilter := "syn-flood",
    rows := [{ cells := ["2024-01-01 10:00", "192.168.0.7", "SYN Flood"], display := "" },
      { cells := ["2024-01-01 10:05", "10.0.0.1", "SYN Flood"], display := "" },
      { cells := ["2024-01-01 10:09", "192.168.0.9", "HTTP Flood"], display := "none" }],
    showingRecords := some "3" }

/-- The attack count `initAttackTimelineChart` generates for the hour `i` of
its loop (`23` down to `0`) from the draw `r`:
`Math.floor(Math.random() * 150) + 20`, plus `100` in the peak hours. -/
def hourAttacks (i : Nat) (r : ℚ) : Int :=
  (⌊r * 150⌋ + 20) + (if 10 ≤ i ∧ i ≤ 14 then 100 else 0)

/-- The mitigated count of an hour, from its attack count and a second draw:
`Math.floor(attacks * (0.9 + Math.random() * 0.1))`. -/
def hourMitigated (attacks : Int) (r : ℚ) : Int := ⌊(attacks : ℚ) * (0.9 + r * 0.1)⌋

/-! ## Decidable equality of values -/

mutual
theorem JVal.beq_eq : ∀ a b : JVal, JVal.beq a b = true → a = b
  | .null, b => by cases b <;> simp [JVal.beq]
  | .bool a, b => by cases b <;> simp [JVal.beq]
  | .num _ _, b => by cases b <;> simp [JVal.beq]
  | .str _, b => by cases b <;> simp [JVal.beq]
  | .arr xs, b => by
    cases b <;> simp [JVal.beq]
    exact beqElems_eq xs _
  | .obj xs, b => by
    cases b <;> simp [JVal.beq]
    exact beqMembers_eq xs _
theorem beqElems_eq : ∀ xs ys : List JVal, beqElems xs ys = true → xs = ys
  | [], ys => by cases ys <;> simp [beqElems]
  | x :: xs, ys => by
    cases ys with
    | nil => simp [beqElems]
    | cons y ys =>
      simp only [beqElems, Bool.and_eq_true, List.cons.injEq]
      exact fun h => ⟨JVal.beq_eq x y h.1, beqElems_eq xs ys h.2⟩
theorem beqMembers_eq : ∀ xs ys : List (String × JVal), beqMembers xs ys = true → xs = ys
  | [], ys => by cases ys <;> simp [beqMembers]
  | x :: xs, ys => by
    cases ys with
    | nil => simp [beqMembers]
    | cons y ys =>
      simp only [beqMembers, Bool.and_eq_true, List.cons.injEq, decide_eq_true_eq]
      exact fun h => ⟨Prod.ext h.1 (JVal.beq_eq x.2 y.2 h.2.1), beqMembers_eq xs ys h.2.2⟩
end

mutual
theorem JVal.beq_refl : ∀ a : JVal, JVal.beq a a = true
  | .null => by simp [JVal.beq]
  | .bool _ => by simp [JVal.beq]
  | .num _ _ => by simp [JVal.beq]
  | .str _ => by simp [JVal.beq]
  | .arr xs => by simp [JVal.beq]; exact beqElems_refl xs
  | .obj xs => by simp [JVal.beq]; exact beqMembers_refl xs
theorem beqElems_refl : ∀ xs : List JVal, beqElems xs xs = true
  | [] => by simp [beqElems]
  | x :: xs => by simp [beqElems, JVal.beq_refl x, beqElems_refl xs]
theorem beqMembers_refl : ∀ xs : List (String × JVal), beqMembers xs xs = true
  | [] => by simp [beqMembers]
  | x :: xs => by simp [beqMembers, JVal.beq_refl x.2, beqMembers_refl xs]
end

instance : DecidableEq JVal := fun a b =>
  if h : JVal.beq a b = true then isTrue (JVal.beq_eq a b h)
  else isFalse fun e => h (e ▸ JVal.beq_refl a)

/-! ## Decimal digits -/

theorem digitChar_spec (d : Nat) (h : d < 10) :
    isDigit (digitChar d) = true ∧ digitVal (digitChar d) = d ∧
      (digitChar d = '0' ↔ d = 0) := by
  interval_cases d <;> refine ⟨rfl, rfl, ?_⟩ <;> simp [digitChar]

theorem digitsToNat_append (a b : List Char) (acc : Nat) :
    digitsToNat acc (a ++ b) = digitsToNat (digitsToNat acc a) b := by
  induction a generalizing acc with
  | nil => rfl
  | cons c cs ih => simp [digitsToNat, ih]

theorem natDigitsF_val (f : Nat) : ∀ n, n < f → ∀ acc,
    digitsToNat acc (natDigitsF f n) = acc * 10 ^ (natDigitsF f n).length + n := by
  induction f with
  | zero => intro n h; omega
  | succ f ih =>
    intro n h acc
    unfold natDigitsF
    split
    · rename_i h10
      simp [digitsToNat, (digitChar_spec n h10).2.1]
    · rename_i h10
      have hlt : n / 10 < f := by omega
      rw [digitsToNat_append, ih _ hlt]
      simp only [digitsToNat, (digitChar_spec (n % 10) (Nat.mod_lt _ (by decide))).2.1,
        List.length_append, List.length_singleton, pow_succ]
      have := Nat.div_add_mod n 10
      nlinarith [this]

theorem natDigitsF_digits (f : Nat) : ∀ n, n < f → ∀ c ∈ natDigitsF f n, isDigit c = true := by
  induction f with
  | zero => intro n h; omega
  | succ f ih =>
    intro n h c hc
    unfold natDigitsF at hc
    split at hc
    · rename_i h10
      simp only [List.mem_singleton] at hc
      subst hc
      exact (digitChar_spec n h10).1
    · rename_i h10
      rw [List.mem_append] at hc
      rcases hc with hc | hc
      · exact ih _ (by omega) c hc
      · simp only [List.mem_singleton] at hc
        subst hc
        exact (digitChar_spec _ (Nat.mod_lt _ (by decide))).1

theorem natDigitsF_head (f : Nat) : ∀ n, n < f → 0 < n →
    ∃ c tl, natDigitsF f n = c :: tl ∧ c ≠ '0' := by
  induction f with
  | zero => intro n h; omega
  | succ f ih =>
    intro n h hpos
    unfold natDigitsF
    split
    · rename_i h10
      refine ⟨digitChar n, [], rfl, ?_⟩
      intro h0
      have := (digitChar_spec n h10).2.2.1 h0
      omega
    · rename_i h10
      obtain ⟨c, tl, hc, hne⟩ := ih (n / 10) (by omega) (by omega)
      exact ⟨c, tl ++ [digitChar (n % 10)], by rw [hc]; rfl, hne⟩

theorem natDigits_val (n : Nat) : digitsToNat 0 (natDigits n) = n := by
  have := natDigitsF_val (n + 1) n (by omega) 0
  simpa [natDigits] using this

theorem natDigits_digits (n : Nat) : ∀ c ∈ natDigits n, isDigit c = true :=
  natDigitsF_digits (n + 1) n (by omega)

theorem natDigits_zero : natDigits 0 = ['0'] := rfl

theorem natDigits_head (n : Nat) (h : 0 < n) : ∃ c tl, natDigits n = c :: tl ∧ c ≠ '0' :=
  natDigitsF_head (n + 1) n (by omega) h

theorem natDigits_ne_nil (n : Nat) : natDigits n ≠ [] := by
  rcases Nat.eq_zero_or_pos n with h | h
  · subst h; simp [natDigits_zero]
  · obtain ⟨c, tl, hc, _⟩ := natDigits_head n h
    simp [hc]

theorem takeDigits_append (ds rest : List Char) (hds : ∀ c ∈ ds, isDigit c = true)
    (hrest : NoDigitAhead rest) : takeDigits (ds ++ rest) = (ds, rest) := by
  induction ds with
  | nil =>
    cases rest with
    | nil => rfl
    | cons c tl => simp [takeDigits, hrest c tl rfl]
  | cons d ds ih =>
    have hd : isDigit d = true := hds d (List.mem_cons_self _ _)
    have := ih (fun c hc => hds c (List.mem_cons_of_mem _ hc))
    simp [takeDigits, hd, this]

/-! ## Numbers -/

theorem Delim.noDigit {rest : List Char} (h : Delim rest) : NoDigitAhead rest := by
  intro c tl hc
  rcases h c tl hc with h | h | h <;> subst h <;> rfl

theorem Delim.nil : Delim [] := by
  intro c tl h; cases h

theorem Delim.cons_comma (tl : List Char) : Delim (',' :: tl) := by
  intro c tl h; injection h with h1 _; exact Or.inl h1.symm

theorem Delim.cons_bracket (tl : List Char) : Delim (']' :: tl) := by
  intro c tl h; injection h with h1 _; exact Or.inr (Or.inl h1.symm)

theorem Delim.cons_brace (tl : List Char) : Delim ('}' :: tl) := by
  intro c tl h; injection h with h1 _; exact Or.inr (Or.inr h1.symm)

theorem parseExp_delim (rest : List Char) (h : Delim rest) : parseExp rest = some (0, rest) := by
  cases rest with
  | nil => rfl
  | cons c tl =>
    have hc : ¬ (c = 'e' ∨ c = 'E') := by
      rcases h c tl rfl with h | h | h <;> subst h <;> decide
    simp [parseExp, hc]

theorem parseExp_neg (k : Nat) (rest : List Char) (h : Delim rest) :
    parseExp ('e' :: '-' :: (natDigits k ++ rest)) = some (-(k : Int), rest) := by
  have ht := takeDigits_append (natDigits k) rest (natDigits_digits k) h.noDigit
  simp [parseExp, ht, natDigits_ne_nil, natDigits_val]

theorem parseFrac_none (c : Char) (tl : List Char) (h : c ≠ '.') :
    parseFrac (c :: tl) = some ([], c :: tl) := by
  simp [parseFrac, h]

theorem isDigit_ne_minus (c : Char) (h : isDigit c = true) : c ≠ '-' := by
  intro hc; subst hc; revert h; decide

theorem parseTail (k : Nat) (rest : List Char) (h : Delim rest) :
    NoDigitAhead (expText k ++ rest) ∧
      (parseFrac (expText k ++ rest)).bind (fun fr => (parseExp fr.2).map fun ex => (fr.1, ex)) =
        some ([], (-(k : Int), rest)) := by
  unfold expText
  split
  · rename_i hk
    subst hk
    refine ⟨by simpa using h.noDigit, ?_⟩
    cases rest with
    | nil => rfl
    | cons c tl =>
      have hc : c ≠ '.' := by
        rcases h c tl rfl with h | h | h <;> subst h <;> decide
      simp [parseFrac_none c tl hc, parseExp_delim _ h]
  · refine ⟨?_, ?_⟩
    · intro c tl hc
      simp only [List.cons_append] at hc
      injection hc with h1 _
      subst h1; rfl
    · simp only [List.cons_append]
      rw [parseFrac_none _ _ (by decide)]
      simp [parseExp_neg k rest h]

theorem parseUnsigned_text (a k : Nat) (rest : List Char) (h : Delim rest) :
    parseUnsigned (natDigits a ++ (expText k ++ rest)) = some ((a, -(k : Int)), rest) := by
  obtain ⟨hno, htail⟩ := parseTail k rest h
  have hip : ∃ c tl, natDigits a ++ (expText k ++ rest) = c :: tl ∧ isDigit c = true ∧
      (if c = '0' then (['0'], tl) else takeDigits (c :: tl)) =
        (natDigits a, expText k ++ rest) := by
    rcases Nat.eq_zero_or_pos a with ha | ha
    · subst ha
      exact ⟨'0', expText k ++ rest, rfl, rfl, rfl⟩
    · obtain ⟨c, tl, hc, hne⟩ := natDigits_head a ha
      refine ⟨c, tl ++ (expText k ++ rest), by rw [hc]; rfl, ?_, ?_⟩
      · exact natDigits_digits a c (by rw [hc]; exact List.mem_cons_self _ _)
      · rw [if_neg hne]
        have := takeDigits_append (natDigits a) _ (natDigits_digits a) hno
        rw [hc] at this
        rw [hc]
        exact this
  obtain ⟨c, tl, hct, hdig, hip⟩ := hip
  rw [hct]
  unfold parseUnsigned
  simp only [hdig, if_true]
  rw [hip]
  simp only
  cases hf : parseFrac (expText k ++ rest) with
  | none => simp [hf] at htail
  | some fr =>
    obtain ⟨fd, r1⟩ := fr
    simp only [hf, Option.some_bind] at htail
    cases he : parseExp r1 with
    | none => simp [he] at htail
    | some ex =>
      obtain ⟨e, r2⟩ := ex
      simp only [he, Option.map_some', Option.some.injEq, Prod.mk.injEq] at htail
      obtain ⟨h1, h2, h3⟩ := htail
      subst h1 h2 h3
      simp [he, natDigits_val]

theorem normDec_id (m : Int) (k : Nat) (h : k = 0 ∨ m % 10 ≠ 0) : normDec m k = (m, k) := by
  cases k with
  | zero => rfl
  | succ k =>
    have hm : m % 10 ≠ 0 := by
      rcases h with h | h
      · omega
      · exact h
    simp [normDec, hm]

theorem mkDec_neg (m : Int) (k : Nat) (h : k = 0 ∨ m % 10 ≠ 0) :
    mkDec m (-(k : Int)) = (m, k) := by
  unfold mkDec
  split
  · rename_i h0
    have hk : k = 0 := by omega
    subst hk
    simp
  · simp [normDec_id m k h]

theorem numText_eq (m : Int) (k : Nat) :
    numText m k = (if m < 0 then ['-'] else []) ++ (natDigits m.natAbs ++ expText k) := by
  simp [numText, expText]

/-- Parsing the text of a normalised number gives the number back. -/
theorem parseNumber_numText (m : Int) (k : Nat) (hwf : k = 0 ∨ m % 10 ≠ 0) (rest : List Char)
    (h : Delim rest) : parseNumber (numText m k ++ rest) = some ((m, k), rest) := by
  rw [numText_eq]
  have hu := parseUnsigned_text m.natAbs k rest h
  by_cases hm : m < 0
  · simp only [hm, if_true, List.cons_append, List.nil_append, List.append_assoc]
    unfold parseNumber
    simp only [if_true]
    rw [hu]
    have : -((m.natAbs : Nat) : Int) = m := by omega
    simp only [signed, if_true, this, mkDec_neg m k hwf]
  · simp only [hm, if_false, List.nil_append, List.append_assoc]
    obtain ⟨c, tl, hc⟩ := List.exists_cons_of_ne_nil (natDigits_ne_nil m.natAbs)
    have hcd : isDigit c = true := natDigits_digits _ c (by rw [hc]; exact List.mem_cons_self _ _)
    have hne := isDigit_ne_minus c hcd
    have hu2 := hu
    rw [hc] at hu2 ⊢
    simp only [List.cons_append] at hu2 ⊢
    unfold parseNumber
    simp only [hne, if_false]
    rw [hu2]
    have : ((m.natAbs : Nat) : Int) = m := by omega
    simp [signed, this, mkDec_neg m k hwf]

/-! ## Strings -/

theorem hex4_control : ∀ n, n < 32 →
    hex4 '0' '0' (hexDigit (n / 16)) (hexDigit (n % 16)) = some n := by
  decide

theorem consUnit_some (n : Nat) (us : List Nat) (rest : List Char) :
    consUnit n (some (us, rest)) = some (n :: us, rest) := rfl

theorem parseStrUnits_escape (e : Char) (n : Nat) (tail : List Char) (he : e ≠ 'u')
    (hu : unescape e = some n) :
    parseStrUnits ('\\' :: e :: tail) = consUnit n (parseStrUnits tail) := by
  rw [parseStrUnits.eq_def]
  simp [he, hu]

theorem parseStrUnits_quoteChar (c : Char) (tail : List Char) :
    parseStrUnits (quoteChar c ++ tail) = consUnit c.toNat (parseStrUnits tail) := by
  unfold quoteChar
  split
  · rename_i h; subst h
    exact parseStrUnits_escape '"' 34 tail (by decide) rfl
  split
  · rename_i h; subst h
    exact parseStrUnits_escape '\\' 92 tail (by decide) rfl
  split
  · rename_i h; rw [h]
    exact parseStrUnits_escape 'b' 8 tail (by decide) rfl
  split
  · rename_i h; rw [h]
    exact parseStrUnits_escape 't' 9 tail (by decide) rfl
  split
  · rename_i h; rw [h]
    exact parseStrUnits_escape 'n' 10 tail (by decide) rfl
  split
  · rename_i h; rw [h]
    exact parseStrUnits_escape 'f' 12 tail (by decide) rfl
  split
  · rename_i h; rw [h]
    exact parseStrUnits_escape 'r' 13 tail (by decide) rfl
  split
  · rename_i h
    have := hex4_control c.toNat h
    simp only [List.cons_append, List.nil_append]
    rw [parseStrUnits.eq_def]
    simp [this]
  · rename_i h1 h2 _ _ _ _ _ h3
    simp only [List.cons_append, List.nil_append]
    rw [parseStrUnits.eq_def]
    simp [h1, h2, h3]

theorem parseStrUnits_quoteBody (s rest : List Char) :
    parseStrUnits (quoteBody s ++ '"' :: rest) = some (s.map Char.toNat, rest) := by
  induction s with
  | nil =>
    rw [parseStrUnits.eq_def]
    simp [quoteBody]
  | cons c cs ih =>
    simp only [quoteBody, List.append_assoc]
    rw [parseStrUnits_quoteChar, ih]
    rfl

theorem char_not_surrogate (c : Char) : ¬ (55296 ≤ c.toNat ∧ c.toNat ≤ 57343) := by
  have h := c.valid
  simp only [UInt32.isValidChar, Nat.isValidChar] at h
  have : c.toNat = c.val.toNat := rfl
  omega

theorem unitChar_toNat (c : Char) : unitChar c.toNat = c := by
  simp [unitChar, char_not_surrogate c]

theorem combineUnits_toNat (s : List Char) : combineUnits (s.map Char.toNat) = s := by
  induction s with
  | nil => rfl
  | cons c cs ih =>
    cases cs with
    | nil => simp [combineUnits, unitChar_toNat]
    | cons d ds =>
      have hc := char_not_surrogate c
      have : ¬ ((55296 ≤ c.toNat ∧ c.toNat ≤ 56319) ∧ (56320 ≤ d.toNat ∧ d.toNat ≤ 57343)) := by
        omega
      simp only [List.map_cons, combineUnits, this, if_false, unitChar_toNat]
      simp only [List.map_cons] at ih
      rw [ih]

/-- Parsing a quoted string gives the string back. -/
theorem parseStrBody_quote (s : String) (rest : List Char) :
    parseStrBody (quoteBody s.data ++ '"' :: rest) = some (s, rest) := by
  simp [parseStrBody, parseStrUnits_quoteBody, combineUnits_toNat]

/-! ## Objects in property order -/

theorem keysOrdered_append_singleton (acc : List (String × JVal)) (k : String) (v : JVal)
    (h : keysOrdered (acc ++ [(k, v)]) = true) :
    (∀ kv ∈ acc, keyRel kv.1 k = true) ∧ keysOrdered acc = true := by
  induction acc with
  | nil => simp [keysOrdered]
  | cons a acc ih =>
    simp only [List.cons_append, keysOrdered, Bool.and_eq_true, List.all_eq_true] at h
    obtain ⟨h1, h2⟩ := h
    obtain ⟨ih1, ih2⟩ := ih h2
    refine ⟨?_, ?_⟩
    · intro kv hkv
      rcases List.mem_cons.1 hkv with hkv | hkv
      · subst hkv; exact h1 (k, v) (List.mem_append_right _ (List.mem_singleton.2 rfl))
      · exact ih1 kv hkv
    · simp only [keysOrdered, Bool.and_eq_true, List.all_eq_true]
      exact ⟨fun x hx => h1 x (List.mem_append_left _ hx), ih2⟩

theorem keyRel_ne {a k : String} (h : keyRel a k = true) : a ≠ k := by
  intro hak
  subst hak
  unfold keyRel at h
  cases hi : arrayIndex a <;> simp [hi] at h

theorem keyRel_not_before {a k : String} (h : keyRel a k = true) : keyBefore k a = false := by
  unfold keyRel at h
  unfold keyBefore
  cases hi : arrayIndex a <;> cases hj : arrayIndex k <;> simp [hi, hj] at h ⊢
  omega

theorem lookupProp_none_of_rel (acc : List (String × JVal)) (k : String)
    (h : ∀ kv ∈ acc, keyRel kv.1 k = true) : lookupProp k acc = none := by
  induction acc with
  | nil => rfl
  | cons a acc ih =>
    have ha : a.1 ≠ k := keyRel_ne (h a (List.mem_cons_self _ _))
    simp [lookupProp, ha, ih (fun kv hkv => h kv (List.mem_cons_of_mem _ hkv))]

theorem insertProp_last (acc : List (String × JVal)) (k : String) (v : JVal)
    (h : ∀ kv ∈ acc, keyRel kv.1 k = true) : insertProp k v acc = acc ++ [(k, v)] := by
  induction acc with
  | nil => rfl
  | cons a acc ih =>
    have ha : keyBefore k a.1 = false := keyRel_not_before (h a (List.mem_cons_self _ _))
    simp [insertProp, ha, ih (fun kv hkv => h kv (List.mem_cons_of_mem _ hkv))]

theorem defineProp_last (acc : List (String × JVal)) (k : String) (v : JVal)
    (h : ∀ kv ∈ acc, keyRel kv.1 k = true) : defineProp acc k v = acc ++ [(k, v)] := by
  simp [defineProp, hasProp, lookupProp_none_of_rel acc k h, insertProp_last acc k v h]

theorem keysOrdered_prefix (acc rest : List (String × JVal))
    (h : keysOrdered (acc ++ rest) = true) : keysOrdered acc = true := by
  induction acc with
  | nil => rfl
  | cons a acc ih =>
    simp only [List.cons_append, keysOrdered, Bool.and_eq_true, List.all_eq_true] at h ⊢
    exact ⟨fun x hx => h.1 x (List.mem_append_left _ hx), ih h.2⟩

/-- Members already in property order denote themselves. -/
theorem mkObject_ordered (kvs : List (String × JVal)) : ∀ acc : List (String × JVal),
    keysOrdered (acc ++ kvs) = true → mkObject acc kvs = acc ++ kvs := by
  induction kvs with
  | nil => intro acc _; simp [mkObject]
  | cons kv kvs ih =>
    intro acc h
    have h1 : keysOrdered ((acc ++ [(kv.1, kv.2)]) ++ kvs) = true := by
      simpa using h
    have h2 := keysOrdered_prefix _ _ h1
    have h3 := (keysOrdered_append_singleton acc kv.1 kv.2 h2).1
    rw [mkObject, defineProp_last acc kv.1 kv.2 h3, ih _ h1]
    simp

/-! ## Round trip of values -/

theorem skipWs_cons (c : Char) (tl : List Char) (h : isWs c = false) :
    skipWs (c :: tl) = c :: tl := by
  simp [skipWs, h]

theorem isDigit_valueStart (c : Char) (h : isDigit c = true) : ValueStart c := by
  simp only [isDigit, Bool.and_eq_true, decide_eq_true_eq] at h
  refine ⟨?_, ?_, ?_⟩
  · simp only [isWs, Bool.or_eq_false_iff, decide_eq_false_iff_not]
    omega
  · intro hc; subst hc; revert h; decide
  · intro hc; subst hc; revert h; decide

theorem numText_head (m : Int) (k : Nat) : ∃ c tl, numText m k = c :: tl ∧ ValueStart c := by
  rw [numText_eq]
  by_cases hm : m < 0
  · exact ⟨'-', natDigits m.natAbs ++ expText k, by simp [hm], by decide, by decide, by decide⟩
  · obtain ⟨c, tl, hc⟩ := List.exists_cons_of_ne_nil (natDigits_ne_nil m.natAbs)
    refine ⟨c, tl ++ expText k, by simp [hm, hc], ?_⟩
    exact isDigit_valueStart c (natDigits_digits _ c (by rw [hc]; exact List.mem_cons_self _ _))

theorem stringifyVal_head (v : JVal) : ∃ c tl, stringifyVal v = c :: tl ∧ ValueStart c := by
  cases v with
  | null => exact ⟨'n', _, rfl, by decide, by decide, by decide⟩
  | bool b =>
    cases b
    · exact ⟨'f', _, rfl, by decide, by decide, by decide⟩
    · exact ⟨'t', _, rfl, by decide, by decide, by decide⟩
  | num m k => simpa [stringifyVal] using numText_head m k
  | str s => exact ⟨'"', _, rfl, by decide, by decide, by decide⟩
  | arr xs => exact ⟨'[', _, by rw [stringifyVal], by decide, by decide, by decide⟩
  | obj kvs => exact ⟨'{', _, by rw [stringifyVal], by decide, by decide, by decide⟩

theorem parseValue_arr_nil (f : Nat) (rest : List Char) :
    parseValue (f + 1) ('[' :: ']' :: rest) = some (.arr [], rest) := by
  rw [parseValue]
  simp [skipWs, isWs]

theorem parseValue_obj_nil (f : Nat) (rest : List Char) :
    parseValue (f + 1) ('{' :: '}' :: rest) = some (.obj [], rest) := by
  rw [parseValue]
  simp [skipWs, isWs]

theorem parseValue_arr_cons (f : Nat) (c : Char) (r : List Char) (xs : List JVal)
    (rest : List Char) (hc : ValueStart c)
    (h : parseElements f (c :: r) = some (xs, rest)) :
    parseValue (f + 1) ('[' :: c :: r) = some (.arr xs, rest) := by
  rw [parseValue]
  have h1 : skipWs ('[' :: c :: r) = '[' :: c :: r := skipWs_cons _ _ (by decide)
  have h2 : skipWs (c :: r) = c :: r := skipWs_cons _ _ hc.1
  simp [h1, h2, hc.2.1, h]

theorem parseValue_obj_cons (f : Nat) (c : Char) (r : List Char) (kvs : List (String × JVal))
    (rest : List Char) (hc : ValueStart c)
    (h : parseMembers f (c :: r) = some (kvs, rest)) :
    parseValue (f + 1) ('{' :: c :: r) = some (.obj (mkObject [] kvs), rest) := by
  rw [parseValue]
  have h1 : skipWs ('{' :: c :: r) = '{' :: c :: r := skipWs_cons _ _ (by decide)
  have h2 : skipWs (c :: r) = c :: r := skipWs_cons _ _ hc.1
  simp [h1, h2, hc.2.2, h]

theorem parseValue_str (f : Nat) (r : List Char) (s : String) (rest : List Char)
    (h : parseStrBody r = some (s, rest)) :
    parseValue (f + 1) ('"' :: r) = some (.str s, rest) := by
  rw [parseValue]
  have h1 : skipWs ('"' :: r) = '"' :: r := skipWs_cons _ _ (by decide)
  simp [h1, h]

theorem parseValue_num (f : Nat) (c : Char) (r : List Char) (n : Int × Nat) (rest : List Char)
    (hc : c = '-' ∨ isDigit c = true)
    (h : parseNumber (c :: r) = some (n, rest)) :
    parseValue (f + 1) (c :: r) = some (.num n.1 n.2, rest) := by
  rw [parseValue]
  have hs : ValueStart c ∧ c ≠ '{' ∧ c ≠ '[' ∧ c ≠ '"' ∧ c ≠ 't' ∧ c ≠ 'f' ∧ c ≠ 'n' := by
    rcases hc with hc | hc
    · subst hc; exact ⟨⟨by decide, by decide, by decide⟩, by decide⟩
    · refine ⟨isDigit_valueStart c hc, ?_, ?_, ?_, ?_, ?_, ?_⟩ <;>
        (intro h0; subst h0; revert hc; decide)
  obtain ⟨hv, h1, h2, h3, h4, h5, h6⟩ := hs
  have h0 : skipWs (c :: r) = c :: r := skipWs_cons _ _ hv.1
  simp [h0, h1, h2, h3, h4, h5, h6, h]

theorem numText_start (m : Int) (k : Nat) :
    ∃ c tl, numText m k = c :: tl ∧ (c = '-' ∨ isDigit c = true) := by
  rw [numText_eq]
  by_cases hm : m < 0
  · exact ⟨'-', natDigits m.natAbs ++ expText k, by simp [hm], Or.inl rfl⟩
  · obtain ⟨c, tl, hc⟩ := List.exists_cons_of_ne_nil (natDigits_ne_nil m.natAbs)
    exact ⟨c, tl ++ expText k, by simp [hm, hc],
      Or.inr (natDigits_digits _ c (by rw [hc]; exact List.mem_cons_self _ _))⟩

theorem parseElements_last (f : Nat) (cs : List Char) (v : JVal) (rest : List Char)
    (h : parseValue f cs = some (v, ']' :: rest)) :
    parseElements (f + 1) cs = some ([v], rest) := by
  rw [parseElements]
  have h1 : skipWs (']' :: rest) = ']' :: rest := skipWs_cons _ _ (by decide)
  simp [h, h1]

theorem parseElements_more (f : Nat) (cs : List Char) (v : JVal) (r : List Char)
    (vs : List JVal) (rest : List Char)
    (h : parseValue f cs = some (v, ',' :: r)) (h2 : parseElements f r = some (vs, rest)) :
    parseElements (f + 1) cs = some (v :: vs, rest) := by
  rw [parseElements]
  have h1 : skipWs (',' :: r) = ',' :: r := skipWs_cons _ _ (by decide)
  simp [h, h1, h2]

theorem parseMembers_last (f : Nat) (k : String) (r r2 : List Char) (v : JVal)
    (rest : List Char) (hk : parseStrBody r = some (k, ':' :: r2))
    (h : parseValue f r2 = some (v, '}' :: rest)) :
    parseMembers (f + 1) ('"' :: r) = some ([(k, v)], rest) := by
  rw [parseMembers]
  have h0 : skipWs ('"' :: r) = '"' :: r := skipWs_cons _ _ (by decide)
  have h1 : skipWs (':' :: r2) = ':' :: r2 := skipWs_cons _ _ (by decide)
  have h2 : skipWs ('}' :: rest) = '}' :: rest := skipWs_cons _ _ (by decide)
  simp [h0, hk, h1, h, h2]

theorem parseMembers_more (f : Nat) (k : String) (r r2 r4 : List Char) (v : JVal)
    (kvs : List (String × JVal)) (rest : List Char)
    (hk : parseStrBody r = some (k, ':' :: r2))
    (h : parseValue f r2 = some (v, ',' :: r4))
    (h4 : parseMembers f r4 = some (kvs, rest)) :
    parseMembers (f + 1) ('"' :: r) = some ((k, v) :: kvs, rest) := by
  rw [parseMembers]
  have h0 : skipWs ('"' :: r) = '"' :: r := skipWs_cons _ _ (by decide)
  have h1 : skipWs (':' :: r2) = ':' :: r2 := skipWs_cons _ _ (by decide)
  have h2 : skipWs (',' :: r4) = ',' :: r4 := skipWs_cons _ _ (by decide)
  simp [h0, hk, h1, h, h2, h4]

theorem stringifyElems_true_cons (x : JVal) (xs : List JVal) :
    stringifyElems true (x :: xs) = stringifyVal x ++ stringifyElems false xs := by
  rw [stringifyElems]; rfl

theorem stringifyElems_false_cons (x : JVal) (xs : List JVal) :
    stringifyElems false (x :: xs) = ',' :: stringifyElems true (x :: xs) := by
  rw [stringifyElems, stringifyElems_true_cons]; rfl

theorem stringifyElems_false_nil : stringifyElems false [] = [']'] := by
  rw [stringifyElems]

theorem stringifyMembers_true_cons (kv : String × JVal) (kvs : List (String × JVal)) :
    stringifyMembers true (kv :: kvs) =
      '"' :: (quoteBody kv.1.data ++ '"' :: ':' :: (stringifyVal kv.2 ++ stringifyMembers false kvs)) := by
  rw [stringifyMembers]; simp [quote]

theorem stringifyMembers_false_cons (kv : String × JVal) (kvs : List (String × JVal)) :
    stringifyMembers false (kv :: kvs) = ',' :: stringifyMembers true (kv :: kvs) := by
  rw [stringifyMembers, stringifyMembers_true_cons]; simp [quote]

theorem stringifyMembers_false_nil : stringifyMembers false [] = ['}'] := by
  rw [stringifyMembers]

theorem delim_elems (xs : List JVal) (rest : List Char) :
    Delim (stringifyElems false xs ++ rest) := by
  cases xs with
  | nil => rw [stringifyElems_false_nil]; exact Delim.cons_bracket _
  | cons x xs => rw [stringifyElems_false_cons]; exact Delim.cons_comma _

theorem delim_members (kvs : List (String × JVal)) (rest : List Char) :
    Delim (stringifyMembers false kvs ++ rest) := by
  cases kvs with
  | nil => rw [stringifyMembers_false_nil]; exact Delim.cons_brace _
  | cons x xs => rw [stringifyMembers_false_cons]; exact Delim.cons_comma _

mutual
/-- Parsing the text of a well-formed value, with enough fuel, gives the value
back and leaves the rest of the input. -/
theorem parseValue_stringify : ∀ (v : JVal), v.wf = true → ∀ (f : Nat) (rest : List Char),
    v.need ≤ f → Delim rest → parseValue f (stringifyVal v ++ rest) = some (v, rest)
  | .null, _, f, rest, hf, _ => by
    obtain ⟨f, rfl⟩ : ∃ g, f = g + 1 := ⟨f - 1, by simp [JVal.need] at hf; omega⟩
    rw [parseValue]; simp [stringifyVal, skipWs, isWs]
  | .bool true, _, f, rest, hf, _ => by
    obtain ⟨f, rfl⟩ : ∃ g, f = g + 1 := ⟨f - 1, by simp [JVal.need] at hf; omega⟩
    rw [parseValue]; simp [stringifyVal, skipWs, isWs]
  | .bool false, _, f, rest, hf, _ => by
    obtain ⟨f, rfl⟩ : ∃ g, f = g + 1 := ⟨f - 1, by simp [JVal.need] at hf; omega⟩
    rw [parseValue]; simp [stringifyVal, skipWs, isWs]
  | .num m k, hwf, f, rest, hf, hd => by
    obtain ⟨f, rfl⟩ : ∃ g, f = g + 1 := ⟨f - 1, by simp [JVal.need] at hf; omega⟩
    have hw : k = 0 ∨ m % 10 ≠ 0 := by simpa [JVal.wf] using hwf
    have hp := parseNumber_numText m k hw rest hd
    obtain ⟨c, tl, hc, hs⟩ := numText_start m k
    rw [hc] at hp
    rw [stringifyVal, hc]
    exact parseValue_num f c (tl ++ rest) (m, k) rest hs hp
  | .str s, _, f, rest, hf, _ => by
    obtain ⟨f, rfl⟩ : ∃ g, f = g + 1 := ⟨f - 1, by simp [JVal.need] at hf; omega⟩
    have := parseValue_str f (quoteBody s.data ++ '"' :: rest) s rest (parseStrBody_quote s rest)
    simpa [stringifyVal, quote] using this
  | .arr xs, hwf, f, rest, hf, _ => by
    obtain ⟨f, rfl⟩ : ∃ g, f = g + 1 := ⟨f - 1, by simp [JVal.need] at hf; omega⟩
    rw [stringifyVal]
    cases xs with
    | nil => simpa [stringifyElems] using parseValue_arr_nil f rest
    | cons x xs =>
      have hwf2 : wfElems (x :: xs) = true := by simpa [JVal.wf] using hwf
      have hf2 : needElems (x :: xs) ≤ f := by simp [JVal.need] at hf; omega
      have hp := parseElements_stringify (x :: xs) (by simp) hwf2 f rest hf2
      obtain ⟨c, tl, hc, hs⟩ := stringifyVal_head x
      rw [stringifyElems_true_cons, hc] at hp ⊢
      exact parseValue_arr_cons f c _ (x :: xs) rest hs hp
  | .obj kvs, hwf, f, rest, hf, _ => by
    obtain ⟨f, rfl⟩ : ∃ g, f = g + 1 := ⟨f - 1, by simp [JVal.need] at hf; omega⟩
    rw [stringifyVal]
    cases kvs with
    | nil => simpa [stringifyMembers] using parseValue_obj_nil f rest
    | cons kv kvs =>
      have hwf1 : keysOrdered (kv :: kvs) = true ∧ wfMembers (kv :: kvs) = true := by
        simpa [JVal.wf] using hwf
      have hf2 : needMembers (kv :: kvs) ≤ f := by simp [JVal.need] at hf; omega
      have hp := parseMembers_stringify (kv :: kvs) (by simp) hwf1.2 f rest hf2
      rw [stringifyMembers_true_cons] at hp ⊢
      have := parseValue_obj_cons f '"' _ (kv :: kvs) rest ⟨by decide, by decide, by decide⟩ hp
      rw [mkObject_ordered (kv :: kvs) [] (by simpa using hwf1.1)] at this
      simpa using this
/-- Parsing the text of the elements of a non-empty array gives them back. -/
theorem parseElements_stringify : ∀ (xs : List JVal), xs ≠ [] → wfElems xs = true →
    ∀ (f : Nat) (rest : List Char), needElems xs ≤ f →
      parseElements f (stringifyElems true xs ++ rest) = some (xs, rest)
  | [], hne, _, _, _, _ => absurd rfl hne
  | x :: xs, _, hwf, f, rest, hf => by
    obtain ⟨f, rfl⟩ : ∃ g, f = g + 1 := ⟨f - 1, by simp [needElems] at hf; omega⟩
    have hwf2 : x.wf = true ∧ wfElems xs = true := by simpa [wfElems] using hwf
    have hfx : x.need ≤ f := by simp [needElems] at hf; omega
    have hfxs : needElems xs ≤ f := by simp [needElems] at hf; omega
    have hv := parseValue_stringify x hwf2.1 f (stringifyElems false xs ++ rest) hfx
      (delim_elems xs rest)
    rw [stringifyElems_true_cons, List.append_assoc]
    cases xs with
    | nil =>
      rw [stringifyElems_false_nil] at hv ⊢
      exact parseElements_last f _ x rest hv
    | cons y ys =>
      rw [stringifyElems_false_cons] at hv ⊢
      exact parseElements_more f _ x _ (y :: ys) rest hv
        (parseElements_stringify (y :: ys) (by simp) hwf2.2 f rest hfxs)
/-- Parsing the text of the members of a non-empty object gives them back. -/
theorem parseMembers_stringify : ∀ (kvs : List (String × JVal)), kvs ≠ [] →
    wfMembers kvs = true → ∀ (f : Nat) (rest : List Char), needMembers kvs ≤ f →
      parseMembers f (stringifyMembers true kvs ++ rest) = some (kvs, rest)
  | [], hne, _, _, _, _ => absurd rfl hne
  | kv :: kvs, _, hwf, f, rest, hf => by
    obtain ⟨f, rfl⟩ : ∃ g, f = g + 1 := ⟨f - 1, by simp [needMembers] at hf; omega⟩
    have hwf2 : kv.2.wf = true ∧ wfMembers kvs = true := by simpa [wfMembers] using hwf
    have hfx : kv.2.need ≤ f := by simp [needMembers] at hf; omega
    have hfxs : needMembers kvs ≤ f := by simp [needMembers] at hf; omega
    have hv := parseValue_stringify kv.2 hwf2.1 f (stringifyMembers false kvs ++ rest) hfx
      (delim_members kvs rest)
    have hk := parseStrBody_quote kv.1
      (':' :: (stringifyVal kv.2 ++ (stringifyMembers false kvs ++ rest)))
    rw [stringifyMembers_true_cons]
    simp only [List.cons_append, List.append_assoc]
    cases kvs with
    | nil =>
      rw [stringifyMembers_false_nil] at hv hk ⊢
      exact parseMembers_last f kv.1 _ _ kv.2 rest hk hv
    | cons y ys =>
      rw [stringifyMembers_false_cons] at hv hk ⊢
      exact parseMembers_more f kv.1 _ _ _ kv.2 (y :: ys) rest hk hv
        (parseMembers_stringify (y :: ys) (by simp) hwf2.2 f rest hfxs)
end

/-! ## Fuel -/

theorem natDigits_length_pos (n : Nat) : 0 < (natDigits n).length :=
  List.length_pos.2 (natDigits_ne_nil n)

theorem numText_length_pos (m : Int) (k : Nat) : 0 < (numText m k).length := by
  have := natDigits_length_pos m.natAbs
  simp only [numText, List.length_append]
  omega

mutual
theorem need_le_length : ∀ v : JVal, v.need ≤ (stringifyVal v).length
  | .null => by simp [JVal.need, stringifyVal]
  | .bool true => by simp [JVal.need, stringifyVal]
  | .bool false => by simp [JVal.need, stringifyVal]
  | .num m k => by
    have := numText_length_pos m k
    simp only [JVal.need, stringifyVal]; omega
  | .str s => by simp [JVal.need, stringifyVal, quote]
  | .arr [] => by simp [JVal.need, stringifyVal, needElems, stringifyElems]
  | .arr (x :: xs) => by
    have h1 := need_le_length x
    have h2 := needElems_lt_length xs
    rw [stringifyVal, stringifyElems_true_cons]
    simp only [JVal.need, needElems, List.length_cons, List.length_append]
    omega
  | .obj [] => by simp [JVal.need, stringifyVal, needMembers, stringifyMembers]
  | .obj (kv :: kvs) => by
    have h1 := need_le_length kv.2
    have h2 := needMembers_lt_length kvs
    rw [stringifyVal, stringifyMembers_true_cons]
    simp only [JVal.need, needMembers, List.length_cons, List.length_append]
    omega
theorem needElems_lt_length : ∀ xs : List JVal, needElems xs < (stringifyElems false xs).length
  | [] => by simp [needElems, stringifyElems]
  | x :: xs => by
    have h1 := need_le_length x
    have h2 := needElems_lt_length xs
    rw [stringifyElems_false_cons, stringifyElems_true_cons]
    simp only [needElems, List.length_cons, List.length_append]
    omega
theorem needMembers_lt_length : ∀ kvs : List (String × JVal),
    needMembers kvs < (stringifyMembers false kvs).length
  | [] => by simp [needMembers, stringifyMembers]
  | kv :: kvs => by
    have h1 := need_le_length kv.2
    have h2 := needMembers_lt_length kvs
    rw [stringifyMembers_false_cons, stringifyMembers_true_cons]
    simp only [needMembers, List.length_cons, List.length_append]
    omega
end

/-- `JSON.parse(JSON.stringify(v))` is `v`, for every well-formed value. -/
theorem parse_stringify (v : JVal) (h : v.wf = true) : JSON.parse (JSON.stringify v) = some v := by
  have hf : v.need ≤ 2 * (stringifyVal v).length + 2 := by
    have := need_le_length v; omega
  have := parseValue_stringify v h _ [] hf Delim.nil
  simp only [List.append_nil] at this
  simp [JSON.parse, JSON.stringify, this, skipWs]

/-! ## Definition of properties keeps objects well formed -/

theorem arrayIndex_inj {a b : String} {i : Nat} (ha : arrayIndex a = some i)
    (hb : arrayIndex b = some i) : a = b := by
  unfold arrayIndex at ha hb
  split at ha <;> split at hb <;> simp at ha hb
  rename_i h1 h2
  have : a.data = b.data := by rw [← h1.1, ← h2.1, ha, hb]
  exact String.ext this

theorem keyBefore_rel {k a : String} (h : keyBefore k a = true) : keyRel k a = true := by
  unfold keyBefore at h
  unfold keyRel
  cases hi : arrayIndex k <;> cases hj : arrayIndex a <;> simp [hi, hj] at h ⊢
  exact h

theorem keyBefore_trans {k a x : String} (h : keyBefore k a = true) (hx : keyRel a x = true) :
    keyRel k x = true := by
  unfold keyBefore at h
  unfold keyRel at hx ⊢
  cases hi : arrayIndex k <;> cases hj : arrayIndex a <;> cases hl : arrayIndex x <;>
    simp [hi, hj, hl] at h hx ⊢
  omega

theorem keyRel_of_not_before {k a : String} (h : keyBefore k a = false) (hne : a ≠ k) :
    keyRel a k = true := by
  unfold keyBefore at h
  unfold keyRel
  cases hi : arrayIndex k <;> cases hj : arrayIndex a <;> simp [hi, hj] at h ⊢
  · exact hne
  · rename_i i j
    rcases Nat.lt_or_ge j i with hlt | hge
    · exact hlt
    · have : i = j := by omega
      subst this
      exact absurd (arrayIndex_inj hj hi) hne

theorem mem_insertProp (k : String) (v : JVal) (kvs : List (String × JVal))
    (x : String × JVal) (hx : x ∈ insertProp k v kvs) : x = (k, v) ∨ x ∈ kvs := by
  induction kvs with
  | nil => simpa [insertProp] using hx
  | cons a kvs ih =>
    unfold insertProp at hx
    split at hx
    · rcases List.mem_cons.1 hx with h | h
      · exact Or.inl h
      · exact Or.inr h
    · rcases List.mem_cons.1 hx with h | h
      · exact Or.inr (h ▸ List.mem_cons_self _ _)
      · rcases ih h with h | h
        · exact Or.inl h
        · exact Or.inr (List.mem_cons_of_mem _ h)

theorem lookupProp_none_ne (k : String) (a : String × JVal) (kvs : List (String × JVal))
    (h : lookupProp k (a :: kvs) = none) : a.1 ≠ k ∧ lookupProp k kvs = none := by
  unfold lookupProp at h
  split at h
  · cases h
  · rename_i hne; exact ⟨hne, h⟩

theorem keysOrdered_insertProp (k : String) (v : JVal) (kvs : List (String × JVal))
    (h : keysOrdered kvs = true) (hk : lookupProp k kvs = none) :
    keysOrdered (insertProp k v kvs) = true := by
  induction kvs with
  | nil => simp [insertProp, keysOrdered]
  | cons a kvs ih =>
    obtain ⟨hne, hk2⟩ := lookupProp_none_ne k a kvs hk
    simp only [keysOrdered, Bool.and_eq_true, List.all_eq_true] at h
    unfold insertProp
    split
    · rename_i hb
      simp only [keysOrdered, Bool.and_eq_true, List.all_eq_true]
      refine ⟨?_, h.1, h.2⟩
      intro x hx
      rcases List.mem_cons.1 hx with hx | hx
      · subst hx; exact keyBefore_rel hb
      · exact keyBefore_trans hb (h.1 x hx)
    · rename_i hb
      simp only [keysOrdered, Bool.and_eq_true, List.all_eq_true]
      refine ⟨?_, ih h.2 hk2⟩
      intro x hx
      rcases mem_insertProp k v kvs x hx with hx | hx
      · subst hx
        exact keyRel_of_not_before (by simpa using hb) hne
      · exact h.1 x hx

theorem keysOrdered_replaceProp (k : String) (v : JVal) (kvs : List (String × JVal)) :
    (∀ a : String, (replaceProp k v kvs).all (fun kv' => keyRel a kv'.1) =
        kvs.all (fun kv' => keyRel a kv'.1)) ∧
      keysOrdered (replaceProp k v kvs) = keysOrdered kvs := by
  induction kvs with
  | nil => simp [replaceProp]
  | cons a kvs ih =>
    unfold replaceProp
    split
    · rename_i ha
      simp [keysOrdered, List.all_cons, ha]
    · simp [keysOrdered, List.all_cons, ih.1, ih.2]

theorem keysOrdered_defineProp (kvs : List (String × JVal)) (k : String) (v : JVal)
    (h : keysOrdered kvs = true) : keysOrdered (defineProp kvs k v) = true := by
  unfold defineProp
  split
  · rw [(keysOrdered_replaceProp k v kvs).2]; exact h
  · rename_i hk
    refine keysOrdered_insertProp k v kvs h ?_
    simpa [hasProp] using hk

theorem wfMembers_iff (kvs : List (String × JVal)) :
    wfMembers kvs = true ↔ ∀ kv ∈ kvs, kv.2.wf = true := by
  induction kvs with
  | nil => simp [wfMembers]
  | cons a kvs ih => simp [wfMembers, ih]

theorem mem_replaceProp (k : String) (v : JVal) (kvs : List (String × JVal))
    (x : String × JVal) (hx : x ∈ replaceProp k v kvs) : x = (k, v) ∨ x ∈ kvs := by
  induction kvs with
  | nil => simp [replaceProp] at hx
  | cons a kvs ih =>
    unfold replaceProp at hx
    split at hx
    · rcases List.mem_cons.1 hx with h | h
      · exact Or.inl h
      · exact Or.inr (List.mem_cons_of_mem _ h)
    · rcases List.mem_cons.1 hx with h | h
      · exact Or.inr (h ▸ List.mem_cons_self _ _)
      · rcases ih h with h | h
        · exact Or.inl h
        · exact Or.inr (List.mem_cons_of_mem _ h)

theorem wfMembers_defineProp (kvs : List (String × JVal)) (k : String) (v : JVal)
    (h : wfMembers kvs = true) (hv : v.wf = true) : wfMembers (defineProp kvs k v) = true := by
  rw [wfMembers_iff] at h ⊢
  intro x hx
  unfold defineProp at hx
  split at hx
  · rcases mem_replaceProp k v kvs x hx with hx | hx
    · subst hx; exact hv
    · exact h x hx
  · rcases mem_insertProp k v kvs x hx with hx | hx
    · subst hx; exact hv
    · exact h x hx

/-- Defining a property with a well-formed value keeps an object well
formed. -/
theorem wf_defineProp (kvs : List (String × JVal)) (k : String) (v : JVal)
    (h : (JVal.obj kvs).wf = true) (hv : v.wf = true) :
    (JVal.obj (defineProp kvs k v)).wf = true := by
  simp only [JVal.wf, Bool.and_eq_true] at h ⊢
  exact ⟨keysOrdered_defineProp kvs k v h.1, wfMembers_defineProp kvs k v h.2 hv⟩

theorem wf_mkObject (kvs : List (String × JVal)) : ∀ acc : List (String × JVal),
    (JVal.obj acc).wf = true → wfMembers kvs = true → (JVal.obj (mkObject acc kvs)).wf = true := by
  induction kvs with
  | nil => intro acc h _; simpa [mkObject] using h
  | cons kv kvs ih =>
    intro acc h hk
    simp only [wfMembers, Bool.and_eq_true] at hk
    rw [mkObject]
    exact ih _ (wf_defineProp acc kv.1 kv.2 h hk.1) hk.2

/-! ## The parser returns well-formed values -/

theorem normDec_wf (k : Nat) : ∀ m : Int, (normDec m k).2 = 0 ∨ (normDec m k).1 % 10 ≠ 0 := by
  induction k with
  | zero => intro m; simp [normDec]
  | succ k ih =>
    intro m
    unfold normDec
    split
    · exact ih _
    · rename_i h; exact Or.inr h

theorem mkDec_wf (m e : Int) : (mkDec m e).2 = 0 ∨ (mkDec m e).1 % 10 ≠ 0 := by
  unfold mkDec
  split
  · exact Or.inl rfl
  · exact normDec_wf _ _

theorem parseNumber_wf (cs : List Char) (n : Int × Nat) (r : List Char)
    (h : parseNumber cs = some (n, r)) : n.2 = 0 ∨ n.1 % 10 ≠ 0 := by
  unfold parseNumber at h
  split at h
  · cases h
  · split at h <;>
    · unfold signed at h
      split at h
      · cases h
      · simp only [Option.some.injEq, Prod.mk.injEq] at h
        rw [← h.1]
        exact mkDec_wf _ _

theorem parse_wf_aux (f : Nat) :
    (∀ cs v r, parseValue f cs = some (v, r) → v.wf = true) ∧
    (∀ cs xs r, parseElements f cs = some (xs, r) → wfElems xs = true) ∧
    (∀ cs kvs r, parseMembers f cs = some (kvs, r) → wfMembers kvs = true) := by
  induction f with
  | zero =>
    refine ⟨?_, ?_, ?_⟩ <;> intro cs v r h
    · simp [parseValue] at h
    · simp [parseElements] at h
    · simp [parseMembers] at h
  | succ f ih =>
    obtain ⟨ihv, ihe, ihm⟩ := ih
    refine ⟨?_, ?_, ?_⟩
    · intro cs v r h
      rw [parseValue] at h
      split at h
      · cases h
      · split at h
        · split at h
          · cases h
          · split at h
            · simp only [Option.some.injEq, Prod.mk.injEq] at h
              rw [← h.1]; rfl
            · split at h
              · cases h
              · rename_i kvs r2 hm
                simp only [Option.some.injEq, Prod.mk.injEq] at h
                rw [← h.1]
                exact wf_mkObject kvs [] rfl (ihm _ _ _ hm)
        · split at h
          · split at h
            · cases h
            · split at h
              · simp only [Option.some.injEq, Prod.mk.injEq] at h
                rw [← h.1]; rfl
              · split at h
                · cases h
                · rename_i xs r2 he
                  simp only [Option.some.injEq, Prod.mk.injEq] at h
                  rw [← h.1]
                  simpa [JVal.wf] using ihe _ _ _ he
          · split at h
            · split at h
              · cases h
              · simp only [Option.some.injEq, Prod.mk.injEq] at h
                rw [← h.1]; rfl
            · split at h
              · split at h
                · simp only [Option.some.injEq, Prod.mk.injEq] at h
                  rw [← h.1]; rfl
                · cases h
              · split at h
                · split at h
                  · simp only [Option.some.injEq, Prod.mk.injEq] at h
                    rw [← h.1]; rfl
                  · cases h
                · split at h
                  · split at h
                    · simp only [Option.some.injEq, Prod.mk.injEq] at h
                      rw [← h.1]; rfl
                    · cases h
                  · split at h
                    · cases h
                    · rename_i n r1 hn
                      simp only [Option.some.injEq, Prod.mk.injEq] at h
                      rw [← h.1]
                      simpa [JVal.wf] using parseNumber_wf _ _ _ hn
    · intro cs xs r h
      rw [parseElements] at h
      split at h
      · cases h
      · rename_i v r0 hv
        split at h
        · cases h
        · split at h
          · split at h
            · cases h
            · rename_i vs r2 he
              simp only [Option.some.injEq, Prod.mk.injEq] at h
              rw [← h.1]
              simp [wfElems, ihv _ _ _ hv, ihe _ _ _ he]
          · split at h
            · simp only [Option.some.injEq, Prod.mk.injEq] at h
              rw [← h.1]
              simp [wfElems, ihv _ _ _ hv]
            · cases h
    · intro cs kvs r h
      rw [parseMembers] at h
      split at h
      · cases h
      · split at h
        · split at h
          · cases h
          · split at h
            · cases h
            · split at h
              · split at h
                · cases h
                · rename_i v r3 hv
                  split at h
                  · cases h
                  · split at h
                    · split at h
                      · cases h
                      · rename_i kvs2 r5 hm
                        simp only [Option.some.injEq, Prod.mk.injEq] at h
                        rw [← h.1]
                        simp [wfMembers, ihv _ _ _ hv, ihm _ _ _ hm]
                    · split at h
                      · simp only [Option.some.injEq, Prod.mk.injEq] at h
                        rw [← h.1]
                        simp [wfMembers, ihv _ _ _ hv]
                      · cases h
              · cases h
        · cases h

/-- Every value `JSON.parse` returns is well formed. -/
theorem parse_wf (text : String) (v : JVal) (h : JSON.parse text = some v) : v.wf = true := by
  unfold JSON.parse at h
  split at h
  · cases h
  · rename_i v0 rest hp
    split at h
    · simp only [Option.some.injEq] at h
      rw [← h]
      exact (parse_wf_aux _).1 _ _ _ hp
    · cases h

/-! ## Local storage -/

theorem find_putEntry (key value : String) (es : List (String × String)) :
    ((putEntry key value es).find? fun kv => kv.1 = key) = some (key, value) := by
  induction es with
  | nil => simp [putEntry]
  | cons a es ih =>
    unfold putEntry
    split
    · simp
    · rename_i h
      simp [List.find?, h, ih]

theorem setItem_eq (st : Storage) (key value : String) :
    st.setItem key value =
      if st.accepts key value = true then
        some { st with entries := putEntry key value st.entries }
      else none := by
  simp [Storage.setItem, Storage.accepts]

theorem getItem_setItem (st st' : Storage) (key value : String)
    (h : st.setItem key value = some st') : st'.getItem key = some value := by
  rw [setItem_eq] at h
  split at h
  · simp only [Option.some.injEq] at h
    subst h
    simp [Storage.getItem, find_putEntry]
  · cases h

theorem storedText_of_blob (st : Storage) (s : String) (h : st.getItem settingsKey = some s)
    (hs : s ≠ "") : storedText st = s := by
  simp [storedText, h, hs]

theorem stringifyVal_ne_nil (v : JVal) : stringifyVal v ≠ [] := by
  obtain ⟨c, tl, h, _⟩ := stringifyVal_head v
  simp [h]

theorem stringify_ne_empty (v : JVal) : JSON.stringify v ≠ "" := by
  intro h
  have : (JSON.stringify v).data = [] := by rw [h]
  exact stringifyVal_ne_nil v this

/-! ## Properties of objects -/

theorem lookupProp_replaceProp (k : String) (v : JVal) (kvs : List (String × JVal))
    (h : hasProp k kvs = true) : lookupProp k (replaceProp k v kvs) = some v := by
  induction kvs with
  | nil => simp [hasProp, lookupProp] at h
  | cons a kvs ih =>
    unfold replaceProp
    split
    · simp [lookupProp]
    · rename_i hne
      have : hasProp k kvs = true := by simpa [hasProp, lookupProp, hne] using h
      simp [lookupProp, hne, ih this]

theorem lookupProp_insertProp (k : String) (v : JVal) (kvs : List (String × JVal))
    (h : lookupProp k kvs = none) : lookupProp k (insertProp k v kvs) = some v := by
  induction kvs with
  | nil => simp [insertProp, lookupProp]
  | cons a kvs ih =>
    obtain ⟨hne, h2⟩ := lookupProp_none_ne k a kvs h
    unfold insertProp
    split
    · simp [lookupProp]
    · simp [lookupProp, hne, ih h2]

/-- After `defineProp`, the key is bound to the value. -/
theorem lookupProp_defineProp (kvs : List (String × JVal)) (k : String) (v : JVal) :
    lookupProp k (defineProp kvs k v) = some v := by
  unfold defineProp
  split
  · rename_i h; exact lookupProp_replaceProp k v kvs h
  · rename_i h
    exact lookupProp_insertProp k v kvs (by simpa [hasProp] using h)

theorem isSettingValue_wf (v : JVal) (h : isSettingValue v = true) : v.wf = true := by
  cases v <;> simp_all [isSettingValue, JVal.wf]

/-! ## `saveSettings` -/

theorem saveSettings_parse_none (p : Page) (key : String) (value : JVal)
    (h : JSON.parse (storedText p.storage) = none) :
    saveSettings p key value = (false, logError p "Error saving settings:") := by
  simp [saveSettings, h]

theorem saveSettings_assign_error (p : Page) (key : String) (value : JVal) (settings : JVal)
    (e : JSError) (h : JSON.parse (storedText p.storage) = some settings)
    (ha : assignProp settings key value = .error e) :
    saveSettings p key value = (false, logError p "Error saving settings:") := by
  simp [saveSettings, h, ha]

theorem saveSettings_quota (p : Page) (key : String) (value : JVal) (settings s1 : JVal)
    (h : JSON.parse (storedText p.storage) = some settings)
    (ha : assignProp settings key value = .ok s1)
    (hw : p.storage.accepts settingsKey (JSON.stringify s1) = false) :
    saveSettings p key value = (false, logError p "Error saving settings:") := by
  simp [saveSettings, h, ha, setItem_eq, hw]

theorem saveSettings_ok (p : Page) (key : String) (value : JVal) (settings s1 : JVal)
    (h : JSON.parse (storedText p.storage) = some settings)
    (ha : assignProp settings key value = .ok s1)
    (hw : p.storage.accepts settingsKey (JSON.stringify s1) = true) :
    saveSettings p key value =
      (true, { p with storage :=
        { p.storage with entries := putEntry settingsKey (JSON.stringify s1) p.storage.entries } }) := by
  simp [saveSettings, h, ha, setItem_eq, hw]

theorem blob_after_put (p : Page) (s : String) :
    ({ p with storage := { p.storage with entries := putEntry settingsKey s p.storage.entries } } :
      Page).blob = some s := by
  simp [Page.blob, Storage.getItem, find_putEntry]

theorem assignProp_obj (m : List (String × JVal)) (key : String) (value : JVal)
    (hkey : key ≠ "__proto__") :
    assignProp (.obj m) key value = .ok (.obj (defineProp m key value)) := by
  simp [assignProp, hkey]

/-- C1 (amended). For every key other than `__proto__`, every value (string,
boolean or number) and every prior store whose blob is absent, empty or parses
to a JSON object, if the storage accepts the write then `saveSettings` returns
true and afterwards the persisted blob parses to a map in which the key is
bound to the value unchanged. -/
theorem saveSettings_binds (p : Page) (key : String) (value : JVal)
    (m : List (String × JVal)) (hkey : key ≠ "__proto__") (hv : isSettingValue value = true)
    (hm : JSON.parse (storedText p.storage) = some (.obj m))
    (hw : p.storage.accepts settingsKey (JSON.stringify (.obj (defineProp m key value))) = true) :
    (saveSettings p key value).1 = true ∧ Bound (saveSettings p key value).2 key value := by
  rw [saveSettings_ok p key value _ _ hm (assignProp_obj m key value hkey) hw]
  refine ⟨rfl, _, defineProp m key value, blob_after_put p _, ?_, lookupProp_defineProp m key value⟩
  exact parse_stringify _ (wf_defineProp m key value (parse_wf _ _ hm) (isSettingValue_wf value hv))

/-- Witness of `saveSettings_binds`: saving `debug-toggle = true` into an
absent store. -/
theorem saveSettings_binds_witness :
    (saveSettings (barePage [] 1000) "debug-toggle" (.bool true)).1 = true ∧
      Bound (saveSettings (barePage [] 1000) "debug-toggle" (.bool true)).2 "debug-toggle"
        (.bool true) :=
  saveSettings_binds (barePage [] 1000) "debug-toggle" (.bool true) [] (by decide) (by decide)
    (by decide) (by decide)

/-- C1 (as stated) fails: a corrupt blob is left as it is, the key `__proto__`
creates no entry, and a full storage refuses the write. -/
theorem saveSettings_not_bound :
    ¬ Bound (saveSettings (barePage [(settingsKey, "oops")] 1000) "a" (.bool true)).2 "a"
        (.bool true) ∧
    ¬ Bound (saveSettings (barePage [] 1000) "__proto__" (.str "x")).2 "__proto__" (.str "x") ∧
    ¬ Bound (saveSettings (barePage [] 0) "a" (.bool true)).2 "a" (.bool true) := by
  refine ⟨?_, ?_, ?_⟩
  · rintro ⟨blob, m, h1, h2, _⟩
    have hb : (saveSettings (barePage [(settingsKey, "oops")] 1000) "a" (.bool true)).2.blob =
        some "oops" := by decide
    rw [hb] at h1
    cases h1
    have : JSON.parse "oops" = none := by decide
    rw [this] at h2
    cases h2
  · rintro ⟨blob, m, h1, h2, h3⟩
    have hb : (saveSettings (barePage [] 1000) "__proto__" (.str "x")).2.blob = some "{}" := by
      decide
    rw [hb] at h1
    cases h1
    have : JSON.parse "{}" = some (.obj []) := by decide
    rw [this] at h2
    cases h2
    simp [lookupProp] at h3
  · rintro ⟨blob, m, h1, _, _⟩
    have hb : (saveSettings (barePage [] 0) "a" (.bool true)).2.blob = none := by decide
    rw [hb] at h1
    cases h1

theorem storedText_absent (st : Storage) (h : st.getItem settingsKey = none ∨
    st.getItem settingsKey = some "") : storedText st = "{}" := by
  rcases h with h | h <;> simp [storedText, h]

theorem parse_empty_object : JSON.parse "{}" = some (.obj []) := by decide

theorem defineProp_nil (key : String) (value : JVal) : defineProp [] key value = [(key, value)] := by
  simp [defineProp, hasProp, lookupProp, insertProp]

/-- C4 (amended). When the persisted blob is absent or empty, `saveSettings`
(for a key other than `__proto__` and a write the storage accepts) treats the
current map as empty and leaves the store holding exactly the one-entry map;
when the blob is present, not empty and does not parse, `saveSettings` returns
false and leaves the storage as it is. -/
theorem saveSettings_fresh (p : Page) (key : String) (value : JVal) :
    ((p.blob = none ∨ p.blob = some "") → key ≠ "__proto__" → isSettingValue value = true →
      p.storage.accepts settingsKey (JSON.stringify (.obj [(key, value)])) = true →
      (saveSettings p key value).1 = true ∧
        (saveSettings p key value).2.blob = some (JSON.stringify (.obj [(key, value)])) ∧
        JSON.parse (JSON.stringify (.obj [(key, value)])) = some (.obj [(key, value)])) ∧
    (∀ s, p.blob = some s → s ≠ "" → JSON.parse s = none →
      (saveSettings p key value).1 = false ∧ (saveSettings p key value).2.storage = p.storage) := by
  refine ⟨?_, ?_⟩
  · intro hb hkey hv hw
    have ht := storedText_absent p.storage hb
    have hm : JSON.parse (storedText p.storage) = some (.obj []) := by
      rw [ht]; exact parse_empty_object
    have hd := defineProp_nil key value
    rw [← hd] at hw ⊢
    rw [saveSettings_ok p key value _ _ hm (assignProp_obj [] key value hkey) hw]
    refine ⟨rfl, blob_after_put p _, ?_⟩
    exact parse_stringify _ (wf_defineProp [] key value rfl (isSettingValue_wf value hv))
  · intro s hb hs hp
    have ht : storedText p.storage = s := storedText_of_blob p.storage s hb hs
    rw [saveSettings_parse_none p key value (by rw [ht]; exact hp)]
    exact ⟨rfl, rfl⟩

/-- Witness of `saveSettings_fresh`: an absent store, and the corrupt blob
`oops`. -/
theorem saveSettings_fresh_witness :
    ((saveSettings (barePage [] 1000) "theme" (.str "theme-matrix")).1 = true ∧
      (saveSettings (barePage [] 1000) "theme" (.str "theme-matrix")).2.blob =
        some (JSON.stringify (.obj [("theme", .str "theme-matrix")])) ∧
      JSON.parse (JSON.stringify (.obj [("theme", .str "theme-matrix")])) =
        some (.obj [("theme", .str "theme-matrix")])) ∧
    ((saveSettings (barePage [(settingsKey, "oops")] 1000) "theme" (.str "theme-matrix")).1 = false ∧
      (saveSettings (barePage [(settingsKey, "oops")] 1000) "theme" (.str "theme-matrix")).2.storage =
        (barePage [(settingsKey, "oops")] 1000).storage) :=
  ⟨(saveSettings_fresh (barePage [] 1000) "theme" (.str "theme-matrix")).1 (Or.inl (by decide))
      (by decide) (by decide) (by decide),
    (saveSettings_fresh (barePage [(settingsKey, "oops")] 1000) "theme" (.str "theme-matrix")).2
      "oops" (by decide) (by decide) (by decide)⟩

/-- C4 (as stated) fails: with the unparseable blob `oops`, `saveSettings`
does not start from the empty map; it returns false and the blob stays. -/
theorem saveSettings_corrupt_kept :
    JSON.parse "oops" = none ∧
    (saveSettings (barePage [(settingsKey, "oops")] 1000) "a" (.bool true)).1 = false ∧
    (saveSettings (barePage [(settingsKey, "oops")] 1000) "a" (.bool true)).2.blob = some "oops" ∧
    (saveSettings (barePage [(settingsKey, "oops")] 1000) "a" (.bool true)).2.blob ≠
      some (JSON.stringify (.obj [("a", .bool true)])) := by
  decide

theorem assignProp_error_iff (settings : JVal) (key : String) (value : JVal) :
    (∃ e, assignProp settings key value = .error e) ↔
      (settings = .null ∨ ∃ xs, settings = .arr xs ∧ key = "length" ∧ toArrayLength value = none) := by
  cases settings with
  | null => simp [assignProp]
  | bool b => simp [assignProp]
  | num m k => simp [assignProp]
  | str s => simp [assignProp]
  | obj kvs =>
    simp only [assignProp, reduceCtorEq, false_and, exists_false, or_self, iff_false, not_exists]
    intro e
    split <;> simp
  | arr xs =>
    simp only [assignProp, reduceCtorEq, JVal.arr.injEq, exists_eq_left', false_or]
    constructor
    · rintro ⟨e, h⟩
      split at h
      · rename_i hk
        split at h
        · rename_i hl; exact ⟨hk, hl⟩
        · cases h
      · split at h <;> cases h
    · rintro ⟨hk, hl⟩
      exact ⟨.rangeError, by simp [hk, hl]⟩

/-- C5 (amended). `saveSettings` always returns a boolean.  It returns false
exactly when the stored text does not parse, the parsed value is `null` (or an
array given an invalid `length`), so that the assignment throws, or the storage
refuses the write; whenever it returns false the storage is exactly as before;
otherwise it returns true. -/
theorem saveSettings_result (p : Page) (key : String) (value : JVal) :
    ((saveSettings p key value).1 = false → (saveSettings p key value).2.storage = p.storage) ∧
    ((saveSettings p key value).1 = false ↔
      (JSON.parse (storedText p.storage) = none ∨
        ∃ settings, JSON.parse (storedText p.storage) = some settings ∧
          ((settings = .null ∨
              ∃ xs, settings = .arr xs ∧ key = "length" ∧ toArrayLength value = none) ∨
            ∃ s1, assignProp settings key value = .ok s1 ∧
              p.storage.accepts settingsKey (JSON.stringify s1) = false))) := by
  cases hp : JSON.parse (storedText p.storage) with
  | none =>
    rw [saveSettings_parse_none p key value hp]
    exact ⟨fun _ => rfl, fun _ => Or.inl rfl, fun _ => rfl⟩
  | some settings =>
    cases ha : assignProp settings key value with
    | error e =>
      rw [saveSettings_assign_error p key value settings e hp ha]
      have := (assignProp_error_iff settings key value).1 ⟨e, ha⟩
      exact ⟨fun _ => rfl, fun _ => Or.inr ⟨settings, rfl, Or.inl this⟩, fun _ => rfl⟩
    | ok s1 =>
      have hne : ¬ (settings = .null ∨
          ∃ xs, settings = .arr xs ∧ key = "length" ∧ toArrayLength value = none) := by
        intro h
        obtain ⟨e, he⟩ := (assignProp_error_iff settings key value).2 h
        rw [ha] at he
        cases he
      cases hw : p.storage.accepts settingsKey (JSON.stringify s1) with
      | false =>
        rw [saveSettings_quota p key value settings s1 hp ha hw]
        exact ⟨fun _ => rfl, fun _ => Or.inr ⟨settings, rfl, Or.inr ⟨s1, ha, hw⟩⟩, fun _ => rfl⟩
      | true =>
        rw [saveSettings_ok p key value settings s1 hp ha hw]
        refine ⟨fun h => (by cases h), ⟨fun h => (by cases h), fun h => False.elim ?_⟩⟩
        revert h
        rintro (h | ⟨s, hs, h | ⟨s2, h2, h3⟩⟩)
        · cases h
        · cases hs; exact absurd h hne
        · cases hs
          rw [ha] at h2
          cases h2
          rw [hw] at h3
          cases h3

/-- C5 (as stated) fails: with the blob `null`, parsing succeeds and nothing
is serialised or written, yet `saveSettings` returns false. -/
theorem saveSettings_null_false :
    JSON.parse (storedText (barePage [(settingsKey, "null")] 1000).storage) = some .null ∧
    (barePage [(settingsKey, "null")] 1000).storage.accepts settingsKey "null" = true ∧
    (saveSettings (barePage [(settingsKey, "null")] 1000) "a" (.bool true)).1 = false := by
  decide

/-! ## Import and export -/

/-- C2. For every prior page and every import text that is not valid JSON,
the import handler leaves the storage (and so the persisted blob) exactly as it
was, emits exactly one notification, the error `Invalid configuration file`,
and changes no element, style variable, body class or global. -/
theorem importConfig_invalid (p : Page) (text : String) (h : JSON.parse text = none) :
    (importConfig p text).storage = p.storage ∧
    (importConfig p text).notifications =
      p.notifications ++ [("Invalid configuration file", "error")] ∧
    (importConfig p text).elems = p.elems ∧
    (importConfig p text).rootStyle = p.rootStyle ∧
    (importConfig p text).bodyClasses = p.bodyClasses ∧
    (importConfig p text).autoRefreshEnabled = p.autoRefreshEnabled ∧
    (importConfig p text).realTimeEnabled = p.realTimeEnabled ∧
    (importConfig p text).downloads = p.downloads := by
  simp [importConfig, h, logError, showNotification]

/-- Witness of `importConfig_invalid`: the text `not json`. -/
theorem importConfig_invalid_witness :
    (importConfig (barePage [(settingsKey, "\x7b\"a\":true\x7d")] 1000) "not json").storage =
      (barePage [(settingsKey, "\x7b\"a\":true\x7d")] 1000).storage ∧
    (importConfig (barePage [(settingsKey, "\x7b\"a\":true\x7d")] 1000) "not json").notifications =
      (barePage [(settingsKey, "\x7b\"a\":true\x7d")] 1000).notifications ++
        [("Invalid configuration file", "error")] :=
  ⟨(importConfig_invalid (barePage [(settingsKey, "\x7b\"a\":true\x7d")] 1000) "not json"
      (by decide)).1,
    (importConfig_invalid (barePage [(settingsKey, "\x7b\"a\":true\x7d")] 1000) "not json"
      (by decide)).2.1⟩

/-- C9 (amended). The export handler offers one file named
`cybershield-settings.json` whose content is the persisted string when that is
present and not empty, and the text `{}` when no entry is persisted or the
persisted string is empty; it shows one success notification and leaves the
storage, and everything else, as it was. -/
theorem exportConfig_verbatim (p : Page) :
    (exportConfig p).storage = p.storage ∧
    (exportConfig p).elems = p.elems ∧
    (exportConfig p).notifications =
      p.notifications ++ [("Configuration exported successfully", "success")] ∧
    (exportConfig p).downloads =
      p.downloads ++ [("cybershield-settings.json", storedText p.storage)] ∧
    (∀ s, p.blob = some s → s ≠ "" → storedText p.storage = s) ∧
    ((p.blob = none ∨ p.blob = some "") → storedText p.storage = "{}") := by
  refine ⟨rfl, rfl, rfl, rfl, ?_, ?_⟩
  · intro s hs hne
    exact storedText_of_blob p.storage s hs hne
  · exact storedText_absent p.storage

/-- C9 (as stated) fails: when the persisted string is empty, the exported
content is `{}`, not the persisted string. -/
theorem exportConfig_empty_blob :
    (barePage [(settingsKey, "")] 1000).blob = some "" ∧
    (exportConfig (barePage [(settingsKey, "")] 1000)).downloads =
      [("cybershield-settings.json", "{}")] := by
  decide

/-! ## Loading -/

theorem applySetting_unrecognised (p : Page) (flag : Bool) (key : String) (value : JVal)
    (h : unrecognised key = true) : applySetting p flag key value = .ok p := by
  simp only [unrecognised, Bool.and_eq_true, Bool.not_eq_true', decide_eq_true_eq] at h
  obtain ⟨⟨⟨⟨⟨⟨⟨h1, h2⟩, h3⟩, h4⟩, h5⟩, h6⟩, h7⟩, h8⟩ := h
  simp [applySetting, h1, h2, h3, h4, h5, h6, h7, h8]

theorem applySettings_unrecognised (p : Page) (flag : Bool) (kvs : List (String × JVal))
    (h : ∀ kv ∈ kvs, unrecognised kv.1 = true) : applySettings p flag kvs = .ok p := by
  induction kvs with
  | nil => rfl
  | cons kv kvs ih =>
    simp only [applySettings,
      applySetting_unrecognised p flag kv.1 kv.2 (h kv (List.mem_cons_self _ _))]
    exact ih fun x hx => h x (List.mem_cons_of_mem _ hx)

/-- C10. For every persisted map all of whose keys are unrecognised,
`loadSavedSettings` (with either argument) returns true and leaves the page,
every element included, exactly as it was, whatever elements the document has. -/
theorem loadSavedSettings_unrecognised (p : Page) (flag : Bool) (m : List (String × JVal))
    (hm : JSON.parse (storedText p.storage) = some (.obj m))
    (h : ∀ kv ∈ m, unrecognised kv.1 = true) : loadSavedSettings p flag = (true, p) := by
  simp [loadSavedSettings, hm, ownEntries, applySettings_unrecognised p flag m h]

/-- Witness of `loadSavedSettings_unrecognised`: an element whose id equals an
unrecognised key stays untouched. -/
theorem loadSavedSettings_unrecognised_witness :
    loadSavedSettings unrecognisedPage true = (true, unrecognisedPage) :=
  loadSavedSettings_unrecognised unrecognisedPage true
    [("volume", .str "7"), ("mode", .bool true)] (by decide) (by decide)

theorem loadSavedSettings_parse_none (p : Page) (flag : Bool)
    (h : JSON.parse (storedText p.storage) = none) :
    loadSavedSettings p flag = (false, logError p "Error loading settings:") := by
  simp [loadSavedSettings, h]

theorem loadSavedTheme_parse_none (p : Page)
    (h : JSON.parse (storedText p.storage) = none) :
    loadSavedTheme p = (false, logError p "Error loading theme:") := by
  simp [loadSavedTheme, h]

/-- C6 (amended). When the persisted blob is absent or empty,
`loadSavedSettings` and `loadSavedTheme` return true and leave the page exactly
as it was; when it is present, not empty and does not parse, they return false
and change nothing but the console log: no control, no style variable, no
notification.  In both cases the effect on the UI is that of an empty map. -/
theorem load_fail_soft (p : Page) (flag : Bool) :
    ((p.blob = none ∨ p.blob = some "") →
      loadSavedSettings p flag = (true, p) ∧ loadSavedTheme p = (true, p)) ∧
    (∀ s, p.blob = some s → s ≠ "" → JSON.parse s = none →
      loadSavedSettings p flag = (false, logError p "Error loading settings:") ∧
      loadSavedTheme p = (false, logError p "Error loading theme:") ∧
      (logError p "Error loading settings:").elems = p.elems ∧
      (logError p "Error loading settings:").rootStyle = p.rootStyle ∧
      (logError p "Error loading settings:").notifications = p.notifications ∧
      (logError p "Error loading theme:").elems = p.elems ∧
      (logError p "Error loading theme:").rootStyle = p.rootStyle ∧
      (logError p "Error loading theme:").notifications = p.notifications) := by
  refine ⟨?_, ?_⟩
  · intro hb
    have ht := storedText_absent p.storage hb
    have hm : JSON.parse (storedText p.storage) = some (.obj []) := by
      rw [ht]; exact parse_empty_object
    refine ⟨by simp [loadSavedSettings, hm, ownEntries, applySettings], ?_⟩
    simp [loadSavedTheme, hm, themeOf, lookupProp]
  · intro s hb hs hp
    have ht : storedText p.storage = s := storedText_of_blob p.storage s hb hs
    have hn : JSON.parse (storedText p.storage) = none := by rw [ht]; exact hp
    exact ⟨loadSavedSettings_parse_none p flag hn, loadSavedTheme_parse_none p hn,
      rfl, rfl, rfl, rfl, rfl, rfl⟩

/-- Witness of `load_fail_soft`: an absent blob, and the corrupt blob `oops`. -/
theorem load_fail_soft_witness :
    (loadSavedSettings (barePage [] 1000) true = (true, barePage [] 1000) ∧
      loadSavedTheme (barePage [] 1000) = (true, barePage [] 1000)) ∧
    loadSavedSettings (barePage [(settingsKey, "oops")] 1000) true =
      (false, logError (barePage [(settingsKey, "oops")] 1000) "Error loading settings:") :=
  ⟨(load_fail_soft (barePage [] 1000) true).1 (Or.inl (by decide)),
    ((load_fail_soft (barePage [(settingsKey, "oops")] 1000) true).2 "oops" (by decide)
      (by decide) (by decide)).1⟩

/-- C6 (as stated) fails: the empty string is a blob that does not parse, yet
both functions return true for it. -/
theorem load_empty_blob_true :
    (barePage [(settingsKey, "")] 1000).blob = some "" ∧
    JSON.parse "" = none ∧
    (loadSavedSettings (barePage [(settingsKey, "")] 1000) true).1 = true ∧
    (loadSavedTheme (barePage [(settingsKey, "")] 1000)).1 = true := by
  decide

/-! ## What the settings loop does to the storage -/

@[simp] theorem modify_storage (p : Page) (i : Nat) (f : Element → Element) :
    (p.modify i f).storage = p.storage := rfl

@[simp] theorem forClass_storage (p : Page) (c : String) (f : Element → Element) :
    (p.forClass c f).storage = p.storage := rfl

@[simp] theorem setStyle_storage (p : Page) (n v : String) :
    (p.setStyle n v).storage = p.storage := rfl

@[simp] theorem showNotification_storage (p : Page) (m t : String) :
    (showNotification p m t).storage = p.storage := rfl

@[simp] theorem logError_storage (p : Page) (m : String) : (logError p m).storage = p.storage := rfl

@[simp] theorem setChecked_storage (p : Page) (i : Nat) (b : Bool) :
    (setChecked p i b).storage = p.storage := by
  unfold setChecked
  split
  · rfl
  · simp only [modify_storage]
    split <;> rfl

@[simp] theorem handleSpecialToggle_storage (p : Page) (t : String) (b : Bool) :
    (handleSpecialToggle p t b).storage = p.storage := by
  unfold handleSpecialToggle
  repeat' split
  all_goals rfl

@[simp] theorem resetTheme_storage (p : Page) : (resetTheme p).storage = p.storage := by
  simp only [resetTheme, setStyle_storage]

@[simp] theorem themeOverrides_storage (p : Page) (t : JVal) :
    (themeOverrides p t).storage = p.storage := by
  unfold themeOverrides
  repeat' split
  all_goals simp only [setStyle_storage]

@[simp] theorem applyTheme_storage (p : Page) (t : JVal) (b : Bool) :
    (applyTheme p t b).storage = p.storage := by
  unfold applyTheme
  split <;> simp

theorem deselectThemes_storage (is : List Nat) : ∀ p : Page,
    (resPage (deselectThemes p is)).storage = p.storage := by
  induction is with
  | nil => intro p; rfl
  | cons i is ih =>
    intro p
    unfold deselectThemes
    simp only
    split
    · rfl
    · split
      · rfl
      · rw [ih]; rfl

theorem selectTheme_storage (p : Page) (i : Nat) (t : JVal) (b : Bool) :
    (resPage (selectTheme p i t b)).storage = p.storage := by
  unfold selectTheme
  have h := deselectThemes_storage (withClass "theme-option" p.elems) p
  split
  · rename_i e he
    rw [he] at h; exact h
  · rename_i p1 he
    rw [he] at h
    simp only [resPage] at h
    simp only
    split
    · exact h
    · split
      · exact h
      · simpa [resPage] using h

theorem saveSettings_storage_congr (p q : Page) (key : String) (value : JVal)
    (h : p.storage = q.storage) :
    (saveSettings p key value).2.storage = (saveSettings q key value).2.storage := by
  unfold saveSettings
  rw [h]
  repeat' split
  all_goals first | rfl | exact h

/-- The storage after the change listener of a toggle: that of a
`saveSettings` call with the element's checked state, or the same as before. -/
theorem toggleChanged_storage (p : Page) (toggleId : String) (i : Nat) :
    (toggleChanged p toggleId i).storage = p.storage ∨
    ∃ e, p.elems.get? i = some e ∧
      (toggleChanged p toggleId i).storage =
        (saveSettings p toggleId (.bool e.checked)).2.storage := by
  unfold toggleChanged
  split
  · exact Or.inl rfl
  · rename_i e he
    split
    · exact Or.inl rfl
    · split
      · exact Or.inl rfl
      · refine Or.inr ⟨e, he, ?_⟩
        simp only [handleSpecialToggle_storage]
        exact saveSettings_storage_congr _ _ _ _ rfl

theorem findId_get (id : String) (es : List Element) (i : Nat) (h : findId id es = some i) :
    ∃ e, es.get? i = some e ∧ e.id = id := by
  induction es generalizing i with
  | nil => simp [findId] at h
  | cons a es ih =>
    unfold findId at h
    split at h
    · rename_i ha
      simp only [Option.some.injEq] at h
      subst h
      exact ⟨a, rfl, ha⟩
    · cases hf : findId id es with
      | none => simp [hf] at h
      | some j =>
        simp only [hf, Option.map_some', Option.some.injEq] at h
        subst h
        obtain ⟨e, he, hid⟩ := ih j hf
        exact ⟨e, by simpa using he, hid⟩

theorem get_modifyAt (f : Element → Element) (es : List Element) (i : Nat) :
    (modifyAt f i es).get? i = (es.get? i).map f := by
  induction es generalizing i with
  | nil => cases i <;> simp [modifyAt]
  | cons a es ih =>
    cases i with
    | zero => simp [modifyAt]
    | succ i => simpa [modifyAt] using ih i

theorem setChecked_get (p : Page) (i : Nat) (b : Bool) (e : Element)
    (h : (setChecked p i b).elems.get? i = some e) :
    e.checked = b ∧ ∃ e0, p.elems.get? i = some e0 ∧ e.id = e0.id := by
  unfold setChecked at h
  cases hg : p.elems.get? i with
  | none =>
    simp only [hg] at h
    cases h
  | some e0 =>
    simp only [hg, Page.modify, get_modifyAt] at h
    split at h
    · simp only [List.get?_eq_getElem?, List.getElem?_map, Option.map_map] at h hg
      rw [hg] at h
      simp only [Option.map_some', Function.comp_apply, Option.some.injEq] at h
      subst h
      refine ⟨rfl, e0, rfl, ?_⟩
      split <;> rfl
    · rw [hg] at h
      simp only [Option.map_some', Option.some.injEq] at h
      subst h
      exact ⟨rfl, e0, rfl, rfl⟩

/-- The storage after one step of the settings loop: unchanged, or, for a key
containing `toggle`, that of `saveSettings(key, ToBoolean(value))`. -/
theorem applySetting_storage (p : Page) (flag : Bool) (key : String) (value : JVal) :
    (resPage (applySetting p flag key value)).storage = p.storage ∨
    (includes key "toggle" = true ∧
      (resPage (applySetting p flag key value)).storage =
        (saveSettings p key (.bool (toBoolean value))).2.storage) := by
  unfold applySetting
  split
  · rename_i ht
    split
    · rename_i i hi
      simp only [resPage]
      unfold dispatchChange
      split
      · exact Or.inl (by simp)
      · rename_i e he
        split
        · obtain ⟨hc, e0, he0, hid⟩ := setChecked_get p i (toBoolean value) e he
          have hi2 : findId key p.elems = some i := by
            unfold getElementById at hi
            split at hi
            · cases hi
            · exact hi
          obtain ⟨e1, he1, hid1⟩ := findId_get key p.elems i hi2
          rw [he0] at he1
          cases he1
          rcases toggleChanged_storage (setChecked p i (toBoolean value)) e.id i with h | ⟨e2, he2, h⟩
          · exact Or.inl (by rw [h]; simp)
          · rw [he] at he2
            cases he2
            refine Or.inr ⟨ht, ?_⟩
            rw [h, hid, hid1, hc]
            exact saveSettings_storage_congr _ _ _ _ (by simp)
        · exact Or.inl (by simp)
    · exact Or.inl rfl
  · split
    · split
      · simp only
        split
        · split
          · exact Or.inl rfl
          · split <;> exact Or.inl rfl
        · exact Or.inl rfl
      · exact Or.inl rfl
    · split
      · split
        · exact Or.inl (by simp [resPage])
        · exact Or.inl rfl
      · split
        · split
          · exact Or.inl (selectTheme_storage _ _ _ _)
          · exact Or.inl rfl
        · split
          · split <;> exact Or.inl rfl
          · split
            · split <;> exact Or.inl rfl
            · exact Or.inl rfl

theorem applySettings_storage_inv (S : Storage → Prop) (flag : Bool)
    (kvs : List (String × JVal))
    (hS : ∀ (q : Page) (kv : String × JVal), kv ∈ kvs → includes kv.1 "toggle" = true →
      S q.storage → S (saveSettings q kv.1 (.bool (toBoolean kv.2))).2.storage) :
    ∀ p : Page, S p.storage → S (resPage (applySettings p flag kvs)).storage := by
  induction kvs with
  | nil => intro p h; exact h
  | cons kv kvs ih =>
    intro p h
    have hstep : S (resPage (applySetting p flag kv.1 kv.2)).storage := by
      rcases applySetting_storage p flag kv.1 kv.2 with h1 | ⟨ht, h1⟩
      · rw [h1]; exact h
      · rw [h1]; exact hS p kv (List.mem_cons_self _ _) ht h
    unfold applySettings
    split
    · rename_i e he
      rw [he] at hstep
      exact hstep
    · rename_i p1 he
      rw [he] at hstep
      exact ih (fun q x hx => hS q x (List.mem_cons_of_mem _ hx)) p1 hstep

/-- A property of the storage that the write-backs of the toggles keep holds
after `loadSavedSettings`. -/
theorem loadSavedSettings_storage_inv (S : Storage → Prop) (flag : Bool) (p : Page)
    (hS : ∀ settings kvs, JSON.parse (storedText p.storage) = some settings →
      ownEntries settings = .ok kvs →
      ∀ (q : Page) (kv : String × JVal), kv ∈ kvs → includes kv.1 "toggle" = true →
        S q.storage → S (saveSettings q kv.1 (.bool (toBoolean kv.2))).2.storage)
    (h : S p.storage) : S (loadSavedSettings p flag).2.storage := by
  unfold loadSavedSettings
  split
  · exact h
  · rename_i settings hp
    split
    · exact h
    · rename_i kvs hk
      have := applySettings_storage_inv S flag kvs (hS settings kvs hp hk) p h
      split
      · rename_i e he
        rw [he] at this
        exact this
      · rename_i p1 he
        rw [he] at this
        exact this

/-! ## Import, then the write-backs of the toggles -/

theorem storedText_after_put (st : Storage) (s : String) (hs : s ≠ "") :
    storedText { st with entries := putEntry settingsKey s st.entries } = s := by
  apply storedText_of_blob _ _ _ hs
  simp [Storage.getItem, find_putEntry]

theorem importConfig_ok (p : Page) (text : String) (v : JVal) (ht : JSON.parse text = some v)
    (hw : p.storage.accepts settingsKey (JSON.stringify v) = true) :
    importConfig p text =
      showNotification (loadSavedSettings { p with storage :=
        { p.storage with entries := putEntry settingsKey (JSON.stringify v) p.storage.entries } }
        true).2 "Configuration imported successfully" "success" := by
  simp [importConfig, ht, setItem_eq, hw]

theorem parse_empty_string : JSON.parse "" = none := by decide

theorem mapStore_parse (st : Storage) (h : MapStore st) :
    ∃ m, JSON.parse (storedText st) = some (.obj m) := by
  unfold storedText
  cases hg : st.getItem settingsKey with
  | none => exact ⟨[], parse_empty_object⟩
  | some s =>
    obtain ⟨m, hm⟩ := h s hg
    by_cases hs : s = ""
    · subst hs
      rw [parse_empty_string] at hm
      cases hm
    · simp only [hs, if_false]
      exact ⟨m, hm⟩

theorem mapStore_put (st : Storage) (m : List (String × JVal)) (h : (JVal.obj m).wf = true) :
    MapStore { st with entries := putEntry settingsKey (JSON.stringify (.obj m)) st.entries } := by
  intro blob hb
  simp only [Storage.getItem, find_putEntry, Option.map_some', Option.some.injEq] at hb
  subst hb
  exact ⟨m, parse_stringify _ h⟩

theorem mapStore_save (q : Page) (key : String) (value : JVal) (hv : value.wf = true)
    (h : MapStore q.storage) : MapStore (saveSettings q key value).2.storage := by
  obtain ⟨m, hp⟩ := mapStore_parse q.storage h
  have hwf := parse_wf _ _ hp
  by_cases hk : key = "__proto__" ∧ hasProp key m = false
  · have ha : assignProp (.obj m) key value = .ok (.obj m) := by
      simp only [assignProp]
      rw [if_pos hk]
    cases hw : q.storage.accepts settingsKey (JSON.stringify (.obj m)) with
    | false =>
      rw [saveSettings_quota q key _ _ _ hp ha hw]
      exact h
    | true =>
      rw [saveSettings_ok q key _ _ _ hp ha hw]
      exact mapStore_put q.storage m hwf
  · have ha : assignProp (.obj m) key value = .ok (.obj (defineProp m key value)) := by
      simp only [assignProp]
      rw [if_neg hk]
    cases hw : q.storage.accepts settingsKey (JSON.stringify (.obj (defineProp m key value))) with
    | false =>
      rw [saveSettings_quota q key _ _ _ hp ha hw]
      exact h
    | true =>
      rw [saveSettings_ok q key _ _ _ hp ha hw]
      exact mapStore_put q.storage _ (wf_defineProp m key value hwf hv)

theorem mapStore_load (p : Page) (flag : Bool) (h : MapStore p.storage) :
    MapStore (loadSavedSettings p flag).2.storage :=
  loadSavedSettings_storage_inv MapStore flag p
    (fun _ _ _ _ q kv _ _ hq => mapStore_save q kv.1 _ rfl hq) h

theorem importConfig_parse_none (p : Page) (text : String) (h : JSON.parse text = none) :
    importConfig p text =
      logError (showNotification p "Invalid configuration file" "error")
        "Error importing settings:" := by
  simp [importConfig, h]

theorem mapStore_import (p : Page) (text : String) (hop : (StoreOp.importText text).keepsMap)
    (h : MapStore p.storage) : MapStore (importConfig p text).storage := by
  rcases hop with hn | ⟨j, hj⟩
  · rw [importConfig_parse_none p text hn]; exact h
  · cases hw : p.storage.accepts settingsKey (JSON.stringify (.obj j)) with
    | false =>
      have : importConfig p text = logError (showNotification p "Invalid configuration file"
          "error") "Error importing settings:" := by
        simp [importConfig, hj, setItem_eq, hw]
      rw [this]; exact h
    | true =>
      rw [importConfig_ok p text _ hj hw]
      simp only [showNotification_storage]
      exact mapStore_load _ true (mapStore_put p.storage j (parse_wf _ _ hj))

theorem mapStore_run (ops : List StoreOp) : ∀ p : Page, (∀ op ∈ ops, op.keepsMap) →
    MapStore p.storage → MapStore (runOps p ops).storage := by
  induction ops with
  | nil => intro p _ h; exact h
  | cons op ops ih =>
    intro p hops h
    have hop := hops op (List.mem_cons_self _ _)
    refine ih _ (fun o ho => hops o (List.mem_cons_of_mem _ ho)) ?_
    cases op with
    | save key value => exact mapStore_save p key value hop h
    | importText text => exact mapStore_import p text hop h

/-- C7 (amended). Store invariant: starting from an absent store, after any
finite sequence of `saveSettings(key, value)` calls and of imports whose text
is not valid JSON or parses to a JSON object, the persisted blob, when present,
deserialises to a JSON object. -/
theorem store_stays_map (p : Page) (ops : List StoreOp) (h0 : p.blob = none)
    (hops : ∀ op ∈ ops, op.keepsMap) : StoreIsMap (runOps p ops) := by
  have : MapStore p.storage := by
    intro blob hb
    have : p.blob = some blob := hb
    rw [h0] at this
    cases this
  exact mapStore_run ops p hops this

/-- Witness of `store_stays_map`: a save, an import of an object and an import
of a text that is not JSON. -/
theorem store_stays_map_witness :
    StoreIsMap (runOps (barePage [] 1000)
      [.save "theme" (.str "theme-matrix"), .importText "\x7b\"a\":[1,2]\x7d",
        .importText "not json"]) :=
  store_stays_map (barePage [] 1000) _ (by decide) (by
    intro op hop
    simp only [List.mem_cons, List.mem_singleton, List.not_mem_nil, or_false] at hop
    rcases hop with h | h | h <;> subst h
    · exact (rfl : JVal.wf (.str "theme-matrix") = true)
    · exact Or.inr ⟨[("a", .arr [.num 1 0, .num 2 0])], by decide⟩
    · exact Or.inl (by decide))

/-- C7 (as stated) fails: importing the valid JSON text `[1]` into an absent
store persists `[1]`, which deserialises to an array, not to an object. -/
theorem import_array_not_map : ¬ StoreIsMap (runOps (barePage [] 1000) [.importText "[1]"]) := by
  intro h
  have hb : (runOps (barePage [] 1000) [.importText "[1]"]).blob = some "[1]" := by decide
  obtain ⟨m, hm⟩ := h "[1]" hb
  have : JSON.parse "[1]" = some (.arr [.num 1 0]) := by decide
  rw [this] at hm
  cases hm

/-! ## Themes -/

theorem getProperty_setProperty (name n v : String) (s : List (String × String)) :
    getProperty name (setProperty n v s) = if n = name then some v else getProperty name s := by
  induction s with
  | nil => simp [setProperty, getProperty]
  | cons a s ih =>
    unfold setProperty
    by_cases ha : a.1 = n
    · by_cases hn : n = name
      · simp [ha, hn, getProperty]
      · have : a.1 ≠ name := by rw [ha]; exact hn
        simp [ha, hn, getProperty, this]
    · by_cases hn : n = name
      · subst hn
        simp [ha, getProperty, ih]
      · simp [ha, hn, getProperty, ih]

@[simp] theorem setStyle_rootStyle (p : Page) (n v : String) :
    (p.setStyle n v).rootStyle = setProperty n v p.rootStyle := rfl

@[simp] theorem setStyle_notifications (p : Page) (n v : String) :
    (p.setStyle n v).notifications = p.notifications := rfl

@[simp] theorem resetTheme_notifications (p : Page) :
    (resetTheme p).notifications = p.notifications := by
  simp only [resetTheme, setStyle_notifications]

@[simp] theorem themeOverrides_notifications (p : Page) (t : JVal) :
    (themeOverrides p t).notifications = p.notifications := by
  unfold themeOverrides
  repeat' split
  all_goals simp only [setStyle_notifications]

theorem themeOverrides_other (p : Page) (themeId : JVal)
    (h : themeId ≠ .str "theme-midnight" ∧ themeId ≠ .str "theme-matrix" ∧
      themeId ≠ .str "theme-crimson") : themeOverrides p themeId = p := by
  cases themeId with
  | str id =>
    have h1 : id ≠ "theme-midnight" := fun e => h.1 (by rw [e])
    have h2 : id ≠ "theme-matrix" := fun e => h.2.1 (by rw [e])
    have h3 : id ≠ "theme-crimson" := fun e => h.2.2 (by rw [e])
    simp [themeOverrides, h1, h2, h3]
  | _ => rfl

theorem resetTheme_palette (p : Page) (name : String) (hn : name ∈ colourVariables) :
    getProperty name (resetTheme p).rootStyle = getProperty name defaultPalette := by
  simp only [colourVariables, List.mem_cons, List.mem_singleton, List.not_mem_nil, or_false] at hn
  rcases hn with h | h | h | h | h | h | h | h | h | h | h <;> subst h <;>
    simp [resetTheme, getProperty_setProperty, defaultPalette, getProperty]

theorem themeOverrides_palette (p q : Page) (themeId : JVal) (name : String)
    (h : getProperty name p.rootStyle = getProperty name q.rootStyle) :
    getProperty name (themeOverrides p themeId).rootStyle =
      getProperty name (themeOverrides q themeId).rootStyle := by
  cases themeId with
  | str id =>
    unfold themeOverrides
    simp only
    split
    · simp only [setStyle_rootStyle, getProperty_setProperty, h]
    · split
      · simp only [setStyle_rootStyle, getProperty_setProperty, h]
      · split
        · simp only [setStyle_rootStyle, getProperty_setProperty, h]
        · exact h
  | _ => exact h

theorem applyTheme_rootStyle (p : Page) (themeId : JVal) (b : Bool) :
    (applyTheme p themeId b).rootStyle = (themeOverrides (resetTheme p) themeId).rootStyle := by
  unfold applyTheme
  split <;> rfl

theorem applyTheme_lookup (p : Page) (themeId : JVal) (b : Bool) (name : String)
    (hn : name ∈ colourVariables) :
    getProperty name (applyTheme p themeId b).rootStyle = getProperty name (themePalette themeId) := by
  rw [applyTheme_rootStyle, themePalette]
  apply themeOverrides_palette
  rw [resetTheme_palette p name hn, resetTheme_palette _ name hn]

/-- C19. `applyTheme` resets before it overrides: the eleven colour variables
after `applyTheme(themeId, _)` are the palette of `themeId`, whatever they were
before; that palette is the default one for every id other than
`theme-midnight`, `theme-matrix` and `theme-crimson`; so applying a theme twice,
or after another theme, gives the same variables as applying it once; and a
notification (`Theme applied`) is shown exactly when the second argument is
true. -/
theorem applyTheme_resets (p : Page) (themeId : JVal) (showNotify : Bool) :
    (∀ name ∈ colourVariables,
      getProperty name (applyTheme p themeId showNotify).rootStyle =
        getProperty name (themePalette themeId)) ∧
    ((themeId ≠ .str "theme-midnight" ∧ themeId ≠ .str "theme-matrix" ∧
        themeId ≠ .str "theme-crimson") →
      ∀ name ∈ colourVariables,
        getProperty name (applyTheme p themeId showNotify).rootStyle =
          getProperty name defaultPalette) ∧
    (∀ (other : JVal) (b c : Bool), ∀ name ∈ colourVariables,
      getProperty name (applyTheme (applyTheme p other b) themeId c).rootStyle =
        getProperty name (applyTheme p themeId showNotify).rootStyle) ∧
    (applyTheme p themeId true).notifications =
      p.notifications ++ [("Theme applied", "success")] ∧
    (applyTheme p themeId false).notifications = p.notifications := by
  refine ⟨fun name hn => applyTheme_lookup p themeId showNotify name hn, ?_, ?_, ?_, ?_⟩
  · intro h name hn
    rw [applyTheme_rootStyle, themeOverrides_other _ _ h]
    exact resetTheme_palette p name hn
  · intro other b c name hn
    rw [applyTheme_lookup _ themeId c name hn, applyTheme_lookup p themeId showNotify name hn]
  · simp [applyTheme, showNotification]
  · simp [applyTheme]

/-! ## Resource monitor and threat map -/

/-- C20. `randomizeValue` stays in range: for every base value, every range
and every draw the result is an integer between 0 and 100; and when the base
value and the range are integers with `0 ≤ base - range`, `base + range ≤ 100`
and `0 ≤ range`, and the draw is in `[0, 1)`, the result lies in
`[base - range, base + range]`. -/
theorem randomizeValue_range (baseValue range r : ℚ) :
    (0 ≤ randomizeValue baseValue range r ∧ randomizeValue baseValue range r ≤ 100) ∧
    ∀ b g : Int, baseValue = b → range = g → 0 ≤ g → 0 ≤ b - g → b + g ≤ 100 → 0 ≤ r → r < 1 →
      b - g ≤ randomizeValue baseValue range r ∧ randomizeValue baseValue range r ≤ b + g := by
  refine ⟨⟨le_max_left _ _, max_le (by norm_num) (min_le_left _ _)⟩, ?_⟩
  intro b g hb hg hg0 hlo hhi hr0 hr1
  subst hb hg
  have hg0q : (0 : ℚ) ≤ (g : ℚ) := by exact_mod_cast hg0
  have h1 : b - g ≤ mathRound ((b : ℚ) + (r * g * 2 - g)) := by
    unfold mathRound
    rw [Int.le_floor]
    push_cast
    nlinarith
  have h2 : mathRound ((b : ℚ) + (r * g * 2 - g)) ≤ b + g := by
    unfold mathRound
    have : ⌊(b : ℚ) + (r * g * 2 - g) + 1 / 2⌋ < b + g + 1 := by
      rw [Int.floor_lt]
      push_cast
      nlinarith
    omega
  unfold randomizeValue
  constructor
  · exact le_max_of_le_right (le_min (by omega) h1)
  · exact max_le (by omega) (le_trans (min_le_right _ _) h2)

theorem refreshWeight_range (w r : ℚ) : 5 ≤ refreshWeight w r ∧ refreshWeight w r ≤ 50 := by
  unfold refreshWeight
  exact ⟨le_max_left _ _, max_le (by norm_num) (min_le_left _ _)⟩

theorem reachableWeight_range (w : ℚ) (h : ReachableWeight w) : 5 ≤ w ∧ w ≤ 50 := by
  induction h with
  | shipped w hw =>
    simp only [attackOriginWeights, List.mem_cons, List.mem_singleton, List.not_mem_nil,
      or_false] at hw
    rcases hw with h | h | h | h | h | h | h | h | h <;> subst h <;> norm_num
  | refreshed w r _ _ _ _ => exact refreshWeight_range w r

/-- C18 (amended). The period `addAttackSources` passes to the timer of an
origin is `10000 / weight` milliseconds: for every reachable weight it lies in
`[200, 2000]` ms, so each origin's packet animation fires every 0.2 to 2
seconds. -/
theorem timerPeriod_range (w : ℚ) (h : ReachableWeight w) :
    200 ≤ timerPeriod w ∧ timerPeriod w ≤ 2000 := by
  obtain ⟨h5, h50⟩ := reachableWeight_range w h
  have hpos : (0 : ℚ) < w := by linarith
  unfold timerPeriod
  constructor
  · rw [le_div_iff₀ hpos]; linarith
  · rw [div_le_iff₀ hpos]; linarith

/-- Witness of `timerPeriod_range`: the shipped weight 35 of the first
origin. -/
theorem timerPeriod_range_witness : 200 ≤ timerPeriod 35 ∧ timerPeriod 35 ≤ 2000 :=
  timerPeriod_range 35 (ReachableWeight.shipped 35 (by simp [attackOriginWeights]))

/-- C18 (as stated) fails: for the shipped weight 35 of the first origin the
period is `10000 / 35` ms, below 5000 ms. -/
theorem timerPeriod_below_five_seconds :
    ReachableWeight 35 ∧ ¬ (5000 ≤ timerPeriod 35 ∧ timerPeriod 35 ≤ 10000) := by
  refine ⟨ReachableWeight.shipped 35 (by simp [attackOriginWeights]), ?_⟩
  unfold timerPeriod
  norm_num

/-! ## The two writers of `protection-mode` -/

theorem radioListeners_ids (p : Page) (l : String × Nat) (h : l ∈ radioListeners p) :
    l.1 ∈ protectionModes := by
  unfold radioListeners at h
  obtain ⟨radioId, hmem, hl⟩ := List.mem_filterMap.1 h
  cases hg : getElementById p radioId with
  | none => simp [hg] at hl
  | some i =>
    simp only [hg, Option.map_some', Option.some.injEq] at hl
    rw [← hl]
    exact hmem

theorem radioChanged_storage (q : Page) (radioId : String) (i : Nat) :
    (radioChanged q radioId i).storage = q.storage ∨
      (radioChanged q radioId i).storage =
        (saveSettings q "protection-mode" (.str radioId)).2.storage := by
  unfold radioChanged
  split
  · exact Or.inl rfl
  · split
    · exact Or.inr rfl
    · exact Or.inl rfl

/-- C17. The two writers of `protection-mode` are scoped differently: a change
listener of `initializeRadioButtons` leaves the storage alone or saves, under
`protection-mode`, the id it was created for, one of `protection-normal`,
`protection-aggressive`, `protection-learning`; whereas `saveAllSettings`
saves the id of whatever checked input is named `protection-mode` (on
`strictPage` the id `protection-strict`, outside that set), and its radio part
saves nothing when no such input is checked. -/
theorem protection_mode_writers :
    (∀ (p q : Page), ∀ l ∈ radioListeners p,
      l.1 ∈ protectionModes ∧
        ((radioChanged q l.1 l.2).storage = q.storage ∨
          (radioChanged q l.1 l.2).storage =
            (saveSettings q "protection-mode" (.str l.1)).2.storage)) ∧
    (Bound (saveAllSettings strictPage) "protection-mode" (.str "protection-strict") ∧
      "protection-strict" ∉ protectionModes) ∧
    (∀ p : Page, (p.elems.find? fun e => isCheckedProtectionMode e) = none →
      saveProtectionMode p = p) := by
  refine ⟨fun p q l hl => ⟨radioListeners_ids p l hl, radioChanged_storage q l.1 l.2⟩, ⟨?_, ?_⟩, ?_⟩
  · exact ⟨"\x7b\"protection-mode\":\"protection-strict\"\x7d",
      [("protection-mode", .str "protection-strict")], by decide, by decide, by decide⟩
  · decide
  · intro p h
    simp [saveProtectionMode, h]

/-! ## How the settings loop changes the elements -/

theorem classOnly_refl (e : Element) : ClassOnly e e := ⟨rfl, fun _ _ => Iff.rfl⟩

theorem classOnly_trans {a b c : Element} (h1 : ClassOnly a b) (h2 : ClassOnly b c) :
    ClassOnly a c := by
  refine ⟨?_, fun x hx => (h2.2 x hx).trans (h1.2 x hx)⟩
  rw [h2.1, h1.1]

theorem mem_classAdd (c x : String) (cs : List String) :
    x ∈ classAdd c cs ↔ x = c ∨ x ∈ cs := by
  unfold classAdd
  split
  · rename_i h
    constructor
    · exact Or.inr
    · rintro (h1 | h1)
      · rw [h1]; exact h
      · exact h1
  · simp [or_comm]

theorem mem_classRemove (c x : String) (cs : List String) :
    x ∈ classRemove c cs ↔ x ≠ c ∧ x ∈ cs := by
  simp [classRemove, and_comm]

theorem classOnly_add (e : Element) (c : String) (hc : c ∈ volatileClasses) :
    ClassOnly e { e with classes := classAdd c e.classes } := by
  refine ⟨rfl, fun x hx => ?_⟩
  rw [mem_classAdd]
  constructor
  · rintro (h | h)
    · exact absurd (h ▸ hc) hx
    · exact h
  · exact Or.inr

theorem classOnly_remove (e : Element) (c : String) (hc : c ∈ volatileClasses) :
    ClassOnly e { e with classes := classRemove c e.classes } := by
  refine ⟨rfl, fun x hx => ?_⟩
  rw [mem_classRemove]
  constructor
  · exact fun h => h.2
  · exact fun h => ⟨fun hxc => hx (hxc ▸ hc), h⟩

theorem forall2_modifyAt (P : Element → Element → Prop) (f : Element → Element)
    (hrefl : ∀ e, P e e) (hf : ∀ e, P e (f e)) (i : Nat) (es : List Element) :
    List.Forall₂ P es (modifyAt f i es) := by
  induction es generalizing i with
  | nil => cases i <;> exact List.Forall₂.nil
  | cons a es ih =>
    cases i with
    | zero => exact List.Forall₂.cons (hf a) (List.forall₂_same.2 fun x _ => hrefl x)
    | succ i => exact List.Forall₂.cons (hrefl a) (ih i)

theorem forall2_map (P : Element → Element → Prop) (g : Element → Element)
    (hg : ∀ e, P e (g e)) (es : List Element) : List.Forall₂ P es (es.map g) := by
  induction es with
  | nil => exact List.Forall₂.nil
  | cons a es ih => exact List.Forall₂.cons (hg a) ih

theorem forall2_trans (P : Element → Element → Prop)
    (htrans : ∀ a b c, P a b → P b c → P a c) {xs ys zs : List Element}
    (h1 : List.Forall₂ P xs ys) (h2 : List.Forall₂ P ys zs) : List.Forall₂ P xs zs := by
  induction h1 generalizing zs with
  | nil => cases h2; exact List.Forall₂.nil
  | cons hab _ ih =>
    cases h2 with
    | cons hbc h2' => exact List.Forall₂.cons (htrans _ _ _ hab hbc) (ih h2')

theorem forall2_get (P : Element → Element → Prop) {xs ys : List Element}
    (h : List.Forall₂ P xs ys) (n : Nat) (e : Element) (he : xs.get? n = some e) :
    ∃ e', ys.get? n = some e' ∧ P e e' := by
  induction h generalizing n with
  | nil => cases n <;> simp at he
  | cons hab _ ih =>
    cases n with
    | zero =>
      simp only [List.get?_cons_zero, Option.some.injEq] at he
      subst he
      exact ⟨_, rfl, hab⟩
    | succ n => exact ih n (by simpa using he)

theorem forall2_get_rev (P : Element → Element → Prop) {xs ys : List Element}
    (h : List.Forall₂ P xs ys) (n : Nat) (e' : Element) (he : ys.get? n = some e') :
    ∃ e, xs.get? n = some e ∧ P e e' := by
  induction h generalizing n with
  | nil => cases n <;> simp at he
  | cons hab _ ih =>
    cases n with
    | zero =>
      simp only [List.get?_cons_zero, Option.some.injEq] at he
      subst he
      exact ⟨_, rfl, hab⟩
    | succ n => exact ih n (by simpa using he)

@[simp] theorem saveSettings_elems (p : Page) (key : String) (value : JVal) :
    (saveSettings p key value).2.elems = p.elems := by
  unfold saveSettings
  repeat' split
  all_goals rfl

theorem classOnly_handleSpecialToggle (p : Page) (t : String) (b : Bool) :
    List.Forall₂ ClassOnly p.elems (handleSpecialToggle p t b).elems := by
  have hrefl : List.Forall₂ ClassOnly p.elems p.elems :=
    List.forall₂_same.2 fun x _ => classOnly_refl x
  unfold handleSpecialToggle
  split
  · split
    · refine forall2_map ClassOnly _ (fun e => ?_) p.elems
      split
      · exact classOnly_remove e _ (by decide)
      · exact classOnly_refl e
    · refine forall2_map ClassOnly _ (fun e => ?_) p.elems
      split
      · exact classOnly_add e _ (by decide)
      · exact classOnly_refl e
  · split
    · split <;> exact hrefl
    · split
      · exact hrefl
      · split
        · exact hrefl
        · split
          · split
            · refine forall2_map ClassOnly _ (fun e => ?_) p.elems
              split
              · exact classOnly_remove e _ (by decide)
              · exact classOnly_refl e
            · refine forall2_map ClassOnly _ (fun e => ?_) p.elems
              split
              · exact classOnly_add e _ (by decide)
              · exact classOnly_refl e
          · exact hrefl

theorem classOnly_toggleChanged (p : Page) (t : String) (i : Nat) :
    List.Forall₂ ClassOnly p.elems (toggleChanged p t i).elems := by
  have hrefl : List.Forall₂ ClassOnly p.elems p.elems :=
    List.forall₂_same.2 fun x _ => classOnly_refl x
  unfold toggleChanged
  split
  · exact hrefl
  · split
    · exact hrefl
    · split
      · exact hrefl
      · refine forall2_trans ClassOnly (fun _ _ _ => classOnly_trans) ?_
          (classOnly_handleSpecialToggle _ t _)
        simp only [saveSettings_elems, Page.modify]
        refine forall2_modifyAt ClassOnly _ classOnly_refl (fun x => ?_) _ p.elems
        split
        · exact classOnly_add x _ (by decide)
        · exact classOnly_remove x _ (by decide)

theorem classOnly_dispatchChange (p : Page) (i : Nat) :
    List.Forall₂ ClassOnly p.elems (dispatchChange p i).elems := by
  unfold dispatchChange
  split
  · exact List.forall₂_same.2 fun x _ => classOnly_refl x
  · split
    · exact classOnly_toggleChanged p _ i
    · exact List.forall₂_same.2 fun x _ => classOnly_refl x

theorem stepElem_refl (key : String) (value : JVal) (e : Element) : StepElem key value e e :=
  ⟨⟨rfl, rfl, rfl, rfl, rfl, rfl, rfl⟩, fun _ _ => Iff.rfl, Or.inl rfl, Or.inl rfl, Or.inl rfl⟩

theorem stepElem_trans (key : String) (value : JVal) (a b c : Element)
    (h1 : StepElem key value a b) (h2 : StepElem key value b c) : StepElem key value a c := by
  obtain ⟨⟨s1, s2, s3, s4, s5, s6, s7⟩, c1, v1, t1, k1⟩ := h1
  obtain ⟨⟨r1, r2, r3, r4, r5, r6, r7⟩, c2, v2, t2, k2⟩ := h2
  refine ⟨⟨r1.trans s1, r2.trans s2, r3.trans s3, r4.trans s4, r5.trans s5, r6.trans s6,
    r7.trans s7⟩, fun x hx => (c2 x hx).trans (c1 x hx), ?_, ?_, ?_⟩
  · rcases v2 with h | h | h
    · rcases v1 with g | g | g
      · exact Or.inl (h.trans g)
      · exact Or.inr (Or.inl g)
      · exact Or.inr (Or.inr g)
    · exact Or.inr (Or.inl (s2 ▸ h))
    · exact Or.inr (Or.inr ⟨h.1, s2 ▸ h.2⟩)
  · rcases t2 with h | h
    · rcases t1 with g | g
      · exact Or.inl (h.trans g)
      · exact Or.inr g
    · exact Or.inr (s2 ▸ h)
  · rcases k2 with h | h | h | h
    · rcases k1 with g | g | g | g
      · exact Or.inl (h.trans g)
      · exact Or.inr (Or.inl g)
      · exact Or.inr (Or.inr (Or.inl g))
      · exact Or.inr (Or.inr (Or.inr ⟨g.1, h.trans g.2⟩))
    · exact Or.inr (Or.inl (s2 ▸ h))
    · exact Or.inr (Or.inr (Or.inl ⟨h.1, s2 ▸ h.2⟩))
    · exact Or.inr (Or.inr (Or.inr ⟨s3 ▸ h.1, h.2⟩))

theorem stepElem_of_classOnly (key : String) (value : JVal) (e e' : Element)
    (h : ClassOnly e e') : StepElem key value e e' := by
  obtain ⟨h1, h2⟩ := h
  refine ⟨?_, h2, ?_, ?_, ?_⟩
  · rw [h1]; exact ⟨rfl, rfl, rfl, rfl, rfl, rfl, rfl⟩
  · rw [h1]; exact Or.inl rfl
  · rw [h1]; exact Or.inl rfl
  · rw [h1]; exact Or.inl rfl

theorem forall2_mono (P Q : Element → Element → Prop) (h : ∀ a b, P a b → Q a b)
    {xs ys : List Element} (hx : List.Forall₂ P xs ys) : List.Forall₂ Q xs ys := by
  induction hx with
  | nil => exact List.Forall₂.nil
  | cons hab _ ih => exact List.Forall₂.cons (h _ _ hab) ih

theorem forall2_modifyAt_at (P : Element → Element → Prop) (f : Element → Element)
    (hrefl : ∀ e, P e e) (i : Nat) (es : List Element)
    (hf : ∀ e, es.get? i = some e → P e (f e)) : List.Forall₂ P es (modifyAt f i es) := by
  induction es generalizing i with
  | nil => cases i <;> exact List.Forall₂.nil
  | cons a es ih =>
    cases i with
    | zero => exact List.Forall₂.cons (hf a rfl) (List.forall₂_same.2 fun x _ => hrefl x)
    | succ i => exact List.Forall₂.cons (hrefl a) (ih i (fun e he => hf e (by simpa using he)))

theorem getElementById_get (p : Page) (id : String) (i : Nat) (h : getElementById p id = some i) :
    ∃ e, p.elems.get? i = some e ∧ e.id = id := by
  unfold getElementById at h
  split at h
  · cases h
  · exact findId_get id p.elems i h

/-- A modification of the element found for an id relates the elements by `P`
when `P` holds for the modification of an element with that id. -/
theorem forall2_modify_found (P : Element → Element → Prop) (p : Page) (id : String) (i : Nat)
    (f : Element → Element) (hi : getElementById p id = some i) (hrefl : ∀ e, P e e)
    (hf : ∀ e, e.id = id → P e (f e)) : List.Forall₂ P p.elems (p.modify i f).elems := by
  obtain ⟨e0, he0, hid⟩ := getElementById_get p id i hi
  refine forall2_modifyAt_at P f hrefl i p.elems ?_
  intro e he
  rw [he0] at he
  cases he
  exact hf e0 hid

theorem stepElem_setChecked (key : String) (value : JVal) (p : Page) (id : String) (i : Nat)
    (b : Bool) (hi : getElementById p id = some i)
    (hid : id = key ∨ (key = "protection-mode" ∧ id = toStr value)) :
    List.Forall₂ (StepElem key value) p.elems (setChecked p i b).elems := by
  obtain ⟨e0, he0, hid0⟩ := getElementById_get p id i hi
  have hset : ∀ e : Element, e.id = id → StepElem key value e { e with checked := b } := by
    intro e he
    refine ⟨⟨rfl, rfl, rfl, rfl, rfl, rfl, rfl⟩, fun _ _ => Iff.rfl, Or.inl rfl, Or.inl rfl, ?_⟩
    rcases hid with h | h
    · exact Or.inr (Or.inl (he.trans h))
    · exact Or.inr (Or.inr (Or.inl ⟨h.1, he.trans h.2⟩))
  unfold setChecked
  rw [he0]
  simp only
  split
  · have hmap : List.Forall₂ (StepElem key value) p.elems
        (p.elems.map fun x =>
          if x.inputType = "radio" ∧ x.name = e0.name then { x with checked := false } else x) := by
      refine forall2_map (StepElem key value) _ (fun e => ?_) p.elems
      split
      · rename_i hr
        exact ⟨⟨rfl, rfl, rfl, rfl, rfl, rfl, rfl⟩, fun _ _ => Iff.rfl, Or.inl rfl, Or.inl rfl,
          Or.inr (Or.inr (Or.inr ⟨hr.1, rfl⟩))⟩
      · exact stepElem_refl key value e
    refine forall2_trans (StepElem key value) (stepElem_trans key value) hmap ?_
    refine forall2_modifyAt_at (StepElem key value) _ (stepElem_refl key value) i _ ?_
    intro e he
    simp only [List.get?_eq_getElem?, List.getElem?_map] at he he0
    rw [he0] at he
    simp only [Option.map_some', Option.some.injEq] at he
    refine hset e ?_
    rw [← he]
    split <;> exact hid0
  · exact forall2_modify_found (StepElem key value) p id i _ hi (stepElem_refl key value) hset

theorem stepPage_refl (key : String) (p : Page) : StepPage key p p :=
  ⟨rfl, rfl, fun _ _ => rfl, Or.inl rfl⟩

theorem stepPage_trans {key : String} {p q r : Page} (h1 : StepPage key p q)
    (h2 : StepPage key q r) : StepPage key p r := by
  refine ⟨h2.1.trans h1.1, h2.2.1.trans h1.2.1, fun n hn => (h2.2.2.1 n hn).trans (h1.2.2.1 n hn),
    ?_⟩
  rcases h2.2.2.2 with h | h
  · rcases h1.2.2.2 with g | g
    · exact Or.inl (h.trans g)
    · exact Or.inr g
  · exact Or.inr h

theorem stepPage_of_eq (key : String) (p q : Page) (h1 : q.notifications = p.notifications)
    (h2 : q.downloads = p.downloads) (h3 : q.rootStyle = p.rootStyle)
    (h4 : q.autoRefreshEnabled = p.autoRefreshEnabled) : StepPage key p q :=
  ⟨h1, h2, fun _ _ => by rw [h3], Or.inl h4⟩

theorem stepPage_modify (key : String) (p : Page) (i : Nat) (f : Element → Element) :
    StepPage key p (p.modify i f) := stepPage_of_eq key _ _ rfl rfl rfl rfl

theorem stepPage_setChecked (key : String) (p : Page) (i : Nat) (b : Bool) :
    StepPage key p (setChecked p i b) := by
  unfold setChecked
  split
  · exact stepPage_refl key p
  · split <;> exact stepPage_of_eq key _ _ rfl rfl rfl rfl

theorem stepPage_saveSettings (key : String) (p : Page) (k : String) (v : JVal) :
    StepPage key p (saveSettings p k v).2 := by
  unfold saveSettings
  repeat' split
  all_goals exact stepPage_of_eq key _ _ rfl rfl rfl rfl

theorem stepPage_handleSpecialToggle (p : Page) (t : String) (b : Bool) :
    StepPage t p (handleSpecialToggle p t b) := by
  unfold handleSpecialToggle
  split
  · split
    · refine ⟨rfl, rfl, fun n hn => ?_, Or.inl rfl⟩
      simp [Page.forClass, getProperty_setProperty, Ne.symm hn]
    · refine ⟨rfl, rfl, fun n hn => ?_, Or.inl rfl⟩
      simp [Page.forClass, getProperty_setProperty, Ne.symm hn]
  · split
    · split <;> exact stepPage_of_eq _ _ _ rfl rfl rfl rfl
    · split
      · rename_i h
        exact ⟨rfl, rfl, fun _ _ => rfl, Or.inr h⟩
      · split
        · exact stepPage_of_eq _ _ _ rfl rfl rfl rfl
        · split
          · split <;> exact stepPage_of_eq _ _ _ rfl rfl rfl rfl
          · exact stepPage_refl _ p

theorem stepPage_toggleChanged (p : Page) (t : String) (i : Nat) :
    StepPage t p (toggleChanged p t i) := by
  unfold toggleChanged
  split
  · exact stepPage_refl t p
  · split
    · exact stepPage_refl t p
    · split
      · exact stepPage_refl t p
      · exact stepPage_trans (stepPage_trans (stepPage_modify t p _ _)
          (stepPage_saveSettings t _ _ _)) (stepPage_handleSpecialToggle _ t _)

/-- One step of the settings loop, with the theme already loaded, never throws;
it relates the elements by `StepElem` and the page by `StepPage`. -/
theorem applySetting_true (p : Page) (key : String) (value : JVal) :
    ∃ q, applySetting p true key value = .ok q ∧
      List.Forall₂ (StepElem key value) p.elems q.elems ∧ StepPage key p q := by
  have hrefl : List.Forall₂ (StepElem key value) p.elems p.elems :=
    List.forall₂_same.2 fun x _ => stepElem_refl key value x
  have hval : ∀ (id : String) (i : Nat) (v : String), getElementById p id = some i →
      (id = key ∨ (key = "email-recipients" ∧ id = "email-recipient")) →
      List.Forall₂ (StepElem key value) p.elems
        (p.modify i fun e => { e with value := v }).elems := by
    intro id i v hi hid
    refine forall2_modify_found (StepElem key value) p id i _ hi (stepElem_refl key value) ?_
    intro e he
    refine ⟨⟨rfl, rfl, rfl, rfl, rfl, rfl, rfl⟩, fun _ _ => Iff.rfl, ?_, Or.inl rfl, Or.inl rfl⟩
    rcases hid with h | h
    · exact Or.inr (Or.inl (he.trans h))
    · exact Or.inr (Or.inr ⟨h.1, he.trans h.2⟩)
  have htxt : ∀ (q : Page) (j : Nat) (t : String),
      getElementById q (key ++ "-value") = some j →
      List.Forall₂ (StepElem key value) q.elems
        (q.modify j fun e => { e with text := t }).elems := by
    intro q j t hj
    refine forall2_modify_found (StepElem key value) q _ j _ hj (stepElem_refl key value) ?_
    intro e he
    exact ⟨⟨rfl, rfl, rfl, rfl, rfl, rfl, rfl⟩, fun _ _ => Iff.rfl, Or.inl rfl, Or.inr he,
      Or.inl rfl⟩
  unfold applySetting
  split
  · split
    · rename_i i hi
      refine ⟨_, rfl, ?_, ?_⟩
      · refine forall2_trans (StepElem key value) (stepElem_trans key value)
          (stepElem_setChecked key value p key i (toBoolean value) hi (Or.inl rfl)) ?_
        exact forall2_mono ClassOnly (StepElem key value) (stepElem_of_classOnly key value)
          (classOnly_dispatchChange _ i)
      · refine stepPage_trans (stepPage_setChecked key p i (toBoolean value)) ?_
        unfold dispatchChange
        split
        · exact stepPage_refl key _
        · rename_i e he
          split
          · obtain ⟨_, e0, he0, hid⟩ := setChecked_get p i (toBoolean value) e he
            obtain ⟨e1, he1, hid1⟩ := getElementById_get p key i hi
            rw [he0] at he1
            cases he1
            rw [hid, hid1]
            exact stepPage_toggleChanged _ key i
          · exact stepPage_refl key _
    · exact ⟨p, rfl, hrefl, stepPage_refl key p⟩
  · split
    · split
      · rename_i i hi
        simp only
        split
        · rename_i j hj
          split
          · exact ⟨_, rfl, forall2_trans _ (stepElem_trans key value)
              (hval key i _ hi (Or.inl rfl)) (htxt _ j _ hj),
              stepPage_trans (stepPage_modify key p i _) (stepPage_modify key _ j _)⟩
          · split
            · exact ⟨_, rfl, forall2_trans _ (stepElem_trans key value)
                (hval key i _ hi (Or.inl rfl)) (htxt _ j _ hj),
                stepPage_trans (stepPage_modify key p i _) (stepPage_modify key _ j _)⟩
            · exact ⟨_, rfl, forall2_trans _ (stepElem_trans key value)
                (hval key i _ hi (Or.inl rfl)) (htxt _ j _ hj),
                stepPage_trans (stepPage_modify key p i _) (stepPage_modify key _ j _)⟩
        · exact ⟨_, rfl, hval key i _ hi (Or.inl rfl), stepPage_modify key p i _⟩
      · exact ⟨p, rfl, hrefl, stepPage_refl key p⟩
    · split
      · rename_i hk
        split
        · rename_i i hi
          exact ⟨_, rfl, stepElem_setChecked key value p (toStr value) i true hi
            (Or.inr ⟨hk, rfl⟩), stepPage_setChecked key p i true⟩
        · exact ⟨p, rfl, hrefl, stepPage_refl key p⟩
      · split
        · rename_i h
          simp at h
        · split
          · rename_i hk
            split
            · rename_i i hi
              exact ⟨_, rfl, hval key i _ hi (Or.inl rfl), stepPage_modify key p i _⟩
            · exact ⟨p, rfl, hrefl, stepPage_refl key p⟩
          · split
            · rename_i hk
              split
              · rename_i i hi
                exact ⟨_, rfl, hval "email-recipient" i _ hi (Or.inr ⟨hk, rfl⟩),
                  stepPage_modify key p i _⟩
              · exact ⟨p, rfl, hrefl, stepPage_refl key p⟩
            · exact ⟨p, rfl, hrefl, stepPage_refl key p⟩

/-! ## The settings loop with the theme already loaded -/

theorem applySetting_true_eq (p : Page) (kv : String × JVal) :
    applySetting p true kv.1 kv.2 = .ok (stepTrue p kv) := by
  obtain ⟨q, hq, _⟩ := applySetting_true p kv.1 kv.2
  rw [stepTrue, hq]
  rfl

theorem stepTrue_elems (p : Page) (kv : String × JVal) :
    List.Forall₂ (StepElem kv.1 kv.2) p.elems (stepTrue p kv).elems := by
  obtain ⟨q, hq, h, _⟩ := applySetting_true p kv.1 kv.2
  rw [stepTrue, hq]
  exact h

theorem stepTrue_page (p : Page) (kv : String × JVal) : StepPage kv.1 p (stepTrue p kv) := by
  obtain ⟨q, hq, _, h⟩ := applySetting_true p kv.1 kv.2
  rw [stepTrue, hq]
  exact h

theorem applySettings_true (kvs : List (String × JVal)) : ∀ p : Page,
    applySettings p true kvs = .ok (settle p kvs) := by
  induction kvs with
  | nil => intro p; rfl
  | cons kv kvs ih =>
    intro p
    rw [applySettings, applySetting_true_eq p kv]
    exact ih _

theorem settle_append (p : Page) (xs ys : List (String × JVal)) :
    settle p (xs ++ ys) = settle (settle p xs) ys := by
  simp [settle, List.foldl_append]

theorem settle_cons (p : Page) (kv : String × JVal) (kvs : List (String × JVal)) :
    settle p (kv :: kvs) = settle (stepTrue p kv) kvs := rfl

/-- With the theme already loaded, `loadSavedSettings` on a stored object never
throws: it returns true after running every step of the loop. -/
theorem loadSavedSettings_true_obj (p : Page) (m : List (String × JVal))
    (hm : JSON.parse (storedText p.storage) = some (.obj m)) :
    loadSavedSettings p true = (true, settle p m) := by
  simp [loadSavedSettings, hm, ownEntries, applySettings_true]

/-- A relation between elements that every step of the given entries respects
holds between the elements before and after the loop. -/
theorem settle_frame (R : Element → Element → Prop) (hrefl : ∀ e, R e e)
    (htrans : ∀ a b c, R a b → R b c → R a c) (kvs : List (String × JVal))
    (h : ∀ kv ∈ kvs, ∀ e e', StepElem kv.1 kv.2 e e' → R e e') :
    ∀ p : Page, List.Forall₂ R p.elems (settle p kvs).elems := by
  induction kvs with
  | nil => intro p; exact List.forall₂_same.2 fun x _ => hrefl x
  | cons kv kvs ih =>
    intro p
    rw [settle_cons]
    refine forall2_trans R htrans ?_ (ih (fun x hx => h x (List.mem_cons_of_mem _ hx)) _)
    exact forall2_mono _ R (h kv (List.mem_cons_self _ _)) (stepTrue_elems p kv)

/-- A relation between pages that every step of the given entries respects
holds between the page before and after the loop. -/
theorem settle_page_frame (R : Page → Page → Prop) (hrefl : ∀ p, R p p)
    (htrans : ∀ a b c, R a b → R b c → R a c) (kvs : List (String × JVal))
    (h : ∀ kv ∈ kvs, ∀ p q, StepPage kv.1 p q → R p q) :
    ∀ p : Page, R p (settle p kvs) := by
  induction kvs with
  | nil => intro p; exact hrefl p
  | cons kv kvs ih =>
    intro p
    rw [settle_cons]
    exact htrans _ _ _ (h kv (List.mem_cons_self _ _) _ _ (stepTrue_page p kv))
      (ih (fun x hx => h x (List.mem_cons_of_mem _ hx)) _)

theorem findId_congr (id : String) {xs ys : List Element}
    (h : List.Forall₂ (fun e e' => e'.id = e.id) xs ys) : findId id ys = findId id xs := by
  induction h with
  | nil => rfl
  | cons hab _ ih => simp [findId, hab, ih]

theorem getElementById_congr (p q : Page) (id : String)
    (h : List.Forall₂ (fun e e' => e'.id = e.id) p.elems q.elems) :
    getElementById q id = getElementById p id := by
  simp [getElementById, findId_congr id h]

theorem settle_ids (p : Page) (kvs : List (String × JVal)) :
    List.Forall₂ (fun e e' => e'.id = e.id) p.elems (settle p kvs).elems :=
  settle_frame (fun e e' => e'.id = e.id) (fun _ => rfl) (fun _ _ _ h1 h2 => h2.trans h1) kvs
    (fun _ _ _ _ h => h.1.2.1) p

theorem keysOrdered_append (a b : List (String × JVal)) (h : keysOrdered (a ++ b) = true) :
    keysOrdered b = true ∧ ∀ x ∈ a, ∀ y ∈ b, keyRel x.1 y.1 = true := by
  induction a with
  | nil => exact ⟨h, fun _ hx => by cases hx⟩
  | cons c a ih =>
    simp only [List.cons_append, keysOrdered, Bool.and_eq_true, List.all_eq_true] at h
    obtain ⟨hb, hrel⟩ := ih h.2
    refine ⟨hb, fun x hx y hy => ?_⟩
    rcases List.mem_cons.1 hx with hx | hx
    · subst hx; exact h.1 y (List.mem_append_right _ hy)
    · exact hrel x hx y hy

/-- A member of a well-formed object splits it into the members before and
after, none of which has its key. -/
theorem split_at_member (m : List (String × JVal)) (kv : String × JVal)
    (ho : keysOrdered m = true) (h : kv ∈ m) :
    ∃ pre post, m = pre ++ kv :: post ∧ (∀ x ∈ pre, x.1 ≠ kv.1) ∧ (∀ x ∈ post, x.1 ≠ kv.1) := by
  obtain ⟨pre, post, hm⟩ := List.append_of_mem h
  refine ⟨pre, post, hm, ?_, ?_⟩
  · intro x hx
    rw [hm] at ho
    exact keyRel_ne ((keysOrdered_append pre (kv :: post) ho).2 x hx kv (List.mem_cons_self _ _))
  · intro x hx
    rw [hm] at ho
    have h2 := (keysOrdered_append pre (kv :: post) ho).1
    simp only [keysOrdered, Bool.and_eq_true, List.all_eq_true] at h2
    exact (keyRel_ne (h2.1 x hx)).symm

/-! ## Sliders in the settings loop -/

theorem get_modifyAt_other (f : Element → Element) (es : List Element) (i j : Nat)
    (h : i ≠ j) : (modifyAt f j es).get? i = es.get? i := by
  induction es generalizing i j with
  | nil => cases j <;> rfl
  | cons e es ih =>
    cases j with
    | zero =>
      cases i with
      | zero => exact absurd rfl h
      | succ i => rfl
    | succ j =>
      cases i with
      | zero => rfl
      | succ i => exact ih i j (fun hij => h (congrArg Nat.succ hij))

/-- The two stored sliders of `sliderPage` after loading: the frequency is
shown bare and the threshold with a percent sign. -/
theorem slider_examples :
    ((loadSavedSettings sliderPage true).2.elems.map fun e => (e.id, e.value, e.text)) =
      [("scan-frequency", "5", ""), ("scan-frequency-value", "", "5"),
       ("confidence-threshold", "60", ""), ("confidence-threshold-value", "", "60%")] := by
  decide

/-! ## Missing controls -/

/-- The missing-control example evaluated: the slider holds the stored value. -/
theorem partialPage_loaded :
    loadSavedSettings partialPage true =
      (true, { partialPage with
        elems := [{ plainElement "input" "scan-frequency" none with
          inputType := "range", value := "5" }] }) := by
  decide

/-! ## Toggles in the settings loop -/

theorem sameShape_refl (e : Element) : SameShape e e := ⟨rfl, rfl, rfl, rfl, rfl, rfl, rfl⟩

theorem sameShape_trans (a b c : Element) (h1 : SameShape a b) (h2 : SameShape b c) :
    SameShape a c := by
  obtain ⟨s1, s2, s3, s4, s5, s6, s7⟩ := h1
  obtain ⟨r1, r2, r3, r4, r5, r6, r7⟩ := h2
  exact ⟨r1.trans s1, r2.trans s2, r3.trans s3, r4.trans s4, r5.trans s5, r6.trans s6,
    r7.trans s7⟩

theorem settle_shape (p : Page) (kvs : List (String × JVal)) :
    List.Forall₂ SameShape p.elems (settle p kvs).elems :=
  settle_frame SameShape sameShape_refl sameShape_trans kvs (fun _ _ _ _ h => h.1) p

theorem toggles_include (k : String) (hk : k ∈ toggles) : includes k "toggle" = true := by
  simp only [toggles, List.mem_cons, List.mem_singleton, List.not_mem_nil, or_false] at hk
  rcases hk with h | h | h | h | h | h | h | h | h | h | h <;> subst h <;> decide

/-- The step of the settings loop for a wired toggle followed by its pill runs
`handleSpecialToggle` with the stored value, after checking the control. -/
theorem stepTrue_toggle (q : Page) (k : String) (b : Bool) (i j : Nat) (e : Element)
    (hk : includes k "toggle" = true) (hi : getElementById q k = some i)
    (he : q.elems.get? i = some e) (hw : e.toggleWired = true) (hn : e.next = some j)
    (hj : (q.elems.get? j).isSome = true) :
    ∃ p', stepTrue q (k, .bool b) = handleSpecialToggle p' k b ∧
      ∃ c, (stepTrue q (k, .bool b)).elems.get? i = some c ∧ c.id = k ∧ c.checked = b ∧
        c.inputType = e.inputType := by
  have hstep : stepTrue q (k, .bool b) = dispatchChange (setChecked q i b) i := by
    unfold stepTrue applySetting
    simp only [hk, if_true, hi, toBoolean, resPage]
  have hfr := stepElem_setChecked k (.bool b) q k i b hi (Or.inl rfl)
  obtain ⟨e1, he1, hs1⟩ := forall2_get _ hfr i e he
  obtain ⟨hb, e0, he0, _⟩ := setChecked_get q i b e1 he1
  obtain ⟨e2, he2, hid2⟩ := getElementById_get q k i hi
  rw [he] at he2
  cases he2
  have hid1 : e1.id = k := hs1.1.2.1.trans hid2
  obtain ⟨x, hx⟩ := Option.isSome_iff_exists.1 hj
  obtain ⟨x1, hx1, _⟩ := forall2_get _ hfr j x hx
  have hdc : dispatchChange (setChecked q i b) i =
      handleSpecialToggle (saveSettings ((setChecked q i b).modify j fun pill =>
        if e1.checked then
          { pill with classes := classAdd "peer-checked:bg-primary/20" pill.classes }
        else { pill with classes := classRemove "peer-checked:bg-primary/20" pill.classes })
        k (.bool e1.checked)).2 k e1.checked := by
    unfold dispatchChange
    simp only [he1, hs1.1.2.2.2.2.2.2.trans hw, if_true, hid1]
    unfold toggleChanged
    simp only [he1, hs1.1.2.2.2.2.1.trans hn, hx1]
  rw [hb] at hdc
  refine ⟨_, hstep.trans hdc, ?_⟩
  rw [hstep]
  obtain ⟨c, hc, hcl⟩ := forall2_get _ (classOnly_dispatchChange (setChecked q i b) i) i e1 he1
  refine ⟨c, hc, ?_, ?_, ?_⟩
  · rw [hcl.1]; exact hid1
  · rw [hcl.1]; exact hb
  · rw [hcl.1]; exact hs1.1.2.2.1

theorem toggleKept_of_step (k : String) (kv : String × JVal) (hk : kv.1 ≠ k)
    (hpm : kv.1 = "protection-mode" → toStr kv.2 ≠ k) (e e' : Element)
    (h : StepElem kv.1 kv.2 e e') : ToggleKept k e e' := by
  obtain ⟨hs1, _, _, _, hc⟩ := h
  refine ⟨hs1.2.1, hs1.2.2.1, fun hid hty => ?_⟩
  rcases hc with hc | hc | hc | hc
  · exact hc
  · exact absurd (hc.symm.trans hid) hk
  · exact absurd (hc.2.symm.trans hid) (hpm hc.1)
  · rw [hty] at hc
    exact absurd hc.1 (by decide)

theorem handleSpecialToggle_autoRefresh (p : Page) (b : Bool) :
    (handleSpecialToggle p "auto-refresh-toggle" b).autoRefreshEnabled = some b := by
  simp [handleSpecialToggle]

/-- C16 (amended). For every stored object binding a registered toggle id `k`
to a boolean `b`, with the control present as a wired checkbox followed by its
pill element, and with no `protection-mode` entry whose value names `k`,
`loadSavedSettings()` returns true, leaves the control's checked state equal
to `b`, and runs `handleSpecialToggle(k, b)` at the entry of `k`, the later
entries being applied to the page that call gives; for `auto-refresh-toggle`
the `autoRefreshEnabled` flag equals `b` afterwards. -/
theorem loadSavedSettings_toggle (p : Page) (m : List (String × JVal)) (k : String) (b : Bool)
    (i j : Nat) (e : Element) (hm : JSON.parse (storedText p.storage) = some (.obj m))
    (hkv : (k, .bool b) ∈ m) (hk : k ∈ toggles) (hi : getElementById p k = some i)
    (he : p.elems.get? i = some e) (hw : e.toggleWired = true)
    (hc : e.inputType = "checkbox") (hn : e.next = some j)
    (hj : (p.elems.get? j).isSome = true)
    (hpm : ∀ kv ∈ m, kv.1 = "protection-mode" → toStr kv.2 ≠ k) :
    (loadSavedSettings p true).1 = true ∧
    (∃ c, (loadSavedSettings p true).2.elems.get? i = some c ∧ c.id = k ∧ c.checked = b) ∧
    (∃ pre post p', m = pre ++ (k, .bool b) :: post ∧
      (loadSavedSettings p true).2 = settle (handleSpecialToggle p' k b) post) ∧
    (k = "auto-refresh-toggle" → (loadSavedSettings p true).2.autoRefreshEnabled = some b) := by
  rw [loadSavedSettings_true_obj p m hm]
  have hwf := parse_wf _ _ hm
  simp only [JVal.wf, Bool.and_eq_true] at hwf
  obtain ⟨pre, post, hsplit, _, hpost⟩ := split_at_member m (k, .bool b) hwf.1 hkv
  have hinc := toggles_include k hk
  have hi1 : getElementById (settle p pre) k = some i := by
    rw [getElementById_congr p _ k (settle_ids p pre)]; exact hi
  obtain ⟨e1, he1, hsh⟩ := forall2_get _ (settle_shape p pre) i e he
  obtain ⟨x, hx⟩ := Option.isSome_iff_exists.1 hj
  obtain ⟨x1, hx1, _⟩ := forall2_get _ (settle_shape p pre) j x hx
  obtain ⟨p', hp', c, hcg, hcid, hcb, hcty⟩ := stepTrue_toggle (settle p pre) k b i j e1 hinc hi1
    he1 (hsh.2.2.2.2.2.2.trans hw) (hsh.2.2.2.2.1.trans hn) (by rw [hx1]; rfl)
  have hfin : settle p m = settle (handleSpecialToggle p' k b) post := by
    rw [hsplit, settle_append, settle_cons, hp']
  have hpost2 : ∀ kv ∈ post, kv.1 = "protection-mode" → toStr kv.2 ≠ k := fun kv hkv2 =>
    hpm kv (by rw [hsplit]; exact List.mem_append_right _ (List.mem_cons_of_mem _ hkv2))
  refine ⟨rfl, ?_, ⟨pre, post, p', hsplit, hfin⟩, ?_⟩
  · have hfr := settle_frame (ToggleKept k) (fun _ => ⟨rfl, rfl, fun _ _ => rfl⟩)
      (fun a b c h1 h2 => ⟨h2.1.trans h1.1, h2.2.1.trans h1.2.1,
        fun h ht => (h2.2.2 (h1.1.trans h) (h1.2.1.trans ht)).trans (h1.2.2 h ht)⟩) post
      (fun kv hkv2 e e' h => toggleKept_of_step k kv (hpost kv hkv2) (hpost2 kv hkv2) e e' h)
      (stepTrue (settle p pre) (k, .bool b))
    obtain ⟨c', hc', hkc⟩ := forall2_get _ hfr i c hcg
    refine ⟨c', ?_, hkc.1.trans hcid, (hkc.2.2 hcid (hcty.trans (hsh.2.2.1.trans hc))).trans hcb⟩
    rw [hsplit, settle_append, settle_cons]
    exact hc'
  · intro hka
    rw [hfin]
    have hfr := settle_page_frame (fun a b => b.autoRefreshEnabled = a.autoRefreshEnabled)
      (fun _ => rfl) (fun _ _ _ h1 h2 => h2.trans h1) post
      (fun kv hkv2 a b h => by
        rcases h.2.2.2 with h | h
        · exact h
        · exact absurd (h.trans hka.symm) (hpost kv hkv2))
      (handleSpecialToggle p' k b)
    rw [hfr, hka]
    exact handleSpecialToggle_autoRefresh p' b

/-- Witness of `loadSavedSettings_toggle`: the stored auto-refresh toggle is
checked and the flag set. -/
theorem loadSavedSettings_toggle_witness :
    (loadSavedSettings refreshPage true).1 = true ∧
    (∃ c, (loadSavedSettings refreshPage true).2.elems.get? 0 = some c ∧
      c.id = "auto-refresh-toggle" ∧ c.checked = true) ∧
    (∃ pre post p', [("auto-refresh-toggle", JVal.bool true)] =
        pre ++ ("auto-refresh-toggle", .bool true) :: post ∧
      (loadSavedSettings refreshPage true).2 =
        settle (handleSpecialToggle p' "auto-refresh-toggle" true) post) ∧
    ("auto-refresh-toggle" = "auto-refresh-toggle" →
      (loadSavedSettings refreshPage true).2.autoRefreshEnabled = some true) :=
  loadSavedSettings_toggle refreshPage [("auto-refresh-toggle", .bool true)]
    "auto-refresh-toggle" true 0 1
    { plainElement "input" "auto-refresh-toggle" (some 1) with
      inputType := "checkbox", toggleWired := true }
    (by decide) (by decide) (by decide) (by decide) (by decide) rfl rfl rfl (by decide)
    (by decide)

/-- C16 fails as stated.  With the store
`{"auto-refresh-toggle":false,"protection-mode":"auto-refresh-toggle"}` the
later `protection-mode` entry checks the control again, so it ends checked
although `false` is stored for it; and a wired checkbox without a next sibling
makes the listener throw before `handleSpecialToggle` is reached, so the stored
`true` never sets `autoRefreshEnabled`. -/
theorem loadSavedSettings_toggle_fails :
    (loadSavedSettings crossedPage true).1 = true ∧
    ((loadSavedSettings crossedPage true).2.elems.map fun e => (e.id, e.checked)) =
      [("auto-refresh-toggle", true), ("", false)] ∧
    (loadSavedSettings lonePage true).1 = true ∧
    ((loadSavedSettings lonePage true).2.elems.map fun e => (e.id, e.checked)) =
      [("auto-refresh-toggle", true)] ∧
    (loadSavedSettings lonePage true).2.autoRefreshEnabled = none := by
  decide

/-! ## Selecting a theme -/

theorem themeElem_refl (e : Element) : ThemeElem e e := ⟨rfl, fun _ _ _ => Iff.rfl⟩

theorem themeElem_trans (a b c : Element) (h1 : ThemeElem a b) (h2 : ThemeElem b c) :
    ThemeElem a c := by
  obtain ⟨e1, c1⟩ := h1
  obtain ⟨e2, c2⟩ := h2
  refine ⟨?_, fun x hx hy => (c2 x hx hy).trans (c1 x hx hy)⟩
  rw [e2, e1]

theorem deselElem_refl (e : Element) : DeselElem e e := ⟨themeElem_refl e, fun _ h => h⟩

theorem deselElem_trans (a b c : Element) (h1 : DeselElem a b) (h2 : DeselElem b c) :
    DeselElem a c :=
  ⟨themeElem_trans a b c h1.1 h2.1, fun x hx => h1.2 x (h2.2 x hx)⟩

theorem deselElem_remove (e : Element) (c : String) (hc : c = "selected" ∨ c = "bg-primary") :
    DeselElem e { e with classes := classRemove c e.classes } := by
  refine ⟨⟨rfl, fun x hx hy => ?_⟩, fun x hx => ((mem_classRemove c x e.classes).1 hx).2⟩
  rw [mem_classRemove]
  constructor
  · exact fun h => h.2
  · intro h
    refine ⟨?_, h⟩
    rcases hc with hc | hc <;> rw [hc] <;> assumption

theorem themeElem_add (e : Element) (c : String) (hc : c = "selected" ∨ c = "bg-primary") :
    ThemeElem e { e with classes := classAdd c e.classes } := by
  refine ⟨rfl, fun x hx hy => ?_⟩
  rw [mem_classAdd]
  constructor
  · rintro (h | h)
    · rcases hc with hc | hc <;> rw [hc] at h <;> contradiction
    · exact h
  · exact Or.inr

theorem deselElem_modify (p : Page) (i : Nat) (c : String)
    (hc : c = "selected" ∨ c = "bg-primary") :
    List.Forall₂ DeselElem p.elems
      (p.modify i fun t => { t with classes := classRemove c t.classes }).elems :=
  forall2_modifyAt DeselElem _ deselElem_refl (fun e => deselElem_remove e c hc) i p.elems

/-- Whatever the outcome, deselecting changes only the elements, and of them
only the two classes. -/
theorem deselectThemes_frame (is : List Nat) : ∀ p : Page,
    resPage (deselectThemes p is) = { p with elems := (resPage (deselectThemes p is)).elems } ∧
      List.Forall₂ DeselElem p.elems (resPage (deselectThemes p is)).elems := by
  induction is with
  | nil => intro p; exact ⟨rfl, List.forall₂_same.2 fun x _ => deselElem_refl x⟩
  | cons i is ih =>
    intro p
    have h1 := deselElem_modify p i "selected" (Or.inl rfl)
    have hrec : ∀ j : Nat,
        resPage (deselectThemes ((p.modify i fun t =>
          { t with classes := classRemove "selected" t.classes }).modify j fun w =>
            { w with classes := classRemove "bg-primary" w.classes }) is) =
          { p with elems := (resPage (deselectThemes ((p.modify i fun t =>
            { t with classes := classRemove "selected" t.classes }).modify j fun w =>
              { w with classes := classRemove "bg-primary" w.classes }) is)).elems } ∧
        List.Forall₂ DeselElem p.elems (resPage (deselectThemes ((p.modify i fun t =>
          { t with classes := classRemove "selected" t.classes }).modify j fun w =>
            { w with classes := classRemove "bg-primary" w.classes }) is)).elems := by
      intro j
      obtain ⟨ha, hb⟩ := ih ((p.modify i fun t =>
        { t with classes := classRemove "selected" t.classes }).modify j fun w =>
          { w with classes := classRemove "bg-primary" w.classes })
      refine ⟨?_, forall2_trans DeselElem deselElem_trans
        (forall2_trans DeselElem deselElem_trans h1
          (deselElem_modify _ j "bg-primary" (Or.inr rfl))) hb⟩
      rw [ha]
      rfl
    unfold deselectThemes
    simp only
    split
    · exact ⟨rfl, h1⟩
    · split
      · exact ⟨rfl, h1⟩
      · exact hrec _

/-- When every listed element has its swatch, deselecting succeeds and leaves
none of the listed elements selected. -/
theorem deselectThemes_ok (is : List Nat) : ∀ p : Page,
    (∀ n ∈ is, ∃ e j, p.elems.get? n = some e ∧ e.swatch = some j ∧
      (p.elems.get? j).isSome = true) →
    ∃ q, deselectThemes p is = .ok q ∧
      ∀ n ∈ is, ∀ e', q.elems.get? n = some e' → "selected" ∉ e'.classes := by
  induction is with
  | nil => intro p _; exact ⟨p, rfl, fun _ hn => by cases hn⟩
  | cons i is ih =>
    intro p h
    obtain ⟨e, j, he, hs, hj⟩ := h i (List.mem_cons_self _ _)
    obtain ⟨x, hx⟩ := Option.isSome_iff_exists.1 hj
    have h1 := deselElem_modify p i "selected" (Or.inl rfl)
    obtain ⟨p1, hp1⟩ : ∃ p1, p1 = p.modify i fun t =>
      { t with classes := classRemove "selected" t.classes } := ⟨_, rfl⟩
    rw [← hp1] at h1
    have he1 : p1.elems.get? i = some { e with classes := classRemove "selected" e.classes } := by
      rw [hp1]
      simp only [Page.modify, get_modifyAt, he, Option.map_some']
    obtain ⟨x1, hx1, _⟩ := forall2_get _ h1 j x hx
    have h2 := deselElem_modify p1 j "bg-primary" (Or.inr rfl)
    obtain ⟨p2, hp2⟩ : ∃ p2, p2 = p1.modify j fun w =>
      { w with classes := classRemove "bg-primary" w.classes } := ⟨_, rfl⟩
    rw [← hp2] at h2
    have h12 := forall2_trans DeselElem deselElem_trans h1 h2
    have hrest : ∀ n ∈ is, ∃ e j, p2.elems.get? n = some e ∧ e.swatch = some j ∧
        (p2.elems.get? j).isSome = true := by
      intro n hn
      obtain ⟨en, jn, hen, hsn, hjn⟩ := h n (List.mem_cons_of_mem _ hn)
      obtain ⟨y, hy⟩ := Option.isSome_iff_exists.1 hjn
      obtain ⟨en2, hen2, hd⟩ := forall2_get _ h12 n en hen
      obtain ⟨y2, hy2, _⟩ := forall2_get _ h12 jn y hy
      refine ⟨en2, jn, hen2, ?_, by rw [hy2]; rfl⟩
      rw [hd.1.1]
      exact hsn
    obtain ⟨q, hq, hsel⟩ := ih p2 hrest
    refine ⟨q, ?_, ?_⟩
    · rw [deselectThemes]
      simp only [← hp1, he1, Option.some_bind, hs, hx1, ← hp2]
      exact hq
    · intro n hn e' he'
      rcases List.mem_cons.1 hn with hni | hni
      · subst hni
        obtain ⟨e2, he2, hd2⟩ := forall2_get _ h2 n _ he1
        have hfr := (deselectThemes_frame is p2).2
        rw [hq] at hfr
        obtain ⟨e3, he3, hd3⟩ := forall2_get _ hfr n e2 he2
        rw [show resPage (Except.ok q) = q from rfl, he'] at he3
        cases he3
        intro hmem
        have := hd2.2 _ (hd3.2 _ hmem)
        exact ((mem_classRemove "selected" "selected" e.classes).1 this).1 rfl
      · exact hsel n hni e' he'

theorem mem_withClass (c : String) (es : List Element) (n : Nat) :
    n ∈ withClass c es ↔ ∃ e, es.get? n = some e ∧ c ∈ e.classes := by
  unfold withClass
  rw [List.mem_filter, List.mem_range]
  constructor
  · rintro ⟨_, h⟩
    cases hg : es.get? n with
    | none => rw [hg] at h; exact absurd h Bool.false_ne_true
    | some e =>
      rw [hg] at h
      exact ⟨e, rfl, of_decide_eq_true h⟩
  · rintro ⟨e, he, hc⟩
    refine ⟨?_, by rw [he]; exact decide_eq_true hc⟩
    by_contra hlt
    rw [List.get?_eq_none.2 (Nat.le_of_not_lt hlt)] at he
    cases he

theorem themeOptionsOk_get (p : Page) (h : themeOptionsOk p = true) (n : Nat) (e : Element)
    (he : p.elems.get? n = some e) (hc : "theme-option" ∈ e.classes) :
    ∃ j, e.swatch = some j ∧ (p.elems.get? j).isSome = true := by
  unfold themeOptionsOk at h
  rw [List.all_eq_true] at h
  have h2 := h e (List.get?_mem he)
  simp only [hc, decide_True, Bool.not_true, Bool.false_or] at h2
  cases hs : e.swatch with
  | none => simp [hs] at h2
  | some j =>
    simp only [hs] at h2
    exact ⟨j, rfl, h2⟩

theorem styleOnly_trans {a b c : Page} (h1 : StyleOnly a b) (h2 : StyleOnly b c) :
    StyleOnly a c := by
  unfold StyleOnly at *
  rw [h2, h1]

theorem styleOnly_setStyle (p : Page) (a c : String) : StyleOnly p (p.setStyle a c) := rfl

theorem styleOnly_resetTheme (p : Page) : StyleOnly p (resetTheme p) := by
  unfold resetTheme
  iterate 10 refine styleOnly_trans ?_ (styleOnly_setStyle _ _ _)
  exact styleOnly_setStyle _ _ _

theorem styleOnly_themeOverrides (p : Page) (v : JVal) : StyleOnly p (themeOverrides p v) := by
  have hrefl : StyleOnly p p := rfl
  unfold themeOverrides
  split
  · split
    · iterate 6 refine styleOnly_trans ?_ (styleOnly_setStyle _ _ _)
      exact styleOnly_setStyle _ _ _
    · split
      · iterate 8 refine styleOnly_trans ?_ (styleOnly_setStyle _ _ _)
        exact styleOnly_setStyle _ _ _
      · split
        · iterate 7 refine styleOnly_trans ?_ (styleOnly_setStyle _ _ _)
          exact styleOnly_setStyle _ _ _
        · exact hrefl
  · exact hrefl

/-- The page `applyTheme` gives differs from the page it is given in the root
style and the notifications only. -/
theorem applyTheme_eq (q : Page) (v : JVal) (b : Bool) :
    applyTheme q v b = { q with rootStyle := (applyTheme q v b).rootStyle,
                                notifications := (applyTheme q v b).notifications } := by
  have h := styleOnly_trans (styleOnly_resetTheme q) (styleOnly_themeOverrides (resetTheme q) v)
  unfold StyleOnly at h
  unfold applyTheme
  simp only
  split
  · unfold showNotification
    simp only
    rw [h]
  · rw [h]

/-- When every theme option has its swatch and the target has one, selecting
the target succeeds: it changes the two classes only, leaves the target
selected and no other theme option selected, and then applies the theme. -/
theorem selectTheme_ok (p : Page) (i j : Nat) (e : Element) (v : JVal) (b : Bool)
    (hok : themeOptionsOk p = true) (he : p.elems.get? i = some e) (hs : e.swatch = some j)
    (hj : (p.elems.get? j).isSome = true) :
    ∃ q, selectTheme p i v b = .ok (applyTheme q v b) ∧ q = { p with elems := q.elems } ∧
      List.Forall₂ ThemeElem p.elems q.elems ∧
      (∃ c, q.elems.get? i = some c ∧ "selected" ∈ c.classes) ∧
      (∀ n e0 c, n ≠ i → p.elems.get? n = some e0 → "theme-option" ∈ e0.classes →
        q.elems.get? n = some c → "selected" ∉ c.classes) := by
  obtain ⟨q0, hq0, hsel⟩ := deselectThemes_ok (withClass "theme-option" p.elems) p (by
    intro n hn
    obtain ⟨en, hen, hcn⟩ := (mem_withClass _ _ n).1 hn
    obtain ⟨jn, hsn, hjn⟩ := themeOptionsOk_get p hok n en hen hcn
    exact ⟨en, jn, hen, hsn, hjn⟩)
  obtain ⟨hfa, hfb⟩ := deselectThemes_frame (withClass "theme-option" p.elems) p
  rw [hq0] at hfa hfb
  simp only [resPage] at hfa hfb
  obtain ⟨e1, he1, hd1⟩ := forall2_get _ hfb i e he
  obtain ⟨x, hx⟩ := Option.isSome_iff_exists.1 hj
  have hadd1 : List.Forall₂ ThemeElem q0.elems
      (q0.modify i fun t => { t with classes := classAdd "selected" t.classes }).elems :=
    forall2_modifyAt ThemeElem _ themeElem_refl (fun t => themeElem_add t _ (Or.inl rfl)) i _
  obtain ⟨p2, hp2⟩ : ∃ p2, p2 = q0.modify i fun t =>
    { t with classes := classAdd "selected" t.classes } := ⟨_, rfl⟩
  rw [← hp2] at hadd1
  have he2 : p2.elems.get? i = some { e1 with classes := classAdd "selected" e1.classes } := by
    rw [hp2]
    simp only [Page.modify, get_modifyAt, he1, Option.map_some']
  have h02 : List.Forall₂ ThemeElem p.elems p2.elems :=
    forall2_trans ThemeElem themeElem_trans
      (forall2_mono DeselElem ThemeElem (fun _ _ h => h.1) hfb) hadd1
  obtain ⟨x2, hx2, _⟩ := forall2_get _ h02 j x hx
  have hs1 : e1.swatch = some j := by rw [hd1.1.1]; exact hs
  obtain ⟨q, hq⟩ : ∃ q, q = p2.modify j fun w =>
    { w with classes := classAdd "bg-primary" w.classes } := ⟨_, rfl⟩
  have hadd2 : List.Forall₂ ThemeElem p2.elems q.elems := by
    rw [hq]
    exact forall2_modifyAt ThemeElem _ themeElem_refl
      (fun t => themeElem_add t _ (Or.inr rfl)) j _
  have hkeep : List.Forall₂ (fun a c : Element => "selected" ∈ c.classes ↔ "selected" ∈ a.classes)
      p2.elems q.elems := by
    rw [hq]
    refine forall2_modifyAt _ _ (fun _ => Iff.rfl) (fun t => ?_) j _
    simp only [mem_classAdd]
    exact ⟨fun h => h.resolve_left (by decide), Or.inr⟩
  refine ⟨q, ?_, ?_, forall2_trans ThemeElem themeElem_trans h02 hadd2, ?_, ?_⟩
  · unfold selectTheme
    simp only [hq0, ← hp2, he2, Option.some_bind, hs1, hx2, ← hq]
  · rw [hq, hp2, hfa]
    rfl
  · obtain ⟨c, hc, hcs⟩ := forall2_get _ hkeep i _ he2
    exact ⟨c, hc, hcs.2 ((mem_classAdd _ _ _).2 (Or.inl rfl))⟩
  · intro n e0 c hn hen hcn hc hmem
    have hn0 : n ∈ withClass "theme-option" p.elems := (mem_withClass _ _ n).2 ⟨e0, hen, hcn⟩
    obtain ⟨a, ha, hac⟩ := forall2_get_rev _ hkeep n c hc
    rw [hp2] at ha
    simp only [Page.modify, get_modifyAt_other _ _ n i hn] at ha
    exact hsel n hn0 a ha (hac.1 hmem)

/-- Selecting a theme without the notification shows no notification, whether
it succeeds or throws. -/
theorem selectTheme_quiet (p : Page) (i : Nat) (v : JVal) :
    (resPage (selectTheme p i v false)).notifications = p.notifications := by
  obtain ⟨hfa, _⟩ := deselectThemes_frame (withClass "theme-option" p.elems) p
  have h0 : (resPage (deselectThemes p (withClass "theme-option" p.elems))).notifications =
      p.notifications := by rw [hfa]
  unfold selectTheme
  split
  · rename_i err herr
    rw [herr] at h0
    exact h0
  · rename_i p1 hp1
    rw [hp1] at h0
    simp only [resPage] at h0
    simp only
    split
    · exact h0
    · split
      · exact h0
      · simp only [resPage, applyTheme, Bool.false_eq_true, if_false,
          themeOverrides_notifications, resetTheme_notifications]
        exact h0

theorem modify_setStorage (s : Storage) (p : Page) (i : Nat) (f : Element → Element) :
    (setStorage s p).modify i f = setStorage s (p.modify i f) := rfl

theorem setStorage_elems (s : Storage) (p : Page) : (setStorage s p).elems = p.elems := rfl

theorem setStyle_setStorage (s : Storage) (p : Page) (a c : String) :
    (setStorage s p).setStyle a c = setStorage s (p.setStyle a c) := rfl

theorem resetTheme_setStorage (s : Storage) (p : Page) :
    resetTheme (setStorage s p) = setStorage s (resetTheme p) := by
  simp only [resetTheme, setStyle_setStorage]

theorem themeOverrides_setStorage (s : Storage) (p : Page) (v : JVal) :
    themeOverrides (setStorage s p) v = setStorage s (themeOverrides p v) := by
  unfold themeOverrides
  repeat' split
  all_goals simp only [setStyle_setStorage]

theorem applyTheme_setStorage (s : Storage) (p : Page) (v : JVal) (b : Bool) :
    applyTheme (setStorage s p) v b = setStorage s (applyTheme p v b) := by
  unfold applyTheme
  simp only [resetTheme_setStorage, themeOverrides_setStorage]
  split <;> rfl

/-- Deselecting does not look at the storage. -/
theorem deselectThemes_setStorage (s : Storage) (is : List Nat) : ∀ p : Page,
    deselectThemes (setStorage s p) is = onOutcome (setStorage s) (deselectThemes p is) := by
  induction is with
  | nil => intro p; rfl
  | cons i is ih =>
    intro p
    rw [deselectThemes, deselectThemes]
    simp only [modify_setStorage, setStorage_elems]
    split
    · rfl
    · split
      · rfl
      · exact ih _

/-- Selecting a theme does not look at the storage. -/
theorem selectTheme_setStorage (s : Storage) (p : Page) (i : Nat) (v : JVal) (b : Bool) :
    selectTheme (setStorage s p) i v b = onOutcome (setStorage s) (selectTheme p i v b) := by
  unfold selectTheme
  rw [setStorage_elems, deselectThemes_setStorage]
  cases deselectThemes p (withClass "theme-option" p.elems) with
  | error err => rfl
  | ok p1 =>
    simp only [onOutcome, modify_setStorage, setStorage_elems, applyTheme_setStorage]
    split
    · rfl
    · split <;> rfl

/-! ## The stored theme -/

theorem nonVolatile_refl (e : Element) : NonVolatile e e := ⟨sameShape_refl e, fun _ _ => Iff.rfl⟩

theorem nonVolatile_trans (a b c : Element) (h1 : NonVolatile a b) (h2 : NonVolatile b c) :
    NonVolatile a c :=
  ⟨sameShape_trans a b c h1.1 h2.1, fun x hx => (h2.2 x hx).trans (h1.2 x hx)⟩

theorem settle_nonVolatile (p : Page) (kvs : List (String × JVal)) :
    List.Forall₂ NonVolatile p.elems (settle p kvs).elems :=
  settle_frame NonVolatile nonVolatile_refl nonVolatile_trans kvs
    (fun _ _ _ _ h => ⟨h.1, h.2.1⟩) p

theorem themeOptionsOk_of (p : Page)
    (h : ∀ n e, p.elems.get? n = some e → "theme-option" ∈ e.classes →
      ∃ j, e.swatch = some j ∧ (p.elems.get? j).isSome = true) : themeOptionsOk p = true := by
  unfold themeOptionsOk
  rw [List.all_eq_true]
  intro e he
  obtain ⟨n, hn⟩ := List.get?_of_mem he
  by_cases hc : "theme-option" ∈ e.classes
  · obtain ⟨j, hs, hj⟩ := h n e hn hc
    simp only [hc, decide_True, Bool.not_true, Bool.false_or, hs]
    exact hj
  · simp [hc]

theorem themeOptionsOk_congr (p q : Page) (h : List.Forall₂ NonVolatile p.elems q.elems)
    (hok : themeOptionsOk p = true) : themeOptionsOk q = true := by
  apply themeOptionsOk_of
  intro n e' he' hc
  obtain ⟨e, he, hr⟩ := forall2_get_rev _ h n e' he'
  obtain ⟨j, hs, hj⟩ := themeOptionsOk_get p hok n e he ((hr.2 _ (by decide)).1 hc)
  obtain ⟨x, hx⟩ := Option.isSome_iff_exists.1 hj
  obtain ⟨x', hx', _⟩ := forall2_get _ h j x hx
  exact ⟨j, hr.1.2.2.2.2.2.1.trans hs, by rw [hx']; rfl⟩

theorem applySetting_false_eq (p : Page) (key : String) (value : JVal) (h : key ≠ "theme") :
    applySetting p false key value = applySetting p true key value := by
  unfold applySetting
  simp [h]

theorem applySettings_false (kvs : List (String × JVal)) (h : ∀ kv ∈ kvs, kv.1 ≠ "theme") :
    ∀ p : Page, applySettings p false kvs = .ok (settle p kvs) := by
  induction kvs with
  | nil => intro p; rfl
  | cons kv kvs ih =>
    intro p
    rw [applySettings, applySetting_false_eq p kv.1 kv.2 (h kv (List.mem_cons_self _ _)),
      applySetting_true_eq p kv]
    exact ih (fun x hx => h x (List.mem_cons_of_mem _ hx)) _

theorem applySettings_append (flag : Bool) (xs ys : List (String × JVal)) : ∀ p q : Page,
    applySettings p flag xs = .ok q →
    applySettings p flag (xs ++ ys) = applySettings q flag ys := by
  induction xs with
  | nil =>
    intro p q h
    simp only [applySettings, Except.ok.injEq] at h
    rw [h, List.nil_append]
  | cons kv xs ih =>
    intro p q h
    rw [List.cons_append, applySettings]
    rw [applySettings] at h
    cases hs : applySetting p flag kv.1 kv.2 with
    | error err => rw [hs] at h; cases h
    | ok p1 =>
      rw [hs] at h
      exact ih p1 q h

theorem colour_not_duration : ∀ name ∈ colourVariables, name ≠ "--animation-duration" := by
  decide

theorem settle_colours (p : Page) (kvs : List (String × JVal)) :
    ∀ name ∈ colourVariables,
      getProperty name (settle p kvs).rootStyle = getProperty name p.rootStyle :=
  settle_page_frame
    (fun a b => ∀ name ∈ colourVariables,
      getProperty name b.rootStyle = getProperty name a.rootStyle)
    (fun _ _ _ => rfl) (fun _ _ _ h1 h2 name hn => (h2 name hn).trans (h1 name hn)) kvs
    (fun _ _ _ _ h name hn => h.2.2.1 name (colour_not_duration name hn)) p

/-- C12 (amended). For every stored object, `loadSavedSettings(true)` (the
default argument) returns true, changes no theme colour variable and leaves
the classes `selected` and `bg-primary` of every element as they were; while
`loadSavedSettings(false)`, when the object has a `theme` entry, the
theme-option element with that id exists and every theme-option element
contains its `.w-4.h-4` swatch, returns true, leaves the colour variables at
the palette of the stored theme and the option selected. -/
theorem loadSavedSettings_theme (p : Page) (m : List (String × JVal))
    (hm : JSON.parse (storedText p.storage) = some (.obj m)) :
    ((loadSavedSettings p true).1 = true ∧
      (∀ name ∈ colourVariables,
        getProperty name (loadSavedSettings p true).2.rootStyle = getProperty name p.rootStyle) ∧
      List.Forall₂ (fun e e' : Element =>
          ("selected" ∈ e'.classes ↔ "selected" ∈ e.classes) ∧
          ("bg-primary" ∈ e'.classes ↔ "bg-primary" ∈ e.classes))
        p.elems (loadSavedSettings p true).2.elems) ∧
    (∀ (v : JVal) (i : Nat) (e : Element), ("theme", v) ∈ m →
      getElementById p (toStr v) = some i → p.elems.get? i = some e →
      "theme-option" ∈ e.classes → themeOptionsOk p = true →
      (loadSavedSettings p false).1 = true ∧
      (∀ name ∈ colourVariables,
        getProperty name (loadSavedSettings p false).2.rootStyle =
          getProperty name (themePalette v)) ∧
      ∃ c, (loadSavedSettings p false).2.elems.get? i = some c ∧ "selected" ∈ c.classes) := by
  constructor
  · rw [loadSavedSettings_true_obj p m hm]
    refine ⟨rfl, settle_colours p m, ?_⟩
    exact forall2_mono NonVolatile _
      (fun a b h => ⟨h.2 _ (by decide), h.2 _ (by decide)⟩) (settle_nonVolatile p m)
  · intro v i e hv hi he hc hok
    have hwf := parse_wf _ _ hm
    simp only [JVal.wf, Bool.and_eq_true] at hwf
    obtain ⟨pre, post, hsplit, hpre, hpost⟩ := split_at_member m ("theme", v) hwf.1 hv
    have hnv := settle_nonVolatile p pre
    have hok1 := themeOptionsOk_congr p _ hnv hok
    obtain ⟨e1, he1, hr1⟩ := forall2_get _ hnv i e he
    have hc1 : "theme-option" ∈ e1.classes := (hr1.2 _ (by decide)).2 hc
    obtain ⟨j, hs1, hj1⟩ := themeOptionsOk_get _ hok1 i e1 he1 hc1
    obtain ⟨q, hq, hqeq, _, ⟨c, hcg, hcs⟩, _⟩ :=
      selectTheme_ok (settle p pre) i j e1 v true hok1 he1 hs1 hj1
    have hi1 : getElementById (settle p pre) (toStr v) = some i := by
      rw [getElementById_congr p _ _ (settle_ids p pre)]; exact hi
    have hstep : applySetting (settle p pre) false "theme" v = .ok (applyTheme q v true) := by
      unfold applySetting
      rw [if_neg (by decide), if_neg (by decide), if_neg (by decide), if_pos ⟨rfl, rfl⟩]
      simp only [hi1]
      exact hq
    have hall : applySettings p false m = .ok (settle (applyTheme q v true) post) := by
      rw [hsplit, applySettings_append false pre _ p _ (applySettings_false pre hpre p),
        applySettings, hstep]
      exact applySettings_false post hpost _
    have hload : loadSavedSettings p false = (true, settle (applyTheme q v true) post) := by
      simp [loadSavedSettings, hm, ownEntries, hall]
    rw [hload]
    refine ⟨rfl, fun name hn => ?_, ?_⟩
    · rw [settle_colours _ post name hn]
      exact applyTheme_lookup q v true name hn
    · have hce : (applyTheme q v true).elems.get? i = some c := by
        rw [applyTheme_eq]; exact hcg
      obtain ⟨c', hc', hr⟩ := forall2_get _ (settle_nonVolatile (applyTheme q v true) post) i c hce
      exact ⟨c', hc', (hr.2 _ (by decide)).2 hcs⟩

/-- Witness of `loadSavedSettings_theme`: the page with the matrix theme
option and the store holding that theme. -/
theorem loadSavedSettings_theme_witness :
    ((loadSavedSettings matrixPage true).1 = true ∧
      (∀ name ∈ colourVariables,
        getProperty name (loadSavedSettings matrixPage true).2.rootStyle =
          getProperty name matrixPage.rootStyle) ∧
      List.Forall₂ (fun e e' : Element =>
          ("selected" ∈ e'.classes ↔ "selected" ∈ e.classes) ∧
          ("bg-primary" ∈ e'.classes ↔ "bg-primary" ∈ e.classes))
        matrixPage.elems (loadSavedSettings matrixPage true).2.elems) ∧
    (∀ (v : JVal) (i : Nat) (e : Element), ("theme", v) ∈ [("theme", JVal.str "theme-matrix")] →
      getElementById matrixPage (toStr v) = some i → matrixPage.elems.get? i = some e →
      "theme-option" ∈ e.classes → themeOptionsOk matrixPage = true →
      (loadSavedSettings matrixPage false).1 = true ∧
      (∀ name ∈ colourVariables,
        getProperty name (loadSavedSettings matrixPage false).2.rootStyle =
          getProperty name (themePalette v)) ∧
      ∃ c, (loadSavedSettings matrixPage false).2.elems.get? i = some c ∧
        "selected" ∈ c.classes) :=
  loadSavedSettings_theme matrixPage [("theme", .str "theme-matrix")] (by decide)

/-- The stored matrix theme applied by `loadSavedSettings(false)` on
`matrixPage`: the option and its swatch are marked, the primary colour is the
matrix one and the notification is shown. -/
theorem matrixPage_loaded :
    (loadSavedSettings matrixPage false).1 = true ∧
    ((loadSavedSettings matrixPage false).2.elems.map fun e => e.classes) =
      [["theme-option", "selected"], ["w-4", "h-4", "bg-primary"]] ∧
    getProperty "--primary" (loadSavedSettings matrixPage false).2.rootStyle = some "#00FF00" ∧
    (loadSavedSettings matrixPage false).2.notifications = [("Theme applied", "success")] := by
  decide

/-- C12 fails as stated.  On `bareOptionPage` the theme-option element with
the stored id exists but has no `.w-4.h-4` descendant: `loadSavedSettings(false)`
throws inside its loop, returns false and sets no colour variable. -/
theorem loadSavedSettings_theme_fails :
    getElementById bareOptionPage "theme-matrix" = some 0 ∧
    (loadSavedSettings bareOptionPage false).1 = false ∧
    (loadSavedSettings bareOptionPage false).2.rootStyle = [] := by
  decide

theorem matrix_palette_lookup : ∀ name ∈ colourVariables,
    getProperty name (themePalette (.str "theme-matrix")) = getProperty name matrixPalette := by
  decide

/-- A successful `saveSettings` of a well-formed value under a key other than
`__proto__` leaves a page that differs in the storage only, and whose store
parses to the object with the key defined. -/
theorem saveSettings_true (p : Page) (key : String) (value : JVal) (m : List (String × JVal))
    (hm : JSON.parse (storedText p.storage) = some (.obj m)) (hkey : key ≠ "__proto__")
    (hv : value.wf = true) (hs : (saveSettings p key value).1 = true) :
    ∃ st, (saveSettings p key value).2 = setStorage st p ∧
      JSON.parse (storedText st) = some (.obj (defineProp m key value)) := by
  by_cases hw : p.storage.accepts settingsKey
      (JSON.stringify (.obj (defineProp m key value))) = true
  · rw [saveSettings_ok p key value _ _ hm (assignProp_obj m key value hkey) hw]
    refine ⟨_, rfl, ?_⟩
    rw [storedText_after_put _ _ (stringify_ne_empty _)]
    exact parse_stringify _ (wf_defineProp m key value (parse_wf _ _ hm) hv)
  · exfalso
    unfold saveSettings at hs
    rw [hm] at hs
    simp only [assignProp_obj m key value hkey, setItem_eq, hw, Bool.false_eq_true,
      if_false] at hs

/-- C13 (amended). After a `saveSettings('theme', 'theme-matrix')` that
returns true, on any store that parses to a map, `loadSavedTheme` (with the
`theme-matrix` option element present and every theme-option element
containing its `.w-4.h-4` swatch) returns true, leaves the colour variables at
the matrix palette, marks that option selected and no other theme option, and
emits no notification. -/
theorem loadSavedTheme_after_save (p : Page) (m : List (String × JVal)) (i : Nat) (e : Element)
    (hm : JSON.parse (storedText p.storage) = some (.obj m))
    (hs : (saveSettings p "theme" (.str "theme-matrix")).1 = true)
    (hi : getElementById p "theme-matrix" = some i) (he : p.elems.get? i = some e)
    (hc : "theme-option" ∈ e.classes) (hok : themeOptionsOk p = true) :
    (loadSavedTheme (saveSettings p "theme" (.str "theme-matrix")).2).1 = true ∧
    (∀ name ∈ colourVariables,
      getProperty name (loadSavedTheme (saveSettings p "theme" (.str "theme-matrix")).2).2.rootStyle
        = getProperty name matrixPalette) ∧
    (∃ c, (loadSavedTheme (saveSettings p "theme" (.str "theme-matrix")).2).2.elems.get? i =
        some c ∧ "selected" ∈ c.classes) ∧
    (∀ n e0 c, n ≠ i → p.elems.get? n = some e0 → "theme-option" ∈ e0.classes →
      (loadSavedTheme (saveSettings p "theme" (.str "theme-matrix")).2).2.elems.get? n = some c →
      "selected" ∉ c.classes) ∧
    (loadSavedTheme (saveSettings p "theme" (.str "theme-matrix")).2).2.notifications =
      p.notifications := by
  obtain ⟨st, hst, hparse⟩ := saveSettings_true p "theme" (.str "theme-matrix") m hm (by decide)
    rfl hs
  rw [hst]
  obtain ⟨j, hsw, hj⟩ := themeOptionsOk_get p hok i e he hc
  obtain ⟨q, hq, hqeq, _, hsel, hothers⟩ :=
    selectTheme_ok (setStorage st p) i j e (.str "theme-matrix") false hok he hsw hj
  have hload : loadSavedTheme (setStorage st p) =
      (true, applyTheme q (.str "theme-matrix") false) := by
    unfold loadSavedTheme
    rw [show (setStorage st p).storage = st from rfl, hparse]
    have htb : toBoolean (.str "theme-matrix") = true := by decide
    have hts : toStr (.str "theme-matrix") = "theme-matrix" := by decide
    simp only [themeOf, lookupProp_defineProp, htb, hts, if_true]
    rw [show getElementById (setStorage st p) "theme-matrix" = some i from hi]
    simp only [hq]
  rw [hload]
  have hel : (applyTheme q (.str "theme-matrix") false).elems = q.elems := by rw [applyTheme_eq]
  refine ⟨rfl, fun name hn => ?_, ?_, ?_, ?_⟩
  · rw [applyTheme_lookup q _ false name hn]
    exact matrix_palette_lookup name hn
  · rw [hel]; exact hsel
  · intro n e0 c hn hen hcn hcg
    rw [hel] at hcg
    exact hothers n e0 c hn hen hcn hcg
  · simp only [applyTheme, Bool.false_eq_true, if_false, themeOverrides_notifications,
      resetTheme_notifications]
    rw [hqeq]
    rfl

/-- Witness of `loadSavedTheme_after_save`: saving the matrix theme into an
empty store of `matrixFreshPage`. -/
theorem loadSavedTheme_after_save_witness :
    (loadSavedTheme (saveSettings matrixFreshPage "theme" (.str "theme-matrix")).2).1 = true ∧
    (∀ name ∈ colourVariables,
      getProperty name
        (loadSavedTheme (saveSettings matrixFreshPage "theme" (.str "theme-matrix")).2).2.rootStyle
        = getProperty name matrixPalette) ∧
    (∃ c, (loadSavedTheme (saveSettings matrixFreshPage "theme"
        (.str "theme-matrix")).2).2.elems.get? 0 = some c ∧ "selected" ∈ c.classes) ∧
    (∀ n e0 c, n ≠ 0 → matrixFreshPage.elems.get? n = some e0 → "theme-option" ∈ e0.classes →
      (loadSavedTheme (saveSettings matrixFreshPage "theme"
        (.str "theme-matrix")).2).2.elems.get? n = some c → "selected" ∉ c.classes) ∧
    (loadSavedTheme (saveSettings matrixFreshPage "theme" (.str "theme-matrix")).2).2.notifications
      = matrixFreshPage.notifications :=
  loadSavedTheme_after_save matrixFreshPage [] 0
    { plainElement "div" "theme-matrix" none with classes := ["theme-option"], swatch := some 1 }
    (by decide) (by decide) (by decide) (by decide) (by decide) (by decide)

/-- C13 fails as stated.  When the storage refuses the write (`matrixFullPage`)
the theme is not stored and `loadSavedTheme` sets no colour variable; and when
the option element has no `.w-4.h-4` descendant (`bareOptionFreshPage`)
`loadSavedTheme` throws, returns false and sets no colour variable. -/
theorem loadSavedTheme_after_save_fails :
    (JSON.parse (storedText matrixFullPage.storage) = some (.obj []) ∧
      getElementById matrixFullPage "theme-matrix" = some 0 ∧
      (loadSavedTheme (saveSettings matrixFullPage "theme" (.str "theme-matrix")).2).2.rootStyle
        = []) ∧
    (JSON.parse (storedText bareOptionFreshPage.storage) = some (.obj []) ∧
      getElementById bareOptionFreshPage "theme-matrix" = some 0 ∧
      (loadSavedTheme (saveSettings bareOptionFreshPage "theme" (.str "theme-matrix")).2).1
        = false ∧
      (loadSavedTheme (saveSettings bareOptionFreshPage "theme"
        (.str "theme-matrix")).2).2.rootStyle = []) := by
  decide

/-- C14. `loadSavedTheme` reads only the `theme` key: with the same document,
two stored objects that agree on the `theme` entry give the same outcome and
the same page (the storage apart, which it leaves alone); with no `theme` entry
(an empty store included) it returns true and leaves the page exactly as it
was; and whatever the page, it shows no notification. -/
theorem loadSavedTheme_reads_theme_only (p : Page) (s : Storage) (m m' : List (String × JVal))
    (hm : JSON.parse (storedText p.storage) = some (.obj m))
    (hm' : JSON.parse (storedText s) = some (.obj m'))
    (h : lookupProp "theme" m' = lookupProp "theme" m) :
    loadSavedTheme (setStorage s p) = ((loadSavedTheme p).1, setStorage s (loadSavedTheme p).2) ∧
    (lookupProp "theme" m = none → loadSavedTheme p = (true, p)) ∧
    (∀ p0 : Page, (loadSavedTheme p0).2.notifications = p0.notifications) := by
  refine ⟨?_, ?_, ?_⟩
  · unfold loadSavedTheme
    rw [show (setStorage s p).storage = s from rfl, hm, hm']
    simp only [themeOf, h]
    cases lookupProp "theme" m with
    | none => rfl
    | some theme =>
      simp only
      split
      · rw [show getElementById (setStorage s p) (toStr theme) = getElementById p (toStr theme)
          from rfl]
        cases getElementById p (toStr theme) with
        | none => rfl
        | some i =>
          simp only [selectTheme_setStorage]
          cases selectTheme p i theme false <;> rfl
      · rfl
  · intro hnone
    unfold loadSavedTheme
    rw [hm]
    simp only [themeOf, hnone]
  · intro p0
    unfold loadSavedTheme
    cases JSON.parse (storedText p0.storage) with
    | none => rfl
    | some settings =>
      simp only
      cases themeOf settings with
      | error err => rfl
      | ok t =>
        cases t with
        | none => rfl
        | some theme =>
          simp only
          split
          · cases getElementById p0 (toStr theme) with
            | none => rfl
            | some i =>
              simp only
              have hq := selectTheme_quiet p0 i theme
              cases hsel : selectTheme p0 i theme false with
              | error err => rw [hsel] at hq; exact hq
              | ok p1 => rw [hsel] at hq; exact hq
          · rfl

/-- Witness of `loadSavedTheme_reads_theme_only`: the store of `matrixPage`
against one that holds a slider value as well. -/
theorem loadSavedTheme_reads_theme_only_witness :
    loadSavedTheme (setStorage
        { entries := [(settingsKey,
            "\x7b\"scan-frequency\":\"5\",\"theme\":\"theme-matrix\"\x7d")], quota := 1000 }
        matrixPage) =
      ((loadSavedTheme matrixPage).1, setStorage
        { entries := [(settingsKey,
            "\x7b\"scan-frequency\":\"5\",\"theme\":\"theme-matrix\"\x7d")], quota := 1000 }
        (loadSavedTheme matrixPage).2) ∧
    (lookupProp "theme" [("theme", JVal.str "theme-matrix")] = none →
      loadSavedTheme matrixPage = (true, matrixPage)) ∧
    (∀ p0 : Page, (loadSavedTheme p0).2.notifications = p0.notifications) :=
  loadSavedTheme_reads_theme_only matrixPage _ [("theme", .str "theme-matrix")]
    [("scan-frequency", .str "5"), ("theme", .str "theme-matrix")] (by decide) (by decide)
    (by decide)

/-! ## The geographic threat map -/

theorem zoomMap_range (s : MapZoom) (factor : ℚ)
    (h : 1 / 2 ≤ s.mapZoomLevel ∧ s.mapZoomLevel ≤ 3) :
    1 / 2 ≤ (zoomMap s factor).mapZoomLevel ∧ (zoomMap s factor).mapZoomLevel ≤ 3 := by
  unfold zoomMap
  split
  · exact h
  · exact ⟨le_max_left _ _, max_le (by norm_num) (min_le_left _ _)⟩

theorem zoom_event_range (s : MapZoom) (ev : ZoomEvent)
    (h : 1 / 2 ≤ s.mapZoomLevel ∧ s.mapZoomLevel ≤ 3) :
    1 / 2 ≤ (ev.apply s).mapZoomLevel ∧ (ev.apply s).mapZoomLevel ≤ 3 := by
  cases ev with
  | initMap => exact h
  | zoom factor => exact zoomMap_range s factor h
  | reset => simp only [ZoomEvent.apply, resetMapZoom]; norm_num

theorem zoom_fold_range (events : List ZoomEvent) : ∀ s : MapZoom,
    (1 / 2 ≤ s.mapZoomLevel ∧ s.mapZoomLevel ≤ 3) →
    1 / 2 ≤ (events.foldl ZoomEvent.apply s).mapZoomLevel ∧
      (events.foldl ZoomEvent.apply s).mapZoomLevel ≤ 3 := by
  induction events with
  | nil => intro s h; exact h
  | cons ev events ih => intro s h; exact ih _ (zoom_event_range s ev h)

/-- C22. Starting from `mapZoomLevel = 1`, after any finite sequence of
`zoomMap(factor)` calls (any factor), `resetMapZoom()` calls and
initialisations of the map, `0.5 ≤ mapZoomLevel ≤ 3`; `zoomMap` leaves the state
unchanged while the map SVG has not been initialised, and `resetMapZoom`
always sets the level to 1. -/
theorem mapZoomLevel_limited :
    (∀ events : List ZoomEvent,
      1 / 2 ≤ (zoomAfter events).mapZoomLevel ∧ (zoomAfter events).mapZoomLevel ≤ 3) ∧
    (∀ (s : MapZoom) (factor : ℚ), s.geoMapSvg = false → zoomMap s factor = s) ∧
    (∀ s : MapZoom, (resetMapZoom s).mapZoomLevel = 1) := by
  refine ⟨fun events => zoom_fold_range events initialZoom ?_, ?_, fun _ => rfl⟩
  · simp only [initialZoom]; norm_num
  · intro s factor h
    simp [zoomMap, h]

theorem sortedLocations_sorted (ls : List AttackLocation) :
    (sortedLocations ls).Sorted moreAttacks := List.sorted_insertionSort moreAttacks ls

theorem sortedLocations_perm (ls : List AttackLocation) : (sortedLocations ls).Perm ls :=
  List.perm_insertionSort moreAttacks ls

/-- C23. `updateAttackOriginsList` shows the top five locations by attack
count: for every `attackLocations` of `n` entries (the list element present)
the rendered list has `min(5, n)` items, in non-increasing order of attacks;
the shown locations with the rest are the entries of `attackLocations`, and
every shown location has at least as many attacks as every one of the rest;
`attackLocations` itself is left as it was; without the list element nothing
changes; and for the shipped data the list is Beijing 421, Moscow 372,
Pyongyang 311, Tehran 305, New York 254. -/
theorem updateAttackOriginsList_top_five :
    (∀ (ls : List AttackLocation) (old : List OriginItem),
      ∃ shown rest : List AttackLocation,
        (updateAttackOriginsList { attackLocations := ls, list := some old }).list =
          some (shown.map renderOrigin) ∧
        shown.length = min 5 ls.length ∧ shown.Sorted moreAttacks ∧
        (shown ++ rest).Perm ls ∧ (∀ a ∈ shown, ∀ b ∈ rest, b.attacks ≤ a.attacks) ∧
        (updateAttackOriginsList { attackLocations := ls, list := some old }).attackLocations
          = ls) ∧
    (∀ ls : List AttackLocation,
      (updateAttackOriginsList { attackLocations := ls, list := none }).list = none ∧
      (updateAttackOriginsList { attackLocations := ls, list := none }).attackLocations = ls) ∧
    ((updateAttackOriginsList { attackLocations := attackLocations, list := some [] }).list.map
        fun items => items.map fun it => (it.name, it.attacks)) =
      some [("Beijing, China", 421), ("Moscow, Russia", 372), ("Pyongyang, North Korea", 311),
        ("Tehran, Iran", 305), ("New York, USA", 254)] := by
  refine ⟨?_, fun ls => ⟨rfl, rfl⟩, ?_⟩
  · intro ls old
    refine ⟨(sortedLocations ls).take 5, (sortedLocations ls).drop 5, rfl, ?_, ?_, ?_, ?_, rfl⟩
    · rw [List.length_take, (sortedLocations_perm ls).length_eq]
    · exact (sortedLocations_sorted ls).sublist (List.take_sublist 5 _)
    · rw [List.take_append_drop]
      exact sortedLocations_perm ls
    · intro a ha b hb
      have h := sortedLocations_sorted ls
      rw [← List.take_append_drop 5 (sortedLocations ls)] at h
      exact (List.pairwise_append.1 h).2.2 a ha b hb
  · decide

theorem timerPeriod_bounds (w : ℚ) (h5 : 5 ≤ w) (h50 : w ≤ 50) :
    200 ≤ timerPeriod w ∧ timerPeriod w ≤ 2000 := by
  have hpos : (0 : ℚ) < w := by linarith
  unfold timerPeriod
  constructor
  · rw [le_div_iff₀ hpos]; linarith
  · rw [div_le_iff₀ hpos]; linarith

theorem shipped_weights_range : ∀ w ∈ attackOriginWeights, 5 ≤ w ∧ w ≤ 50 := by
  intro w hw
  simp only [attackOriginWeights, List.mem_cons, List.mem_singleton, List.not_mem_nil,
    or_false] at hw
  rcases hw with h | h | h | h | h | h | h | h | h <;> subst h <;> norm_num

theorem mem_refreshThreatMap (ws : List ℚ) : ∀ (rs : List ℚ) (w : ℚ),
    w ∈ refreshThreatMap ws rs → ∃ a b, w = refreshWeight a b := by
  induction ws with
  | nil => intro rs w hw; simp [refreshThreatMap] at hw
  | cons a ws ih =>
    intro rs w hw
    cases rs with
    | nil => simp [refreshThreatMap] at hw
    | cons b rs =>
      simp only [refreshThreatMap, List.zipWith_cons_cons, List.mem_cons] at hw
      rcases hw with hw | hw
      · exact ⟨a, b, hw⟩
      · exact ih rs w hw

theorem reachableWeights_range (ws : List ℚ) (h : ReachableWeights ws) :
    ws.length = 9 ∧ ∀ w ∈ ws, 5 ≤ w ∧ w ≤ 50 := by
  induction h with
  | shipped => exact ⟨rfl, shipped_weights_range⟩
  | refreshed ws rs _ hlen _ ih =>
    refine ⟨?_, ?_⟩
    · simp [refreshThreatMap, List.length_zipWith, hlen, ih.1]
    · intro w hw
      obtain ⟨a, b, hab⟩ := mem_refreshThreatMap ws rs w hw
      rw [hab]
      exact refreshWeight_range a b

/-- C26. Attack weights stay bounded: in every state reachable from the
shipped `attackOrigins` by any number of `refreshThreatMap` calls with draws in
`[0, 1)`, each of the nine origins has a weight in `[5, 50]`; so the period
`10000 / weight` of `addAttackSources` never divides by zero and lies in
`[200, 2000]` ms. -/
theorem attack_weights_bounded (ws : List ℚ) (h : ReachableWeights ws) :
    ws.length = 9 ∧
    ∀ w ∈ ws, (5 ≤ w ∧ w ≤ 50) ∧ w ≠ 0 ∧ 200 ≤ timerPeriod w ∧ timerPeriod w ≤ 2000 := by
  obtain ⟨hlen, hr⟩ := reachableWeights_range ws h
  refine ⟨hlen, fun w hw => ?_⟩
  obtain ⟨h5, h50⟩ := hr w hw
  refine ⟨⟨h5, h50⟩, ?_, timerPeriod_bounds w h5 h50⟩
  intro h0
  rw [h0] at h5
  norm_num at h5

/-- Witness of `attack_weights_bounded`: the weights after one refresh of the
shipped origins in which every draw is one half (which changes nothing). -/
theorem attack_weights_bounded_witness :
    (refreshThreatMap attackOriginWeights (List.replicate 9 (1 / 2))).length = 9 ∧
    ∀ w ∈ refreshThreatMap attackOriginWeights (List.replicate 9 (1 / 2)),
      (5 ≤ w ∧ w ≤ 50) ∧ w ≠ 0 ∧ 200 ≤ timerPeriod w ∧ timerPeriod w ≤ 2000 :=
  attack_weights_bounded _
    (ReachableWeights.refreshed attackOriginWeights (List.replicate 9 (1 / 2))
      ReachableWeights.shipped rfl (fun r hr => by
        rw [List.eq_of_mem_replicate hr]
        norm_num))

/-! ## The attack log filter -/

theorem toLowerCase_eq_empty (s : String) : toLowerCase s = "" ↔ s = "" := by
  constructor
  · intro h
    have h2 := congrArg String.data h
    simp only [toLowerCase] at h2
    exact String.ext (List.map_eq_nil_iff.1 h2)
  · intro h
    rw [h]
    rfl

theorem rowShown_iff (s : AttackLog) (row : LogRow) :
    (matchesSearch (toLowerCase s.searchInput) row && matchesFilter s.typeFilter row) = true ↔
      rowShown s row := by
  simp only [matchesSearch, matchesFilter, rowShown, Bool.and_eq_true, Bool.or_eq_true,
    decide_eq_true_eq, toLowerCase_eq_empty]
  tauto

theorem filterRows_spec (searchTerm filterType : String) (rows : List LogRow) : ∀ n : Nat,
    (filterRows searchTerm filterType rows n).1 =
      rows.map (fun row =>
        if matchesSearch searchTerm row && matchesFilter filterType row then
          { row with display := "" }
        else { row with display := "none" }) ∧
    (filterRows searchTerm filterType rows n).2 =
      n + (visible (filterRows searchTerm filterType rows n).1).length := by
  induction rows with
  | nil => intro n; exact ⟨rfl, rfl⟩
  | cons row rows ih =>
    intro n
    unfold filterRows
    split
    · rename_i h
      obtain ⟨h1, h2⟩ := ih (n + 1)
      refine ⟨?_, ?_⟩
      · simp only [List.map_cons, h, if_true, h1]
      · simp only [h2, visible, List.filter_cons]
        simp only [ne_eq, String.reduceEq, not_false_eq_true, decide_True, if_true,
          List.length_cons]
        omega
    · rename_i h
      obtain ⟨h1, h2⟩ := ih n
      refine ⟨?_, ?_⟩
      · simp only [List.map_cons, h, h1]
        rfl
      · simp only [h2, visible, List.filter_cons]
        simp only [ne_eq, not_true_eq_false, decide_False, Bool.false_eq_true, if_false]

/-- C24. `filterAttackLog`: for every table, search text and type filter, each
row keeps its cells and is shown (display empty) exactly when the search text
is empty or its lower-cased form is contained in the lower-cased timestamp,
source-IP or attack-type cell, and the filter is `all` or the lower-cased
attack-type cell contains the filter value with its first `-` replaced by a
space; every other row is hidden (display `none`); the text of
`showing-records`, when the element exists, is the number of shown rows, which
is the number of rows for an empty search with the filter `all`. -/
theorem filterAttackLog_shows (s : AttackLog) :
    (filterAttackLog s).rows.length = s.rows.length ∧
    (∀ (i : Nat) (row : LogRow), s.rows.get? i = some row →
      ∃ row', (filterAttackLog s).rows.get? i = some row' ∧ row'.cells = row.cells ∧
        (row'.display = "" ↔ rowShown s row) ∧ (row'.display = "none" ↔ ¬ rowShown s row)) ∧
    (filterAttackLog s).showingRecords =
      s.showingRecords.map (fun _ =>
        String.mk (natDigits (visible (filterAttackLog s).rows).length)) ∧
    (s.searchInput = "" → s.typeFilter = "all" →
      (visible (filterAttackLog s).rows).length = s.rows.length) := by
  obtain ⟨h1, h2⟩ := filterRows_spec (toLowerCase s.searchInput) s.typeFilter s.rows 0
  have hrows : (filterAttackLog s).rows = s.rows.map (fun row =>
      if matchesSearch (toLowerCase s.searchInput) row && matchesFilter s.typeFilter row then
        { row with display := "" }
      else { row with display := "none" }) := h1
  refine ⟨?_, ?_, ?_, ?_⟩
  · rw [hrows, List.length_map]
  · intro i row hi
    rw [hrows, List.get?_eq_getElem?, List.getElem?_map, ← List.get?_eq_getElem?, hi]
    by_cases hc : (matchesSearch (toLowerCase s.searchInput) row &&
        matchesFilter s.typeFilter row) = true
    · have hsh := (rowShown_iff s row).1 hc
      refine ⟨{ row with display := "" }, ?_, rfl, ⟨fun _ => hsh, fun _ => rfl⟩,
        ⟨fun h => absurd (show ("" : String) = "none" from h) (by decide),
          fun h => absurd hsh h⟩⟩
      simp only [Option.map_some', hc, if_true]
    · have hsh : ¬ rowShown s row := fun h => hc ((rowShown_iff s row).2 h)
      refine ⟨{ row with display := "none" }, ?_, rfl,
        ⟨fun h => absurd (show ("none" : String) = "" from h) (by decide),
          fun h => absurd h hsh⟩, ⟨fun _ => hsh, fun _ => rfl⟩⟩
      simp only [Option.map_some', hc, Bool.false_eq_true, if_false]
  · show s.showingRecords.map _ = _
    rw [h2, Nat.zero_add]
    rfl
  · intro hs hf
    rw [hrows]
    have hall : ∀ row : LogRow, (matchesSearch (toLowerCase s.searchInput) row &&
        matchesFilter s.typeFilter row) = true := fun row =>
      (rowShown_iff s row).2 ⟨Or.inl hs, Or.inl hf⟩
    simp only [hall, if_true, visible]
    rw [List.filter_eq_self.2, List.length_map]
    intro r hr
    obtain ⟨r0, _, hr0⟩ := List.mem_map.1 hr
    rw [← hr0]
    exact decide_eq_true (show ("" : String) ≠ "none" by decide)

/-- The sample log filtered: only the first row contains `192` and is a SYN
flood, so it alone is shown and the count reads `1`. -/
theorem sampleLog_filtered :
    ((filterAttackLog sampleLog).rows.map fun r => r.display) = ["", "none", "none"] ∧
    (filterAttackLog sampleLog).showingRecords = some "1" := by
  decide



/-! ## The attack timeline -/

/-- The draws `1/100` and `1/100` in the hour `i = 23` give 21 attacks of
which 18 are mitigated: fewer than 90 %, although the comment on the line
reads `90-100% mitigated`. -/
theorem timeline_mitigated_below_ninety :
    hourAttacks 23 (1 / 100) = 21 ∧ hourMitigated 21 (1 / 100) = 18 ∧
      ¬ ((0.9 : ℚ) * 21 ≤ ((hourMitigated 21 (1 / 100) : Int) : ℚ)) := by
  have h1 : hourAttacks 23 (1 / 100) = 21 := by
    unfold hourAttacks
    have : ⌊(1 / 100 : ℚ) * 150⌋ = 1 := by
      rw [Int.floor_eq_iff]
      norm_num
    rw [this]
    decide
  have h2 : hourMitigated 21 (1 / 100) = 18 := by
    unfold hourMitigated
    rw [Int.floor_eq_iff]
    norm_num
  refine ⟨h1, h2, ?_⟩
  rw [h2]
  norm_num

/-- What does hold of the mitigated count: it is at most the attack count and
more than 90 % of it less one. -/
theorem hourMitigated_range (attacks : Int) (r : ℚ) (ha : 0 ≤ attacks) (h0 : 0 ≤ r)
    (h1 : r < 1) :
    hourMitigated attacks r ≤ attacks ∧
      (0.9 : ℚ) * attacks - 1 < ((hourMitigated attacks r : Int) : ℚ) := by
  have haq : (0 : ℚ) ≤ (attacks : ℚ) := by exact_mod_cast ha
  unfold hourMitigated
  constructor
  · have h : ⌊(attacks : ℚ) * (0.9 + r * 0.1)⌋ ≤ ⌊(attacks : ℚ)⌋ := by
      apply Int.floor_le_floor
      have : (0.9 : ℚ) + r * 0.1 ≤ 1 := by norm_num; linarith
      nlinarith
    simpa using h
  · have h := Int.lt_floor_add_one ((attacks : ℚ) * (0.9 + r * 0.1))
    have h2 : (0.9 : ℚ) * attacks ≤ (attacks : ℚ) * (0.9 + r * 0.1) := by
      have : (0 : ℚ) ≤ r * 0.1 := by positivity
      nlinarith
    linarith

/-! ## The frame of `saveSettings` -/

/-- The store of `matrixPage` after saving a slider value. -/
theorem matrixPage_saved :
    storedText (saveSettings matrixPage "scan-frequency" (.str "5")).2.storage =
      "\x7b\"theme\":\"theme-matrix\",\"scan-frequency\":\"5\"\x7d" := by
  decide

end CyberShield
